import Mathlib

set_option maxHeartbeats 1000000
set_option synthInstance.maxHeartbeats 200000

/-!
Verification of the go-dbmanager reconciliation engine.

The repository contains several snapshots of the PostgreSQL and MySQL
managers.  Each definition below carries a comment naming the source file
(and, where the repository holds several versions of a file, the version)
it is translated from.  Server-side behaviour (what a statement does to the
catalog once the driver executes it) is modelled explicitly in
`Catalog.applyStmt`; the model is stated in the doc comments there.
-/

/-- Boolean role options, from `UserOptions` in the manager interface file. -/
structure UserOptions where
  login : Bool
  superuser : Bool
  createDatabase : Bool
  createRole : Bool
  inherit : Bool
  replication : Bool
  bypassRLS : Bool
deriving DecidableEq

/-- A declared privilege grant, from `Grant` in the manager interface file. -/
structure Grant where
  database : String
  schema : String
  sequence : String
  table : String
  parameter : String
  privileges : List String
  withGrant : Bool
deriving DecidableEq

/-- A declared default-privilege rule, from `DefaultPrivilege` in the manager
interface file.  The source's `On` and `To` fields are called `onClass` and
`grantee` here because `on` and `to` are reserved in Lean. -/
structure DefaultPrivilege where
  role : String
  schema : String
  grant : List String
  onClass : String
  grantee : String
  withGrant : Bool
deriving DecidableEq

/-- A declared user, from `User` in the manager interface file. -/
structure User where
  name : String
  password : String
  options : UserOptions
  grants : List Grant
  roles : List String
deriving DecidableEq

/-- A declared database, from `Database` in the manager interface file. -/
structure Database where
  name : String
  defaultPrivileges : List DefaultPrivilege
  owner : String
deriving DecidableEq

/-- `QuoteIdentifier` from `manager.go`: truncate at the first zero byte,
double every double quote, and wrap in double quotes (stated over the
character data so that it computes by reduction). -/
def QuoteIdentifier (name : String) : String :=
  let data := name.data.takeWhile (fun ch => ch ≠ Char.ofNat 0)
  ⟨'"' :: (data.map (fun ch => if ch = '"' then ['"', '"'] else [ch])).join ++ ['"']⟩

/-- Go's `strings.ToLower`, stated over the character data so that it
computes by reduction (ASCII case folding, which covers the identifiers the
managers lower-case). -/
def toLowerStr (s : String) : String := ⟨s.data.map Char.toLower⟩

/-- An object a privilege can be held on.  Table/sequence/schema objects are
keyed by the database of the connection the catalog query runs on. -/
inductive PrivObj where
  | database (db : String)
  | schema (db sch : String)
  | table (db sch tbl : String)
  | sequence (db sch seq : String)
  | parameter (p : String)
deriving DecidableEq

/-- One held privilege: (grantee, object, privilege name). -/
structure PrivKey where
  user : String
  obj : PrivObj
  priv : String
deriving DecidableEq

/-- A statement handed to `db.Exec`, tagged with the call site that built it
and its semantic payload.  `Stmt.sql` below rebuilds the literal SQL text the
Go code interpolates. -/
inductive Stmt where
  | createUser (name : String) (isUser : Bool) (password : String) (clauses : List String)
  | alterUser (name : String) (clauses : List String)
  | setPassword (name password : String)
  | createDatabase (name owner : String)
  | alterDatabaseOwner (name owner : String)
  | alterDefaultPrivilege (database : String) (rule : DefaultPrivilege)
  | grant (username : String) (g : Grant)
  | grantRole (role username : String)
  | revokeRole (role username : String)
  | myCreateDatabase (name : String)
  | myCreateUser (name password : String)
  | mySetPassword (name password : String)
  | myGrant (username : String) (g : Grant)
deriving DecidableEq

/-- Errors surfaced by the managers: `notFound` for the owner-does-not-exist
`fmt.Errorf`, `stmt` for a statement the server rejected, `invalidGrant` for
the "invalid grant options" error, `noRows` for a scalar query that found no
row where the Go code propagates the driver error. -/
inductive Err where
  | notFound (msg : String)
  | stmt (s : Stmt)
  | invalidGrant
  | noRows
deriving DecidableEq

/-- Equality of operation outcomes is decidable (needed to evaluate the
model at concrete inputs). -/
instance {ε α : Type} [DecidableEq ε] [DecidableEq α] : DecidableEq (Except ε α)
  | .ok a, .ok b =>
    if h : a = b then .isTrue (by rw [h]) else .isFalse (by simp [h])
  | .ok _, .error _ => .isFalse (by simp)
  | .error _, .ok _ => .isFalse (by simp)
  | .error a, .error b =>
    if h : a = b then .isTrue (by rw [h]) else .isFalse (by simp [h])

/-- The PostgreSQL catalog as the managers observe it, plus `admin`, the user
name of the administrative connection (`m.connection.Username`). -/
structure Catalog where
  admin : String
  users : List (String × UserOptions)
  memberships : List (String × String)
  databases : List (String × String)
  privs : List PrivKey
deriving DecidableEq

/-- Privilege expansion for tables, from `hasTablePrivilege`: the sentinel
"ALL" in first position becomes the canonical full list. -/
def expandTablePrivs (privs : List String) : List String :=
  if privs.headI = "ALL" then
    ["SELECT", "INSERT", "UPDATE", "DELETE", "TRUNCATE", "REFERENCES", "TRIGGER"]
  else privs

/-- Privilege expansion for databases, from `hasDatabasePrivilege`. -/
def expandDatabasePrivs (privs : List String) : List String :=
  if privs.headI = "ALL" then ["CREATE", "CONNECT", "TEMPORARY", "TEMP"] else privs

/-- Privilege expansion for schemas, from `hasSchemaPrivilege`. -/
def expandSchemaPrivs (privs : List String) : List String :=
  if privs.headI = "ALL" then ["CREATE", "USAGE"] else privs

/-- Privilege expansion for sequences, from `hasSequencePrivilege`. -/
def expandSequencePrivs (privs : List String) : List String :=
  if privs.headI = "ALL" then ["SELECT", "UPDATE"] else privs

/-- Server model: interpretation of one option clause of a CREATE/ALTER
USER/ROLE statement.  A clause asserts exactly one boolean option; a
`LOGIN PASSWORD '…'` clause asserts the login option.  Clauses outside this
vocabulary (none are produced by the managers) change nothing. -/
def applyClause (o : UserOptions) (clause : String) : UserOptions :=
  if clause = "SUPERUSER" then { o with superuser := true }
  else if clause = "NOSUPERUSER" then { o with superuser := false }
  else if clause = "CREATEROLE" then { o with createRole := true }
  else if clause = "NOCREATEROLE" then { o with createRole := false }
  else if clause = "CREATEDB" then { o with createDatabase := true }
  else if clause = "NOCREATEDB" then { o with createDatabase := false }
  else if clause = "LOGIN" then { o with login := true }
  else if clause = "NOLOGIN" then { o with login := false }
  else if clause = "INHERIT" then { o with inherit := true }
  else if clause = "NOINHERIT" then { o with inherit := false }
  else if clause = "REPLICATION" then { o with replication := true }
  else if clause = "NOREPLICATION" then { o with replication := false }
  else if clause = "BYPASSRLS" then { o with bypassRLS := true }
  else if clause = "NOBYPASSRLS" then { o with bypassRLS := false }
  else o

/-- Server model: apply a list of option clauses in order. -/
def applyClauses (o : UserOptions) (clauses : List String) : UserOptions :=
  clauses.foldl applyClause o

/-- Server model: options of a freshly created role before its clauses are
interpreted.  The USER form of the statement implies the login option;
PostgreSQL defaults INHERIT on for both CREATE USER and CREATE ROLE; every
other option starts out false. -/
def freshOptions (isUser : Bool) : UserOptions :=
  { login := isUser, superuser := false, createDatabase := false,
    createRole := false, inherit := true, replication := false,
    bypassRLS := false }

/-- Server model: the privileges a GRANT statement confers, keyed by the
database of the connection it runs on.  The object is chosen exactly as the
grant-query builders choose it (parameter scope, database scope, then the
sequence/table switch of `grantSchemaPermissionQuery`); "ALL" confers the
canonical full list for the object class. -/
def grantEffect (connDb username : String) (g : Grant) : List PrivKey :=
  if g.database = "" ∧ g.parameter ≠ "" then
    g.privileges.map (fun p => ⟨username, .parameter g.parameter, p⟩)
  else if g.database ≠ "" ∧ g.schema = "" then
    (expandDatabasePrivs g.privileges).map (fun p => ⟨username, .database g.database, p⟩)
  else if g.database ≠ "" ∧ g.schema ≠ "" then
    if g.sequence = "*" then
      (expandSequencePrivs g.privileges).map (fun p => ⟨username, .sequence connDb g.schema "*", p⟩)
    else if g.sequence ≠ "" then
      (expandSequencePrivs g.privileges).map (fun p => ⟨username, .sequence connDb g.schema g.sequence, p⟩)
    else if g.table = "*" then
      (expandTablePrivs g.privileges).map (fun p => ⟨username, .table connDb g.schema "*", p⟩)
    else if g.table ≠ "" then
      (expandTablePrivs g.privileges).map (fun p => ⟨username, .table connDb g.schema g.table, p⟩)
    else []
  else []

/-- Server model: the state transition a successfully executed statement
performs on the catalog.  CREATE statements add an entry, ALTER statements
update the matching entry, GRANT/REVOKE of a role edits the membership list,
a privilege GRANT adds the conferred privileges, and password / default
privilege statements leave the modelled catalog unchanged. -/
def Catalog.applyStmt (c : Catalog) (s : Stmt) : Catalog :=
  match s with
  | .createUser name isUser _ clauses =>
      { c with users := (name, applyClauses (freshOptions isUser) clauses) :: c.users }
  | .alterUser name clauses =>
      { c with users := c.users.map (fun u =>
          if u.1 = name then (u.1, applyClauses u.2 clauses) else u) }
  | .setPassword _ _ => c
  | .createDatabase name owner =>
      { c with databases := (name, if owner = "" then c.admin else owner) :: c.databases }
  | .alterDatabaseOwner name owner =>
      { c with databases := c.databases.map (fun d =>
          if d.1 = name then (d.1, owner) else d) }
  | .alterDefaultPrivilege _ _ => c
  | .grant username g =>
      { c with privs := grantEffect (if g.database = "" then "postgres" else g.database) username g ++ c.privs }
  | .grantRole role username =>
      { c with memberships := (username, role) :: c.memberships }
  | .revokeRole role username =>
      { c with memberships := c.memberships.filter (fun p => ¬(p = (username, role))) }
  | .myCreateDatabase _ => c
  | .myCreateUser _ _ => c
  | .mySetPassword _ _ => c
  | .myGrant _ _ => c

/-- Catalog query: does a role with this exact name exist (`userExists`,
`SELECT 1 FROM pg_roles WHERE rolname = $1`). -/
def Catalog.userExists (c : Catalog) (name : String) : Prop :=
  name ∈ c.users.map Prod.fst

instance (c : Catalog) (name : String) : Decidable (c.userExists name) := by
  unfold Catalog.userExists; infer_instance

/-- Catalog query: the options row of a role (`getUser`). -/
def Catalog.getUser (c : Catalog) (name : String) : Except Err UserOptions :=
  match c.users.find? (fun u => u.1 = name) with
  | some u => .ok u.2
  | none => .error .noRows

/-- Catalog query: does a database with this name exist (`databaseExists`). -/
def Catalog.databaseExists (c : Catalog) (name : String) : Prop :=
  name ∈ c.databases.map Prod.fst

instance (c : Catalog) (name : String) : Decidable (c.databaseExists name) := by
  unfold Catalog.databaseExists; infer_instance

/-- Catalog query: the owner of a database (`getDatabaseOwner`); the Go code
propagates the driver error when the database does not exist. -/
def Catalog.getDatabaseOwner (c : Catalog) (name : String) : Except Err String :=
  match c.databases.find? (fun d => d.1 = name) with
  | some d => .ok d.2
  | none => .error .noRows

/-- Catalog query: is this exact privilege held. -/
def Catalog.holds (c : Catalog) (username : String) (obj : PrivObj) (priv : String) : Prop :=
  PrivKey.mk username obj priv ∈ c.privs

instance (c : Catalog) (u : String) (o : PrivObj) (p : String) :
    Decidable (c.holds u o p) := by
  unfold Catalog.holds; infer_instance

/-- Result of one manager operation: outcome, catalog afterwards, and the
list of statements handed to `db.Exec`, in order. -/
abbrev Res := Except Err Unit × Catalog × List Stmt

/-- Execute one statement against a server that accepts it. -/
def exec (c : Catalog) (s : Stmt) : Catalog × List Stmt :=
  (c.applyStmt s, [s])

/-- Sequential processing of a list with early return on error, as the Go
`for` loops that `return err` from the body do.  Traces concatenate.  The
state type is generic so the same loop serves both managers. -/
def runList {σ α : Type} (f : σ → α → Except Err Unit × σ × List Stmt) :
    σ → List α → Except Err Unit × σ × List Stmt
  | c, [] => (.ok (), c, [])
  | c, a :: as =>
    match f c a with
    | (.error e, c', t) => (.error e, c', t)
    | (.ok _, c', t) =>
      match runList f c' as with
      | (r, c'', t') => (r, c'', t ++ t')

/-- Go's `strings.HasSuffix`, stated over the character data. -/
def hasSuffix (q suffix : String) : Bool := suffix.data.isSuffixOf q.data

/-- The `addOption` closure of `createUser`/`updateUser`: the first option is
preceded by " WITH" (detected, as in the source, by the query still ending in
the quoted user name). -/
def addOptions (quoted : String) (q : String) (opts : List String) : String :=
  opts.foldl (fun q opt => (if hasSuffix q quoted then q ++ " WITH" else q) ++ " " ++ opt) q

/-- `grantDatabasePermissionQuery` from the postgres grant code. -/
def grantDatabasePermissionQuery (username : String) (g : Grant) : String :=
  let query := "GRANT " ++ String.intercalate ", " g.privileges ++ " ON DATABASE "
    ++ QuoteIdentifier g.database ++ " TO " ++ QuoteIdentifier username
  if g.withGrant then query ++ " WITH GRANT OPTION" else query

/-- `grantParameterPermissionQuery` from the postgres grant code. -/
def grantParameterPermissionQuery (username : String) (g : Grant) : String :=
  let query := "GRANT " ++ String.intercalate ", " g.privileges ++ " ON"
  let query := if g.parameter = "*" then query ++ " ALL PARAMETERS"
    else query ++ " PARAMETER " ++ QuoteIdentifier g.parameter
  query ++ " TO " ++ QuoteIdentifier username

/-- `grantSchemaPermissionQuery` from the postgres grant code.  Note the
switch has no case for a schema-wide grant without table or sequence. -/
def grantSchemaPermissionQuery (username : String) (g : Grant) : String :=
  let query := "GRANT " ++ String.intercalate ", " g.privileges ++ " ON"
  let query :=
    if g.sequence = "*" then query ++ " ALL SEQUENCES IN SCHEMA " ++ QuoteIdentifier g.schema
    else if g.sequence ≠ "" then
      query ++ " SEQUENCE " ++ QuoteIdentifier g.schema ++ "." ++ QuoteIdentifier g.sequence
    else if g.table = "*" then query ++ " ALL TABLES IN SCHEMA " ++ QuoteIdentifier g.schema
    else if g.table ≠ "" then
      query ++ " TABLE " ++ QuoteIdentifier g.schema ++ "." ++ QuoteIdentifier g.table
    else query
  let query := query ++ " TO " ++ QuoteIdentifier username
  if g.withGrant then query ++ " WITH GRANT OPTION" else query

/-- `alterDefaultPrivilegeQuery` from the postgres database code. -/
def alterDefaultPrivilegeQuery (p : DefaultPrivilege) : String :=
  let query := "ALTER DEFAULT PRIVILEGES"
  let query := if p.role ≠ "" then query ++ " FOR ROLE " ++ QuoteIdentifier p.role else query
  let query := query ++ " IN SCHEMA " ++ QuoteIdentifier p.schema ++ " GRANT "
    ++ String.intercalate ", " p.grant ++ " ON " ++ p.onClass ++ " TO " ++ QuoteIdentifier p.grantee
  if p.withGrant then query ++ " WITH GRANT OPTION" else query

/-- The literal SQL text each recorded statement stands for, rebuilt with the
source's query builders. -/
def Stmt.sql : Stmt → String
  | .createUser name isUser pw clauses =>
      addOptions (QuoteIdentifier name)
        ("CREATE " ++ (if isUser then "USER" else "ROLE") ++ " " ++ QuoteIdentifier name)
        ((if pw ≠ "" then ["LOGIN PASSWORD '" ++ pw ++ "'"] else []) ++ clauses)
  | .alterUser name clauses =>
      addOptions (QuoteIdentifier name) ("ALTER USER " ++ QuoteIdentifier name) clauses
  | .setPassword name pw => "ALTER USER " ++ QuoteIdentifier name ++ " WITH LOGIN PASSWORD '" ++ pw ++ "'"
  | .createDatabase name owner =>
      "CREATE DATABASE " ++ name ++ (if owner ≠ "" then " OWNER " ++ QuoteIdentifier owner else "")
  | .alterDatabaseOwner name owner => "ALTER DATABASE " ++ name ++ " OWNER TO " ++ QuoteIdentifier owner
  | .alterDefaultPrivilege _ p => alterDefaultPrivilegeQuery p
  | .grant username g =>
      if g.database = "" ∧ g.parameter ≠ "" then grantParameterPermissionQuery username g
      else if g.database ≠ "" ∧ g.schema = "" then grantDatabasePermissionQuery username g
      else grantSchemaPermissionQuery username g
  | .grantRole role username => "GRANT " ++ QuoteIdentifier role ++ " TO " ++ QuoteIdentifier username
  | .revokeRole role username => "REVOKE " ++ QuoteIdentifier role ++ " FROM " ++ QuoteIdentifier username
  | .myCreateDatabase name => "CREATE DATABASE " ++ name
  | .myCreateUser name pw => "CREATE USER '" ++ name ++ "'@'%' IDENTIFIED BY '" ++ pw ++ "'"
  | .mySetPassword name pw => "ALTER USER '" ++ name ++ "'@'%' IDENTIFIED BY '" ++ pw ++ "'"
  | .myGrant username g =>
      let q := "GRANT " ++ String.intercalate ", " g.privileges ++ " ON " ++ g.database
        ++ ".* TO '" ++ username ++ "'@'%'"
      if g.withGrant then q ++ " WITH GRANT OPTION" else q

/-!
The `PG` namespace embeds the snapshot the `Manage` claims cite: `Manage`,
`GrantPermissions(username, database, grants)` and the privilege checks from
`postgres.go` (lines 73-302), the user lifecycle from `postgres_user.go`
(first version, lines 10-205), and the database lifecycle from
`src/unnamed/part_001` (lines 10-156).
-/
namespace PG

/-- Boolean-option clauses of `createUser` (postgres_user.go lines 39-92), in
source order.  The `LOGIN PASSWORD '…'` clause, which in the source precedes
these through the same `addOption` helper, is carried separately in the
`Stmt.createUser` payload and re-inserted in front by `Stmt.sql`; its only
catalog effect (the login option) is subsumed by the USER statement form. -/
def createUserClauses (o : UserOptions) : List String :=
  (if o.superuser then ["SUPERUSER"] else []) ++
  (if o.createRole then ["CREATEROLE"] else []) ++
  (if o.createDatabase then ["CREATEDB"] else []) ++
  (if o.inherit then ["INHERIT"] else []) ++
  (if o.replication then ["REPLICATION"] else []) ++
  (if o.bypassRLS then ["BYPASSRLS"] else [])

/-- `createUser` picks the USER form when the user has a password or has
`login` set, otherwise the ROLE form. -/
def isUserForm (user : User) : Bool := user.options.login || user.password ≠ ""

/-- `createUser` from postgres_user.go. -/
def createUser (c : Catalog) (user : User) : Res :=
  let (c', t) := exec c (.createUser user.name (isUserForm user) user.password (createUserClauses user.options))
  (.ok (), c', t)

/-- One boolean-option diff block of `updateUser`: when declared and live
differ, append the enabling clause if declared is true, else the explicit
negating clause. -/
def optClause (d l : Bool) (enable disable : String) : List String :=
  if d ≠ l then [if d then enable else disable] else []

/-- The option clauses `updateUser` (postgres_user.go lines 115-194) appends,
in source order. -/
def updateUserClauses (d l : UserOptions) : List String :=
  optClause d.superuser l.superuser "SUPERUSER" "NOSUPERUSER" ++
  optClause d.createRole l.createRole "CREATEROLE" "NOCREATEROLE" ++
  optClause d.createDatabase l.createDatabase "CREATEDB" "NOCREATEDB" ++
  optClause d.login l.login "LOGIN" "NOLOGIN" ++
  optClause d.inherit l.inherit "INHERIT" "NOINHERIT" ++
  optClause d.replication l.replication "REPLICATION" "NOREPLICATION" ++
  optClause d.bypassRLS l.bypassRLS "BYPASSRLS" "NOBYPASSRLS"

/-- `updateUser` from postgres_user.go: fetch the live options, then execute
one ALTER USER statement carrying the diff clauses (executed even when the
diff is empty). -/
def updateUser (c : Catalog) (user : User) : Res :=
  match c.getUser user.name with
  | .error e => (.error e, c, [])
  | .ok live =>
    let (c', t) := exec c (.alterUser user.name (updateUserClauses user.options live))
    (.ok (), c', t)

/-- `setPassword` from postgres_user.go. -/
def setPassword (c : Catalog) (name password : String) : Res :=
  let (c', t) := exec c (.setPassword name password)
  (.ok (), c', t)

/-- `CreateUser` from postgres_user.go: create when absent, update when
present, then unconditionally re-assert a non-empty declared password. -/
def CreateUser (c : Catalog) (user : User) : Res :=
  let step := if c.userExists user.name then updateUser c user else createUser c user
  match step with
  | (.error e, c', t) => (.error e, c', t)
  | (.ok _, c', t) =>
    if user.password ≠ "" then
      match setPassword c' user.name user.password with
      | (r, c'', t') => (r, c'', t ++ t')
    else (.ok (), c', t)

/-- `createDatabase` from part_001 (lines 32-60): skip when the database
exists; with a declared owner, fail with a not-found error before issuing any
DDL when the owner role does not exist. -/
def createDatabase (c : Catalog) (database : Database) : Res :=
  if c.databaseExists database.name then (.ok (), c, [])
  else if database.owner ≠ "" then
    if c.userExists database.owner then
      let (c', t) := exec c (.createDatabase database.name database.owner)
      (.ok (), c', t)
    else (.error (.notFound ("owner " ++ database.owner ++ " does not exist")), c, [])
  else
    let (c', t) := exec c (.createDatabase database.name "")
    (.ok (), c', t)

/-- `updateDatabase` from part_001 (lines 63-84): skip when the live owner
already matches; otherwise alter ownership when an owner is declared. -/
def updateDatabase (c : Catalog) (database : Database) : Res :=
  match c.getDatabaseOwner database.name with
  | .error e => (.error e, c, [])
  | .ok currentOwner =>
    if currentOwner = database.owner then (.ok (), c, [])
    else if database.owner ≠ "" then
      let (c', t) := exec c (.alterDatabaseOwner database.name database.owner)
      (.ok (), c', t)
    else (.ok (), c, [])

/-- `alterDefaultPrivileges` from part_001 (lines 111-143): one ALTER DEFAULT
PRIVILEGES statement per declared rule, unconditionally, on a connection
scoped to the database. -/
def alterDefaultPrivileges (c : Catalog) (database : String) (privileges : List DefaultPrivilege) : Res :=
  runList (fun c p =>
    let (c', t) := exec c (.alterDefaultPrivilege database p)
    (.ok (), c', t)) c privileges

/-- `CreateDatabase` from part_001 (lines 12-29). -/
def CreateDatabase (c : Catalog) (database : Database) : Res :=
  match createDatabase c database with
  | (.error e, c1, t1) => (.error e, c1, t1)
  | (.ok _, c1, t1) =>
    match updateDatabase c1 database with
    | (.error e, c2, t2) => (.error e, c2, t1 ++ t2)
    | (.ok _, c2, t2) =>
      match alterDefaultPrivileges c2 database.name database.defaultPrivileges with
      | (r, c3, t3) => (r, c3, t1 ++ t2 ++ t3)

/-- `hasDatabasePrivilege` from postgres.go (lines 207-219): a single
`has_database_privilege` call whose privilege argument is the comma-joined
expanded list; per PostgreSQL semantics of a comma-separated privilege list,
the result is true when any of the listed privileges is held. -/
def hasDatabasePrivilege (c : Catalog) (username database : String) (privileges : List String) : Prop :=
  ∃ p ∈ expandDatabasePrivs privileges, c.holds username (.database database) p

/-- `hasSchemaPrivilege` from postgres.go (lines 221-233), keyed by the
database of the connection the check runs on. -/
def hasSchemaPrivilege (c : Catalog) (connDb username schema : String) (privileges : List String) : Prop :=
  ∃ p ∈ expandSchemaPrivs privileges, c.holds username (.schema connDb schema) p

/-- `hasSequencePrivilege` from postgres.go (lines 235-253): false without
querying on the wildcard sentinel. -/
def hasSequencePrivilege (c : Catalog) (connDb username schema seq : String) (privileges : List String) : Prop :=
  if seq = "*" then False
  else ∃ p ∈ expandSequencePrivs privileges, c.holds username (.sequence connDb schema seq) p

/-- `hasTablePrivilege` from postgres.go (lines 255-274): false without
querying on the wildcard sentinel. -/
def hasTablePrivilege (c : Catalog) (connDb username schema table : String) (privileges : List String) : Prop :=
  if table = "*" then False
  else ∃ p ∈ expandTablePrivs privileges, c.holds username (.table connDb schema table) p

instance (c : Catalog) (u d : String) (ps : List String) :
    Decidable (hasDatabasePrivilege c u d ps) := by
  unfold hasDatabasePrivilege; infer_instance

instance (c : Catalog) (db u sch : String) (ps : List String) :
    Decidable (hasSchemaPrivilege c db u sch ps) := by
  unfold hasSchemaPrivilege; infer_instance

instance (c : Catalog) (db u sch sq : String) (ps : List String) :
    Decidable (hasSequencePrivilege c db u sch sq ps) := by
  unfold hasSequencePrivilege; infer_instance

instance (c : Catalog) (db u sch tb : String) (ps : List String) :
    Decidable (hasTablePrivilege c db u sch tb ps) := by
  unfold hasTablePrivilege; infer_instance

/-- `grantPermission` from postgres.go (lines 95-163): pick the branch from
the grant's scope fields, skip when the branch's privilege check passes,
otherwise execute the built GRANT statement on the connection scoped to the
grant's database. -/
def grantPermission (c : Catalog) (username : String) (g : Grant) : Res :=
  if g.database ≠ "" ∧ g.schema = "" then
    if hasDatabasePrivilege c username g.database g.privileges then (.ok (), c, [])
    else
      let (c', t) := exec c (.grant username g)
      (.ok (), c', t)
  else if g.database ≠ "" ∧ g.schema ≠ "" then
    if g.table ≠ "" then
      if hasTablePrivilege c g.database username g.schema g.table g.privileges then (.ok (), c, [])
      else
        let (c', t) := exec c (.grant username g)
        (.ok (), c', t)
    else if g.sequence ≠ "" then
      if hasSequencePrivilege c g.database username g.schema g.sequence g.privileges then (.ok (), c, [])
      else
        let (c', t) := exec c (.grant username g)
        (.ok (), c', t)
    else
      if hasSchemaPrivilege c g.database username g.schema g.privileges then (.ok (), c, [])
      else
        let (c', t) := exec c (.grant username g)
        (.ok (), c', t)
  else (.error .invalidGrant, c, [])

/-- `GrantPermissions` from postgres.go (lines 73-92): silently skip when the
user does not exist, otherwise process each grant in order.  The `database`
argument is carried but, as in the source, unused. -/
def GrantPermissions (c : Catalog) (username database : String) (grants : List Grant) : Res :=
  if c.userExists username then runList (fun c g => grantPermission c username g) c grants
  else (.ok (), c, [])

/-- `Manage` from postgres.go (lines 277-302): all users, then all databases,
then for each user each grant through `GrantPermissions`. -/
def Manage (c : Catalog) (databases : List Database) (users : List User) : Res :=
  match runList CreateUser c users with
  | (.error e, c1, t1) => (.error e, c1, t1)
  | (.ok _, c1, t1) =>
    match runList CreateDatabase c1 databases with
    | (.error e, c2, t2) => (.error e, c2, t1 ++ t2)
    | (.ok _, c2, t2) =>
      match runList (fun c u =>
          runList (fun c g => GrantPermissions c u.name g.database [g]) c u.grants) c2 users with
      | (r, c3, t3) => (r, c3, t1 ++ t2 ++ t3)

end PG

/-! Shared lemmas about clause lists and the clause interpretation. -/

/-- Membership in one diff block: the element is the enabling clause exactly
when declared is true and live false, the negating clause in the opposite
case. -/
theorem mem_optClause {s en dis : String} {d l : Bool} :
    s ∈ PG.optClause d l en dis ↔
      (s = en ∧ d = true ∧ l = false) ∨ (s = dis ∧ d = false ∧ l = true) := by
  cases d <;> cases l <;> simp [PG.optClause]

/-- When declared equals live, `updateUser` appends no clause at all. -/
theorem updateUserClauses_self (d : UserOptions) : PG.updateUserClauses d d = [] := by
  simp [PG.updateUserClauses, PG.optClause]

/-- Clause interpretation distributes over concatenation. -/
theorem applyClauses_append (o : UserOptions) (a b : List String) :
    applyClauses o (a ++ b) = applyClauses (applyClauses o a) b :=
  List.foldl_append ..

/-- Interpretation of one superuser diff block. -/
theorem apply_opt_su (o : UserOptions) (d l : Bool) (h : o.superuser = l) :
    applyClauses o (PG.optClause d l "SUPERUSER" "NOSUPERUSER") = { o with superuser := d } := by
  subst h
  by_cases hd : d = o.superuser
  · simp [PG.optClause, hd, applyClauses]
  · cases d <;> simp [PG.optClause, hd, applyClauses, applyClause]

/-- Interpretation of one create-role diff block. -/
theorem apply_opt_cr (o : UserOptions) (d l : Bool) (h : o.createRole = l) :
    applyClauses o (PG.optClause d l "CREATEROLE" "NOCREATEROLE") = { o with createRole := d } := by
  subst h
  by_cases hd : d = o.createRole
  · simp [PG.optClause, hd, applyClauses]
  · cases d <;> simp [PG.optClause, hd, applyClauses, applyClause]

/-- Interpretation of one create-database diff block. -/
theorem apply_opt_cd (o : UserOptions) (d l : Bool) (h : o.createDatabase = l) :
    applyClauses o (PG.optClause d l "CREATEDB" "NOCREATEDB") = { o with createDatabase := d } := by
  subst h
  by_cases hd : d = o.createDatabase
  · simp [PG.optClause, hd, applyClauses]
  · cases d <;> simp [PG.optClause, hd, applyClauses, applyClause]

/-- Interpretation of one login diff block. -/
theorem apply_opt_lg (o : UserOptions) (d l : Bool) (h : o.login = l) :
    applyClauses o (PG.optClause d l "LOGIN" "NOLOGIN") = { o with login := d } := by
  subst h
  by_cases hd : d = o.login
  · simp [PG.optClause, hd, applyClauses]
  · cases d <;> simp [PG.optClause, hd, applyClauses, applyClause]

/-- Interpretation of one inherit diff block. -/
theorem apply_opt_in (o : UserOptions) (d l : Bool) (h : o.inherit = l) :
    applyClauses o (PG.optClause d l "INHERIT" "NOINHERIT") = { o with inherit := d } := by
  subst h
  by_cases hd : d = o.inherit
  · simp [PG.optClause, hd, applyClauses]
  · cases d <;> simp [PG.optClause, hd, applyClauses, applyClause]

/-- Interpretation of one replication diff block. -/
theorem apply_opt_rp (o : UserOptions) (d l : Bool) (h : o.replication = l) :
    applyClauses o (PG.optClause d l "REPLICATION" "NOREPLICATION") = { o with replication := d } := by
  subst h
  by_cases hd : d = o.replication
  · simp [PG.optClause, hd, applyClauses]
  · cases d <;> simp [PG.optClause, hd, applyClauses, applyClause]

/-- Interpretation of one bypass-RLS diff block. -/
theorem apply_opt_br (o : UserOptions) (d l : Bool) (h : o.bypassRLS = l) :
    applyClauses o (PG.optClause d l "BYPASSRLS" "NOBYPASSRLS") = { o with bypassRLS := d } := by
  subst h
  by_cases hd : d = o.bypassRLS
  · simp [PG.optClause, hd, applyClauses]
  · cases d <;> simp [PG.optClause, hd, applyClauses, applyClause]

/-- Applying the diff clauses of `updateUser` to the live options yields the
declared options: the ALTER statement reconciles every boolean option. -/
theorem applyClauses_update (d l : UserOptions) :
    applyClauses l (PG.updateUserClauses d l) = d := by
  unfold PG.updateUserClauses
  simp only [List.append_assoc]
  rw [applyClauses_append, apply_opt_su _ _ _ rfl,
      applyClauses_append, apply_opt_cr _ _ _ rfl,
      applyClauses_append, apply_opt_cd _ _ _ rfl,
      applyClauses_append, apply_opt_lg _ _ _ rfl,
      applyClauses_append, apply_opt_in _ _ _ rfl,
      applyClauses_append, apply_opt_rp _ _ _ rfl,
      apply_opt_br _ _ _ rfl]

/-- The USER/ROLE form reduces to the declared login option when a declared
password comes with `login=true`. -/
theorem isUserForm_eq_login (user : User)
    (hpw : user.password ≠ "" → user.options.login = true) :
    PG.isUserForm user = user.options.login := by
  by_cases hp : user.password = ""
  · simp [PG.isUserForm, hp]
  · simp [PG.isUserForm, hp, hpw hp]

/-- Applying the clauses of `createUser` to a fresh role whose statement form
matches the declared login option yields the declared options, provided the
declaration asserts the inherit option: `createUser` has no NOINHERIT
clause, so a declared `inherit = false` cannot override the server's
INHERIT-on default at creation. -/
theorem applyClauses_create (o : UserOptions) (hin : o.inherit = true) :
    applyClauses (freshOptions o.login) (PG.createUserClauses o) = o := by
  rcases o with ⟨o1, o2, o3, o4, o5, o6, o7⟩
  have h5 : o5 = true := hin
  subst h5
  revert o1 o2 o3 o4 o6 o7
  decide

/-- Claim C6 (confirmed): the update step's option diff is bidirectional.
For each boolean role option, the enabling clause is appended exactly when
declared is true and live false, the explicit negating clause exactly when
declared is false and live true, and no clause when they agree (equal
declared and live options produce an empty clause list).  The executed ALTER
statement carries exactly these clauses, and in particular declaring
`superuser=false` against a live superuser yields an ALTER statement whose
SQL text contains NOSUPERUSER. -/
theorem c6_bidirectional_option_diff :
    (∀ d l : UserOptions,
      ("SUPERUSER" ∈ PG.updateUserClauses d l ↔ d.superuser = true ∧ l.superuser = false) ∧
      ("NOSUPERUSER" ∈ PG.updateUserClauses d l ↔ d.superuser = false ∧ l.superuser = true) ∧
      ("CREATEROLE" ∈ PG.updateUserClauses d l ↔ d.createRole = true ∧ l.createRole = false) ∧
      ("NOCREATEROLE" ∈ PG.updateUserClauses d l ↔ d.createRole = false ∧ l.createRole = true) ∧
      ("CREATEDB" ∈ PG.updateUserClauses d l ↔ d.createDatabase = true ∧ l.createDatabase = false) ∧
      ("NOCREATEDB" ∈ PG.updateUserClauses d l ↔ d.createDatabase = false ∧ l.createDatabase = true) ∧
      ("LOGIN" ∈ PG.updateUserClauses d l ↔ d.login = true ∧ l.login = false) ∧
      ("NOLOGIN" ∈ PG.updateUserClauses d l ↔ d.login = false ∧ l.login = true) ∧
      ("INHERIT" ∈ PG.updateUserClauses d l ↔ d.inherit = true ∧ l.inherit = false) ∧
      ("NOINHERIT" ∈ PG.updateUserClauses d l ↔ d.inherit = false ∧ l.inherit = true) ∧
      ("REPLICATION" ∈ PG.updateUserClauses d l ↔ d.replication = true ∧ l.replication = false) ∧
      ("NOREPLICATION" ∈ PG.updateUserClauses d l ↔ d.replication = false ∧ l.replication = true) ∧
      ("BYPASSRLS" ∈ PG.updateUserClauses d l ↔ d.bypassRLS = true ∧ l.bypassRLS = false) ∧
      ("NOBYPASSRLS" ∈ PG.updateUserClauses d l ↔ d.bypassRLS = false ∧ l.bypassRLS = true) ∧
      (d = l → PG.updateUserClauses d l = [])) ∧
    (∀ (c : Catalog) (user : User) (live : UserOptions),
      c.getUser user.name = .ok live →
      (PG.updateUser c user).2.2 = [.alterUser user.name (PG.updateUserClauses user.options live)] ∧
      (PG.updateUser c user).1 = .ok ()) ∧
    (Stmt.alterUser "alice" ["NOSUPERUSER"]).sql = "ALTER USER \"alice\" WITH NOSUPERUSER" := by
  refine ⟨fun d l => ?_, fun c user live h => ?_, ?_⟩
  · refine ⟨?_, ?_, ?_, ?_, ?_, ?_, ?_, ?_, ?_, ?_, ?_, ?_, ?_, ?_, ?_⟩
    · simp [PG.updateUserClauses, mem_optClause]
    · simp [PG.updateUserClauses, mem_optClause]
    · simp [PG.updateUserClauses, mem_optClause]
    · simp [PG.updateUserClauses, mem_optClause]
    · simp [PG.updateUserClauses, mem_optClause]
    · simp [PG.updateUserClauses, mem_optClause]
    · simp [PG.updateUserClauses, mem_optClause]
    · simp [PG.updateUserClauses, mem_optClause]
    · simp [PG.updateUserClauses, mem_optClause]
    · simp [PG.updateUserClauses, mem_optClause]
    · simp [PG.updateUserClauses, mem_optClause]
    · simp [PG.updateUserClauses, mem_optClause]
    · simp [PG.updateUserClauses, mem_optClause]
    · simp [PG.updateUserClauses, mem_optClause]
    · intro h; subst h; exact updateUserClauses_self _
  · unfold PG.updateUser
    rw [h]
    exact ⟨rfl, rfl⟩
  · exact rfl

/-- Witness for C6: a role that is live superuser and declared
`superuser=false`, all other options agreeing, gets exactly one ALTER USER
statement carrying the computed diff clauses. -/
theorem c6_bidirectional_option_diff_witness :
    (PG.updateUser
        ⟨"postgres", [("alice", ⟨false, true, false, false, false, false, false⟩)], [], [], []⟩
        ⟨"alice", "", ⟨false, false, false, false, false, false, false⟩, [], []⟩).2.2 =
      [.alterUser "alice"
        (PG.updateUserClauses ⟨false, false, false, false, false, false, false⟩
          ⟨false, true, false, false, false, false, false⟩)] :=
  (c6_bidirectional_option_diff.2.1
    ⟨"postgres", [("alice", ⟨false, true, false, false, false, false, false⟩)], [], [], []⟩
    ⟨"alice", "", ⟨false, false, false, false, false, false, false⟩, [], []⟩
    ⟨false, true, false, false, false, false, false⟩ rfl).1

/-!
The `PGR` namespace embeds the current postgres grant/role module from
`src/unnamed/part_000`: `GrantPermissions(user)` with grant processing,
membership additions, and the live-membership set-diff removal pass, plus
the per-privilege check loops with their catalog queries.  `userExists` is
the matching snapshot's version (lower-cases the looked-up name).
-/
namespace PGR

/-- `userExists` (postgres_user.go, second version): the catalog is queried
with the lower-cased name. -/
def userExists (c : Catalog) (name : String) : Prop :=
  toLowerStr name ∈ c.users.map Prod.fst

instance (c : Catalog) (name : String) : Decidable (userExists c name) := by
  unfold userExists; infer_instance

/-- `hasRole` (part_000 lines 103-115): true outright on a self reference,
otherwise a membership row with the lower-cased role and the exact user. -/
def hasRole (c : Catalog) (username role : String) : Prop :=
  username = role ∨ (username, toLowerStr role) ∈ c.memberships

instance (c : Catalog) (u r : String) : Decidable (hasRole c u r) := by
  unfold hasRole; infer_instance

/-- `getRoles` (part_000 lines 55-73): the groups of the lower-cased user,
one entry per membership row. -/
def getRoles (c : Catalog) (username : String) : List String :=
  (c.memberships.filter (fun p => p.1 == toLowerStr username)).map Prod.snd

/-- `addRole` (part_000 lines 76-100): skip on self reference or an already
held membership, otherwise GRANT role TO user. -/
def addRole (c : Catalog) (username role : String) : Res :=
  if username = role then (.ok (), c, [])
  else if hasRole c username role then (.ok (), c, [])
  else
    let (c', t) := exec c (.grantRole role username)
    (.ok (), c', t)

/-- `removeRole` (part_000 lines 118-142): skip on self reference or an
absent membership, otherwise REVOKE role FROM user. -/
def removeRole (c : Catalog) (username role : String) : Res :=
  if username = role then (.ok (), c, [])
  else if hasRole c username role then
    let (c', t) := exec c (.revokeRole role username)
    (.ok (), c', t)
  else (.ok (), c, [])

/-- The per-privilege check loop shared by the `has*Privilege` functions of
part_000: issue one catalog query per privilege, in order, stopping at the
first one not held; the result is the verdict together with the queries
issued. -/
def checkLoop (held : String → Bool) (mkQuery : String → String) :
    List String → Bool × List String
  | [] => (true, [])
  | p :: ps =>
    if held p then
      match checkLoop held mkQuery ps with
      | (b, qs) => (b, mkQuery p :: qs)
    else (false, [mkQuery p])

/-- `hasDatabasePrivilege` (part_000 lines 227-245): every expanded privilege
must be held, one `has_database_privilege` query each. -/
def hasDatabasePrivilege (c : Catalog) (username database : String)
    (privileges : List String) : Bool × List String :=
  checkLoop (fun p => decide (c.holds username (.database database) p))
    (fun p => "SELECT has_database_privilege('" ++ username ++ "', '" ++ database ++ "', '" ++ p ++ "')")
    (expandDatabasePrivs privileges)

/-- `hasParameterPrivilege` (part_000 lines 248-260): a single query for a
single privilege. -/
def hasParameterPrivilege (c : Catalog) (username parameter privilege : String) :
    Bool × List String :=
  (decide (c.holds username (.parameter parameter) privilege),
   ["SELECT has_parameter_privilege('" ++ username ++ "', '" ++ parameter ++ "', '" ++ privilege ++ "')"])

/-- `hasTablePrivilege` (part_000 lines 263-288): false with no query on the
wildcard sentinel, otherwise the per-privilege loop over the expansion. -/
def hasTablePrivilege (c : Catalog) (connDb username schema table : String)
    (privileges : List String) : Bool × List String :=
  if table = "*" then (false, [])
  else
    checkLoop (fun p => decide (c.holds username (.table connDb schema table) p))
      (fun p => "SELECT has_table_privilege('" ++ username ++ "', '" ++ schema ++ "." ++ table ++ "', '" ++ p ++ "')")
      (expandTablePrivs privileges)

/-- `hasSequencePrivilege` (part_000 lines 291-316): false with no query on
the wildcard sentinel, otherwise the per-privilege loop over the expansion. -/
def hasSequencePrivilege (c : Catalog) (connDb username schema seq : String)
    (privileges : List String) : Bool × List String :=
  if seq = "*" then (false, [])
  else
    checkLoop (fun p => decide (c.holds username (.sequence connDb schema seq) p))
      (fun p => "SELECT has_sequence_privilege('" ++ username ++ "', '" ++ schema ++ "." ++ seq ++ "', '" ++ p ++ "')")
      (expandSequencePrivs privileges)

/-- `hasSchemaPrivilege` (part_000 lines 319-337). -/
def hasSchemaPrivilege (c : Catalog) (connDb username schema : String)
    (privileges : List String) : Bool × List String :=
  checkLoop (fun p => decide (c.holds username (.schema connDb schema) p))
    (fun p => "SELECT has_schema_privilege('" ++ username ++ "', '" ++ schema ++ "', '" ++ p ++ "')")
    (expandSchemaPrivs privileges)

/-- `grantPermission` (part_000 lines 145-224): connect to the grant's
database (defaulting to "postgres"), pick the scope branch, skip when the
branch's pre-check passes, otherwise execute the built GRANT statement.
The parameter branch checks only the first requested privilege. -/
def grantPermission (c : Catalog) (username : String) (g : Grant) : Res :=
  let database := if g.database = "" then "postgres" else g.database
  if g.database = "" ∧ g.parameter ≠ "" then
    if (hasParameterPrivilege c username g.parameter g.privileges.headI).1 then (.ok (), c, [])
    else
      let (c', t) := exec c (.grant username g)
      (.ok (), c', t)
  else if g.database ≠ "" ∧ g.schema = "" then
    if (hasDatabasePrivilege c username g.database g.privileges).1 then (.ok (), c, [])
    else
      let (c', t) := exec c (.grant username g)
      (.ok (), c', t)
  else if g.database ≠ "" ∧ g.schema ≠ "" then
    if g.table ≠ "" then
      if (hasTablePrivilege c database username g.schema g.table g.privileges).1 then (.ok (), c, [])
      else
        let (c', t) := exec c (.grant username g)
        (.ok (), c', t)
    else if g.sequence ≠ "" then
      if (hasSequencePrivilege c database username g.schema g.sequence g.privileges).1 then (.ok (), c, [])
      else
        let (c', t) := exec c (.grant username g)
        (.ok (), c', t)
    else
      if (hasSchemaPrivilege c database username g.schema g.privileges).1 then (.ok (), c, [])
      else
        let (c', t) := exec c (.grant username g)
        (.ok (), c', t)
  else (.error .invalidGrant, c, [])

/-- `GrantPermissions` (part_000 lines 12-52): skip silently when the user
does not exist; otherwise process the declared grants, then the declared
membership additions, then remove every live membership not declared. -/
def GrantPermissions (c : Catalog) (user : User) : Res :=
  if userExists c user.name then
    match runList (fun c g => grantPermission c user.name g) c user.grants with
    | (.error e, c1, t1) => (.error e, c1, t1)
    | (.ok _, c1, t1) =>
      match runList (fun c role => addRole c user.name role) c1 user.roles with
      | (.error e, c2, t2) => (.error e, c2, t1 ++ t2)
      | (.ok _, c2, t2) =>
        match runList (fun c role =>
            if role ∈ user.roles then (.ok (), c, []) else removeRole c user.name role)
          c2 (getRoles c2 user.name) with
        | (r, c3, t3) => (r, c3, t1 ++ t2 ++ t3)
  else (.ok (), c, [])

end PGR

/-!
The `MY` namespace embeds the MySQL manager: `Manage` from
`src/unnamed/part_002`, `CreateDatabase` from `mysql_database.go`,
`CreateUser` from `src/unnamed/part_004`, and `GrantPermissions` from
`mysql_grant.go`.
-/
namespace MY

/-- The MySQL catalog as observed by the manager. -/
structure MyCatalog where
  users : List String
  databases : List String
deriving DecidableEq

/-- Result of one MySQL manager operation. -/
abbrev MyRes := Except Err Unit × MyCatalog × List Stmt

/-- `userExists` from part_004: exact-name lookup in `mysql.user`. -/
def userExists (c : MyCatalog) (name : String) : Prop := name ∈ c.users

instance (c : MyCatalog) (name : String) : Decidable (userExists c name) :=
  inferInstanceAs (Decidable (name ∈ c.users))

/-- `databaseExists` from mysql_database.go: exact-name schema lookup. -/
def databaseExists (c : MyCatalog) (name : String) : Prop := name ∈ c.databases

instance (c : MyCatalog) (name : String) : Decidable (databaseExists c name) :=
  inferInstanceAs (Decidable (name ∈ c.databases))

/-- Server model for the MySQL statements: creation statements add the named
object; grants and password statements leave the modelled catalog unchanged. -/
def MyCatalog.applyStmt (c : MyCatalog) (s : Stmt) : MyCatalog :=
  match s with
  | .myCreateDatabase name => { c with databases := name :: c.databases }
  | .myCreateUser name _ => { c with users := name :: c.users }
  | _ => c

/-- Execute one MySQL statement against a server that accepts it. -/
def myExec (c : MyCatalog) (s : Stmt) : MyCatalog × List Stmt :=
  (c.applyStmt s, [s])

/-- `CreateDatabase` from mysql_database.go: create only when absent. -/
def CreateDatabase (c : MyCatalog) (database : Database) : MyRes :=
  if databaseExists c database.name then (.ok (), c, [])
  else
    let (c', t) := myExec c (.myCreateDatabase database.name)
    (.ok (), c', t)

/-- `CreateUser` from part_004: create when absent, then re-assert a
non-empty declared password. -/
def CreateUser (c : MyCatalog) (user : User) : MyRes :=
  let step :=
    if userExists c user.name then ((.ok () : Except Err Unit), c, ([] : List Stmt))
    else
      let (c', t) := myExec c (.myCreateUser user.name user.password)
      (.ok (), c', t)
  match step with
  | (.error e, c', t) => (.error e, c', t)
  | (.ok _, c', t) =>
    if user.password ≠ "" then
      let (c'', t') := myExec c' (.mySetPassword user.name user.password)
      (.ok (), c'', t ++ t')
    else (.ok (), c', t)

/-- `GrantPermissions` from mysql_grant.go: skip silently when the user does
not exist; otherwise execute one GRANT statement per declared grant, with no
pre-check. -/
def GrantPermissions (c : MyCatalog) (user : User) : MyRes :=
  if userExists c user.name then
    runList (fun c g =>
      let (c', t) := myExec c (.myGrant user.name g)
      ((.ok () : Except Err Unit), c', t)) c user.grants
  else (.ok (), c, [])

/-- `Manage` from part_002 (lines 55-74): all databases first, then for each
user its creation immediately followed by its grants. -/
def Manage (c : MyCatalog) (databases : List Database) (users : List User) : MyRes :=
  match runList CreateDatabase c databases with
  | (.error e, c1, t1) => (.error e, c1, t1)
  | (.ok _, c1, t1) =>
    match runList (fun c user =>
        match CreateUser c user with
        | (.error e, c', t) => (.error e, c', t)
        | (.ok _, c', t) =>
          match GrantPermissions c' user with
          | (r, c'', t') => (r, c'', t ++ t')) c1 users with
    | (r, c2, t2) => (r, c2, t1 ++ t2)

end MY

/-- Claim C7 (confirmed): the self-reference guard.  For every role name `x`
and catalog state, `addRole x x` and `removeRole x x` execute no statement,
change nothing, and return no error. -/
theorem c7_self_reference_guard (c : Catalog) (x : String) :
    PGR.addRole c x x = (.ok (), c, []) ∧ PGR.removeRole c x x = (.ok (), c, []) :=
  ⟨by simp [PGR.addRole], by simp [PGR.removeRole]⟩

/-- Claim C10 (confirmed): for a user name absent from the catalog,
`GrantPermissions` issues no statement at all and returns success, in both
the postgres and the mysql manager. -/
theorem c10_skip_grants_for_missing_user :
    (∀ (c : Catalog) (user : User), ¬ PGR.userExists c user.name →
      PGR.GrantPermissions c user = (.ok (), c, [])) ∧
    (∀ (c : MY.MyCatalog) (user : User), ¬ MY.userExists c user.name →
      MY.GrantPermissions c user = (.ok (), c, [])) :=
  ⟨fun c user h => by simp [PGR.GrantPermissions, h],
   fun c user h => by simp [MY.GrantPermissions, h]⟩

/-- Witness for C10: a user with a declared grant and declared roles, absent
from an otherwise populated catalog, produces no statements on either
manager. -/
theorem c10_skip_grants_for_missing_user_witness :
    PGR.GrantPermissions ⟨"postgres", [("other", freshOptions true)], [], [], []⟩
        ⟨"ghost", "", freshOptions false, [⟨"db", "", "", "", "", ["ALL"], false⟩], ["grp"]⟩ =
      (.ok (), ⟨"postgres", [("other", freshOptions true)], [], [], []⟩, []) ∧
    MY.GrantPermissions ⟨["other"], ["db"]⟩
        ⟨"ghost", "", freshOptions false, [⟨"db", "", "", "", "", ["ALL"], false⟩], ["grp"]⟩ =
      (.ok (), ⟨["other"], ["db"]⟩, []) :=
  ⟨c10_skip_grants_for_missing_user.1 _ _ (by decide),
   c10_skip_grants_for_missing_user.2 _ _ (by decide)⟩

/-- Claim C5 (confirmed): wildcard-scoped grants are always re-issued.  The
table/sequence pre-checks return false without issuing any catalog query on
the wildcard sentinel, and a wildcard-scoped grant is therefore built and
executed unconditionally, whatever privileges are already held. -/
theorem c5_wildcard_grants_always_reissued :
    (∀ (c : Catalog) (connDb username schema : String) (privs : List String),
      PGR.hasTablePrivilege c connDb username schema "*" privs = (false, []) ∧
      PGR.hasSequencePrivilege c connDb username schema "*" privs = (false, [])) ∧
    (∀ (c : Catalog) (username : String) (g : Grant),
      g.database ≠ "" → g.schema ≠ "" → g.table = "*" →
      PGR.grantPermission c username g =
        (.ok (), c.applyStmt (.grant username g), [.grant username g])) ∧
    (∀ (c : Catalog) (username : String) (g : Grant),
      g.database ≠ "" → g.schema ≠ "" → g.table = "" → g.sequence = "*" →
      PGR.grantPermission c username g =
        (.ok (), c.applyStmt (.grant username g), [.grant username g])) := by
  refine ⟨fun c connDb username schema privs => ?_, fun c username g h1 h2 h3 => ?_,
    fun c username g h1 h2 h3 h4 => ?_⟩
  · exact ⟨by simp [PGR.hasTablePrivilege], by simp [PGR.hasSequencePrivilege]⟩
  · simp [PGR.grantPermission, h1, h2, h3, PGR.hasTablePrivilege, exec]
  · simp [PGR.grantPermission, h1, h2, h3, h4, PGR.hasSequencePrivilege, exec]

/-- Witness for C5: a wildcard table grant is executed even though every
privilege it confers is already held. -/
theorem c5_wildcard_grants_always_reissued_witness :
    PGR.grantPermission
        ⟨"postgres", [("u", freshOptions true)], [], [],
          [⟨"u", .table "db" "public" "*", "SELECT"⟩]⟩ "u"
        ⟨"db", "public", "", "*", "", ["SELECT"], false⟩ =
      (.ok (),
        Catalog.applyStmt
          ⟨"postgres", [("u", freshOptions true)], [], [],
            [⟨"u", .table "db" "public" "*", "SELECT"⟩]⟩
          (.grant "u" ⟨"db", "public", "", "*", "", ["SELECT"], false⟩),
        [.grant "u" ⟨"db", "public", "", "*", "", ["SELECT"], false⟩]) :=
  c5_wildcard_grants_always_reissued.2.1 _ "u" _ (by decide) (by decide) (by decide)

/-- From the spec's words (claim C4): the skip condition the claim asserts —
every requested privilege, after expanding the sentinel "ALL" to the object
class's canonical full list, is already held — stated for each scope shape,
including the server-parameter shape. -/
def specSkipCondition (c : Catalog) (username : String) (g : Grant) : Prop :=
  if g.database = "" ∧ g.parameter ≠ "" then
    ∀ p ∈ g.privileges, c.holds username (.parameter g.parameter) p
  else if g.database ≠ "" ∧ g.schema = "" then
    ∀ p ∈ expandDatabasePrivs g.privileges, c.holds username (.database g.database) p
  else if g.database ≠ "" ∧ g.schema ≠ "" then
    if g.table ≠ "" then
      ∀ p ∈ expandTablePrivs g.privileges, c.holds username (.table g.database g.schema g.table) p
    else if g.sequence ≠ "" then
      ∀ p ∈ expandSequencePrivs g.privileges, c.holds username (.sequence g.database g.schema g.sequence) p
    else
      ∀ p ∈ expandSchemaPrivs g.privileges, c.holds username (.schema g.database g.schema) p
  else True

instance (c : Catalog) (u : String) (g : Grant) : Decidable (specSkipCondition c u g) := by
  unfold specSkipCondition; infer_instance

/-- Counterexample for C4: a server-parameter grant requesting two
privileges, of which the user holds only the first, is skipped (no statement
issued) although the claim's skip condition — all requested privileges held —
is false: the code checks only `grant.Privileges[0]`. -/
theorem c4_counterexample_parameter_scope :
    PGR.grantPermission
        ⟨"postgres", [("u", freshOptions true)], [], [],
          [⟨"u", .parameter "work_mem", "SET"⟩]⟩ "u"
        ⟨"", "", "", "", "work_mem", ["SET", "ALTER SYSTEM"], false⟩ =
      (.ok (),
        ⟨"postgres", [("u", freshOptions true)], [], [],
          [⟨"u", .parameter "work_mem", "SET"⟩]⟩, []) ∧
    ¬ specSkipCondition
        ⟨"postgres", [("u", freshOptions true)], [], [],
          [⟨"u", .parameter "work_mem", "SET"⟩]⟩ "u"
        ⟨"", "", "", "", "work_mem", ["SET", "ALTER SYSTEM"], false⟩ :=
  ⟨by decide, by decide⟩

/-- The verdict of the per-privilege check loop: true exactly when every
listed privilege passes. -/
theorem checkLoop_fst (held : String → Bool) (mk : String → String) (ps : List String) :
    (PGR.checkLoop held mk ps).1 = true ↔ ∀ p ∈ ps, held p = true := by
  induction ps with
  | nil => simp [PGR.checkLoop]
  | cons p ps ih =>
    by_cases h : held p = true
    · simp [PGR.checkLoop, h, ih]
    · simp [PGR.checkLoop, h]

/-- Claim C4 (corrected): a non-wildcard grant is skipped if and only if
every requested privilege, after "ALL" expansion, is already held — for the
database, schema, table and sequence scopes.  For a server-parameter grant
the code checks only the first requested privilege, so such a grant is
skipped if and only if its first privilege is held, regardless of the rest. -/
theorem c4_grant_skip_iff_amended :
    (∀ (c : Catalog) (u : String) (g : Grant), g.privileges ≠ [] →
      g.database ≠ "" → g.schema = "" →
      ((PGR.grantPermission c u g).2.2 = [] ↔
        ∀ p ∈ expandDatabasePrivs g.privileges, c.holds u (.database g.database) p)) ∧
    (∀ (c : Catalog) (u : String) (g : Grant), g.privileges ≠ [] →
      g.database ≠ "" → g.schema ≠ "" → g.table = "" → g.sequence = "" →
      ((PGR.grantPermission c u g).2.2 = [] ↔
        ∀ p ∈ expandSchemaPrivs g.privileges, c.holds u (.schema g.database g.schema) p)) ∧
    (∀ (c : Catalog) (u : String) (g : Grant), g.privileges ≠ [] →
      g.database ≠ "" → g.schema ≠ "" → g.table ≠ "" → g.table ≠ "*" →
      ((PGR.grantPermission c u g).2.2 = [] ↔
        ∀ p ∈ expandTablePrivs g.privileges, c.holds u (.table g.database g.schema g.table) p)) ∧
    (∀ (c : Catalog) (u : String) (g : Grant), g.privileges ≠ [] →
      g.database ≠ "" → g.schema ≠ "" → g.table = "" → g.sequence ≠ "" → g.sequence ≠ "*" →
      ((PGR.grantPermission c u g).2.2 = [] ↔
        ∀ p ∈ expandSequencePrivs g.privileges, c.holds u (.sequence g.database g.schema g.sequence) p)) ∧
    (∀ (c : Catalog) (u : String) (g : Grant), g.privileges ≠ [] →
      g.database = "" → g.parameter ≠ "" →
      ((PGR.grantPermission c u g).2.2 = [] ↔
        c.holds u (.parameter g.parameter) g.privileges.headI)) := by
  refine ⟨fun c u g hp h1 h2 => ?_, fun c u g hp h1 h2 h3 h4 => ?_,
    fun c u g hp h1 h2 h3 h4 => ?_, fun c u g hp h1 h2 h3 h4 h5 => ?_,
    fun c u g hp h1 h2 => ?_⟩
  · have key : (PGR.hasDatabasePrivilege c u g.database g.privileges).1 = true ↔
        ∀ p ∈ expandDatabasePrivs g.privileges, c.holds u (.database g.database) p := by
      unfold PGR.hasDatabasePrivilege
      rw [checkLoop_fst]
      simp
    by_cases hchk : (PGR.hasDatabasePrivilege c u g.database g.privileges).1 = true
    · refine iff_of_true ?_ (key.mp hchk)
      simp [PGR.grantPermission, h1, h2, hchk]
    · refine iff_of_false ?_ (fun hr => hchk (key.mpr hr))
      simp [PGR.grantPermission, h1, h2, hchk, exec]
  · have key : (PGR.hasSchemaPrivilege c g.database u g.schema g.privileges).1 = true ↔
        ∀ p ∈ expandSchemaPrivs g.privileges, c.holds u (.schema g.database g.schema) p := by
      unfold PGR.hasSchemaPrivilege
      rw [checkLoop_fst]
      simp
    by_cases hchk : (PGR.hasSchemaPrivilege c g.database u g.schema g.privileges).1 = true
    · refine iff_of_true ?_ (key.mp hchk)
      simp [PGR.grantPermission, h1, h2, h3, h4, hchk]
    · refine iff_of_false ?_ (fun hr => hchk (key.mpr hr))
      simp [PGR.grantPermission, h1, h2, h3, h4, hchk, exec]
  · have key : (PGR.hasTablePrivilege c g.database u g.schema g.table g.privileges).1 = true ↔
        ∀ p ∈ expandTablePrivs g.privileges, c.holds u (.table g.database g.schema g.table) p := by
      unfold PGR.hasTablePrivilege
      rw [if_neg h4, checkLoop_fst]
      simp
    by_cases hchk : (PGR.hasTablePrivilege c g.database u g.schema g.table g.privileges).1 = true
    · refine iff_of_true ?_ (key.mp hchk)
      simp [PGR.grantPermission, h1, h2, h3, hchk]
    · refine iff_of_false ?_ (fun hr => hchk (key.mpr hr))
      simp [PGR.grantPermission, h1, h2, h3, hchk, exec]
  · have key : (PGR.hasSequencePrivilege c g.database u g.schema g.sequence g.privileges).1 = true ↔
        ∀ p ∈ expandSequencePrivs g.privileges, c.holds u (.sequence g.database g.schema g.sequence) p := by
      unfold PGR.hasSequencePrivilege
      rw [if_neg h5, checkLoop_fst]
      simp
    by_cases hchk : (PGR.hasSequencePrivilege c g.database u g.schema g.sequence g.privileges).1 = true
    · refine iff_of_true ?_ (key.mp hchk)
      simp [PGR.grantPermission, h1, h2, h3, h4, hchk]
    · refine iff_of_false ?_ (fun hr => hchk (key.mpr hr))
      simp [PGR.grantPermission, h1, h2, h3, h4, hchk, exec]
  · have key : (PGR.hasParameterPrivilege c u g.parameter g.privileges.headI).1 = true ↔
        c.holds u (.parameter g.parameter) g.privileges.headI := by
      simp [PGR.hasParameterPrivilege]
    by_cases hchk : (PGR.hasParameterPrivilege c u g.parameter g.privileges.headI).1 = true
    · refine iff_of_true ?_ (key.mp hchk)
      simp [PGR.grantPermission, h1, h2, hchk]
    · refine iff_of_false ?_ (fun hr => hchk (key.mpr hr))
      simp [PGR.grantPermission, h1, h2, hchk, exec]

/-- Witness for C4 (amended): a table grant of "ALL" is skipped when the
whole canonical table privilege list is held. -/
theorem c4_grant_skip_iff_amended_witness :
    (PGR.grantPermission
        ⟨"postgres", [("u", freshOptions true)], [], [],
          [⟨"u", .table "db" "public" "t", "SELECT"⟩, ⟨"u", .table "db" "public" "t", "INSERT"⟩,
           ⟨"u", .table "db" "public" "t", "UPDATE"⟩, ⟨"u", .table "db" "public" "t", "DELETE"⟩,
           ⟨"u", .table "db" "public" "t", "TRUNCATE"⟩, ⟨"u", .table "db" "public" "t", "REFERENCES"⟩,
           ⟨"u", .table "db" "public" "t", "TRIGGER"⟩]⟩ "u"
        ⟨"db", "public", "", "t", "", ["ALL"], false⟩).2.2 = [] :=
  (c4_grant_skip_iff_amended.2.2.1 _ "u" _ (by decide) (by decide) (by decide)
    (by decide) (by decide)).mpr (by decide)

/-!
The `ELV` namespace embeds the elevation-wrapped database lifecycle from
`postgres_database.go`: `createDatabase` (lines 32-72), `updateDatabaseOwner`
(lines 101-134) and `alterDefaultPrivileges` (lines 150-197).  These wrap
their DDL in a grant-then-revoke membership dance, with the revoke in a Go
`defer` that runs on every exit path after the return value has been
evaluated.  To reason about failing statements the functions take an oracle
`ok : Stmt → Bool` saying which statements the server accepts; every
attempted statement is recorded in the trace, and a rejected one leaves the
catalog unchanged.  The role helpers are the current `addRole`/`removeRole`
from part_000 (this snapshot's grant file declares them there).
-/
namespace ELV

/-- Attempt one statement: accepted statements update the catalog, rejected
ones return a statement error; the attempt is traced either way. -/
def elvExec (ok : Stmt → Bool) (c : Catalog) (s : Stmt) : Res :=
  if ok s then (.ok (), c.applyStmt s, [s]) else (.error (.stmt s), c, [s])

/-- `addRole` (part_000 lines 76-100) under the failure oracle. -/
def addRole (ok : Stmt → Bool) (c : Catalog) (username role : String) : Res :=
  if username = role then (.ok (), c, [])
  else if PGR.hasRole c username role then (.ok (), c, [])
  else elvExec ok c (.grantRole role username)

/-- `removeRole` (part_000 lines 118-142) under the failure oracle. -/
def removeRole (ok : Stmt → Bool) (c : Catalog) (username role : String) : Res :=
  if username = role then (.ok (), c, [])
  else if PGR.hasRole c username role then elvExec ok c (.revokeRole role username)
  else (.ok (), c, [])

/-- `createDatabase` (postgres_database.go lines 32-72): when an owner is
declared it must exist before any DDL; the operating principal is granted
membership in the owner role, CREATE DATABASE runs, and the deferred revoke
is attempted on both the success and the failure exit, its own outcome only
logged. -/
def createDatabase (ok : Stmt → Bool) (c : Catalog) (database : Database) : Res :=
  if c.databaseExists database.name then (.ok (), c, [])
  else if database.owner ≠ "" then
    if c.userExists database.owner then
      match addRole ok c c.admin database.owner with
      | (.error e, c1, t1) => (.error e, c1, t1)
      | (.ok _, c1, t1) =>
        match elvExec ok c1 (.createDatabase database.name database.owner) with
        | (.error e, c2, t2) =>
          match removeRole ok c2 c.admin database.owner with
          | (_, c3, t3) => (.error e, c3, t1 ++ t2 ++ t3)
        | (.ok _, c2, t2) =>
          match removeRole ok c2 c.admin database.owner with
          | (_, c3, t3) => (.ok (), c3, t1 ++ t2 ++ t3)
    else (.error (.notFound ("owner " ++ database.owner ++ " does not exist")), c, [])
  else elvExec ok c (.createDatabase database.name "")

/-- `updateDatabaseOwner` (postgres_database.go lines 101-134): when the live
owner differs from a declared owner, elevate, ALTER DATABASE OWNER, and
attempt the deferred revoke on both exits.  The Go function's `return
removeRoleErr` evaluates the (still nil) variable before the deferred revoke
runs, so a revoke failure is never surfaced and never replaces the wrapped
statement's error. -/
def updateDatabaseOwner (ok : Stmt → Bool) (c : Catalog) (database : Database) : Res :=
  if database.owner = "" then (.ok (), c, [])
  else
    match c.getDatabaseOwner database.name with
    | .error e => (.error e, c, [])
    | .ok currentOwner =>
      if currentOwner ≠ database.owner then
        match addRole ok c c.admin database.owner with
        | (.error e, c1, t1) => (.error e, c1, t1)
        | (.ok _, c1, t1) =>
          match elvExec ok c1 (.alterDatabaseOwner database.name database.owner) with
          | (.error e, c2, t2) =>
            match removeRole ok c2 c.admin database.owner with
            | (_, c3, t3) => (.error e, c3, t1 ++ t2 ++ t3)
          | (.ok _, c2, t2) =>
            match removeRole ok c2 c.admin database.owner with
            | (_, c3, t3) => (.ok (), c3, t1 ++ t2 ++ t3)
      else (.ok (), c, [])

/-- The rule loop of `alterDefaultPrivileges`: per rule, elevate into the
rule's acting role when the (always-true-unless-both-empty) condition
`Role != "" || Role != username` holds — an addRole failure is only logged —
then execute the ALTER DEFAULT PRIVILEGES statement, aborting on rejection.
Deferred revokes accumulate LIFO in `pending`. -/
def adpLoop (ok : Stmt → Bool) (admin database : String) :
    Catalog → List DefaultPrivilege → List (String × String) →
      Except Err Unit × Catalog × List Stmt × List (String × String)
  | c, [], pending => (.ok (), c, [], pending)
  | c, p :: ps, pending =>
    let step :=
      if p.role ≠ "" ∨ p.role ≠ admin then
        match addRole ok c admin p.role with
        | (_, c', t') => (c', t', (admin, p.role) :: pending)
      else (c, [], pending)
    match step with
    | (c1, t1, pending1) =>
      match elvExec ok c1 (.alterDefaultPrivilege database p) with
      | (.error e, c2, t2) => (.error e, c2, t1 ++ t2, pending1)
      | (.ok _, c2, t2) =>
        match adpLoop ok admin database c2 ps pending1 with
        | (r, c3, t3, pending2) => (r, c3, t1 ++ t2 ++ t3, pending2)

/-- Run the deferred revokes, last registered first, discarding their
outcomes (the Go defers only log them). -/
def runDeferred (ok : Stmt → Bool) : Catalog → List (String × String) → Catalog × List Stmt
  | c, [] => (c, [])
  | c, (u, r) :: rest =>
    match removeRole ok c u r with
    | (_, c1, t1) =>
      match runDeferred ok c1 rest with
      | (c2, t2) => (c2, t1 ++ t2)

/-- `alterDefaultPrivileges` (postgres_database.go lines 150-197): the rule
loop, then every deferred revoke on the way out; the function's own result is
the loop's result (a revoke failure is logged, never returned, because the
return value is evaluated before the defers run). -/
def alterDefaultPrivileges (ok : Stmt → Bool) (c : Catalog) (database : String)
    (privileges : List DefaultPrivilege) : Res :=
  match adpLoop ok c.admin database c privileges [] with
  | (r, c1, t1, pending) =>
    match runDeferred ok c1 pending with
    | (c2, t2) => (r, c2, t1 ++ t2)

end ELV

/-- Claim C3 (confirmed): owner-must-exist with atomicity.  In both versions
of `createDatabase` (the plain one from part_001 and the elevation-wrapped
one from postgres_database.go), a declaration with a non-empty owner whose
role is absent from the catalog fails with the not-found error, executes no
statement at all, and leaves the catalog unchanged — the database is not
created. -/
theorem c3_owner_must_exist :
    (∀ (c : Catalog) (d : Database),
      ¬ c.databaseExists d.name → d.owner ≠ "" → ¬ c.userExists d.owner →
      PG.createDatabase c d =
        (.error (.notFound ("owner " ++ d.owner ++ " does not exist")), c, [])) ∧
    (∀ (ok : Stmt → Bool) (c : Catalog) (d : Database),
      ¬ c.databaseExists d.name → d.owner ≠ "" → ¬ c.userExists d.owner →
      ELV.createDatabase ok c d =
        (.error (.notFound ("owner " ++ d.owner ++ " does not exist")), c, [])) :=
  ⟨fun c d h1 h2 h3 => by simp [PG.createDatabase, h1, h2, h3],
   fun ok c d h1 h2 h3 => by simp [ELV.createDatabase, h1, h2, h3]⟩

/-- Witness for C3: `CreateDatabase({name:"d", owner:"ghost"})` against a
catalog without role "ghost" fails with the not-found error and creates
nothing, in both versions. -/
theorem c3_owner_must_exist_witness :
    PG.createDatabase ⟨"postgres", [("u", freshOptions true)], [], [], []⟩ ⟨"d", [], "ghost"⟩ =
      (.error (.notFound "owner ghost does not exist"),
        ⟨"postgres", [("u", freshOptions true)], [], [], []⟩, []) ∧
    ELV.createDatabase (fun _ => true) ⟨"postgres", [("u", freshOptions true)], [], [], []⟩
        ⟨"d", [], "ghost"⟩ =
      (.error (.notFound "owner ghost does not exist"),
        ⟨"postgres", [("u", freshOptions true)], [], [], []⟩, []) :=
  ⟨c3_owner_must_exist.1 _ _ (by decide) (by decide) (by decide),
   c3_owner_must_exist.2 _ _ _ (by decide) (by decide) (by decide)⟩

/-! Branch equations for the elevation helpers, used to trace the exit paths
of the wrapped operations. -/

theorem elvExec_ok {ok : Stmt → Bool} {s : Stmt} (h : ok s = true) (c : Catalog) :
    ELV.elvExec ok c s = (.ok (), c.applyStmt s, [s]) := by
  simp [ELV.elvExec, h]

theorem elvExec_fail {ok : Stmt → Bool} {s : Stmt} (h : ok s = false) (c : Catalog) :
    ELV.elvExec ok c s = (.error (.stmt s), c, [s]) := by
  simp [ELV.elvExec, h]

theorem addRole_self {u r : String} (h : u = r) (ok : Stmt → Bool) (c : Catalog) :
    ELV.addRole ok c u r = (.ok (), c, []) := by
  simp [ELV.addRole, h]

theorem addRole_has (ok : Stmt → Bool) (c : Catalog) {u r : String}
    (h1 : ¬ u = r) (h2 : PGR.hasRole c u r) :
    ELV.addRole ok c u r = (.ok (), c, []) := by
  simp [ELV.addRole, h1, h2]

theorem addRole_grant (ok : Stmt → Bool) (c : Catalog) {u r : String}
    (h1 : ¬ u = r) (h2 : ¬ PGR.hasRole c u r) (h3 : ok (.grantRole r u) = true) :
    ELV.addRole ok c u r =
      (.ok (), { c with memberships := (u, r) :: c.memberships }, [.grantRole r u]) := by
  rw [ELV.addRole, if_neg h1, if_neg h2, elvExec_ok h3 c]
  rfl

theorem addRole_fail (ok : Stmt → Bool) (c : Catalog) {u r : String}
    (h1 : ¬ u = r) (h2 : ¬ PGR.hasRole c u r) (h3 : ok (.grantRole r u) = false) :
    ELV.addRole ok c u r =
      (.error (.stmt (.grantRole r u)), c, [.grantRole r u]) := by
  rw [ELV.addRole, if_neg h1, if_neg h2, elvExec_fail h3 c]

theorem removeRole_self {u r : String} (h : u = r) (ok : Stmt → Bool) (c : Catalog) :
    ELV.removeRole ok c u r = (.ok (), c, []) := by
  simp [ELV.removeRole, h]

theorem removeRole_skip (ok : Stmt → Bool) (c : Catalog) {u r : String}
    (h1 : ¬ u = r) (h2 : ¬ PGR.hasRole c u r) :
    ELV.removeRole ok c u r = (.ok (), c, []) := by
  simp [ELV.removeRole, h1, h2]

theorem removeRole_try (ok : Stmt → Bool) (c : Catalog) {u r : String}
    (h1 : ¬ u = r) (h2 : PGR.hasRole c u r) :
    ELV.removeRole ok c u r = ELV.elvExec ok c (.revokeRole r u) := by
  rw [ELV.removeRole, if_neg h1, if_pos h2]

/-- The revoke attempt is always traced once membership holds. -/
theorem removeRole_trace (ok : Stmt → Bool) (c : Catalog) {u r : String}
    (h1 : ¬ u = r) (h2 : PGR.hasRole c u r) :
    (ELV.removeRole ok c u r).2.2 = [.revokeRole r u] := by
  rw [removeRole_try ok c h1 h2]
  unfold ELV.elvExec
  by_cases h : ok (.revokeRole r u) = true <;> simp [h]

/-- A membership at the head of the list satisfies the lower-casing
`hasRole` check when the role name is already lower case. -/
theorem hasRole_head (c : Catalog) {u r : String} (hlc : toLowerStr r = r)
    (h : (u, r) ∈ c.memberships) : PGR.hasRole c u r := by
  right; rw [hlc]; exact h

/-- Elevation pairing for `updateDatabaseOwner`: when the elevation GRANT was
issued and accepted, the deferred REVOKE is attempted on the same call, on
both the success and the failure exit of the wrapped ALTER. -/
theorem c9aux_upd_pairing (ok : Stmt → Bool) (c : Catalog) (d : Database)
    (hlc : toLowerStr d.owner = d.owner)
    (hg : Stmt.grantRole d.owner c.admin ∈ (ELV.updateDatabaseOwner ok c d).2.2)
    (hok : ok (.grantRole d.owner c.admin) = true) :
    Stmt.revokeRole d.owner c.admin ∈ (ELV.updateDatabaseOwner ok c d).2.2 := by
  unfold ELV.updateDatabaseOwner at hg ⊢
  by_cases h0 : d.owner = ""
  · rw [if_pos h0] at hg; simp at hg
  rw [if_neg h0] at hg ⊢
  rcases hgo : c.getDatabaseOwner d.name with e | cur <;> simp only [hgo] at hg ⊢
  · simp at hg
  by_cases hco : cur ≠ d.owner
  case neg => rw [if_neg hco] at hg; simp at hg
  rw [if_pos hco] at hg ⊢
  by_cases ha : c.admin = d.owner
  · simp only [addRole_self ha] at hg
    by_cases hoks : ok (.alterDatabaseOwner d.name d.owner) = true
    · simp only [elvExec_ok hoks, removeRole_self ha] at hg
      simp at hg
    · have hoks' : ok (.alterDatabaseOwner d.name d.owner) = false := by
        simpa using hoks
      simp only [elvExec_fail hoks', removeRole_self ha] at hg
      simp at hg
  by_cases hb : PGR.hasRole c c.admin d.owner
  · simp only [addRole_has ok c ha hb] at hg
    by_cases hoks : ok (.alterDatabaseOwner d.name d.owner) = true
    · simp only [elvExec_ok hoks] at hg
      rw [removeRole_try _ _ ha (by
        right
        simpa [Catalog.applyStmt] using hb.resolve_left ha)] at hg
      unfold ELV.elvExec at hg
      by_cases hokr : ok (.revokeRole d.owner c.admin) = true <;> simp [hokr] at hg
    · have hoks' : ok (.alterDatabaseOwner d.name d.owner) = false := by
        simpa using hoks
      simp only [elvExec_fail hoks'] at hg
      rw [removeRole_try _ _ ha (hb)] at hg
      unfold ELV.elvExec at hg
      by_cases hokr : ok (.revokeRole d.owner c.admin) = true <;> simp [hokr] at hg
  · simp only [addRole_grant ok c ha hb hok]
    set c1 : Catalog := { c with memberships := (c.admin, d.owner) :: c.memberships } with hc1
    by_cases hoks : ok (.alterDatabaseOwner d.name d.owner) = true
    · simp only [elvExec_ok hoks]
      rcases hrw : ELV.removeRole ok (c1.applyStmt (.alterDatabaseOwner d.name d.owner))
          c.admin d.owner with ⟨r3, c3, t3⟩
      simp only [hrw]
      have ht3 : t3 = [.revokeRole d.owner c.admin] := by
        have h := removeRole_trace ok (c1.applyStmt (.alterDatabaseOwner d.name d.owner)) ha
          (hasRole_head _ hlc (by simp [Catalog.applyStmt, hc1]))
        rw [hrw] at h
        exact h
      rw [ht3]
      simp
    · have hoks' : ok (.alterDatabaseOwner d.name d.owner) = false := by simpa using hoks
      simp only [elvExec_fail hoks']
      rcases hrw : ELV.removeRole ok c1 c.admin d.owner with ⟨r3, c3, t3⟩
      simp only [hrw]
      have ht3 : t3 = [.revokeRole d.owner c.admin] := by
        have h := removeRole_trace ok c1 ha (hasRole_head _ hlc (by simp [hc1]))
        rw [hrw] at h
        exact h
      rw [ht3]
      simp

/-- The deferred revoke attempt issues either nothing or exactly one REVOKE. -/
theorem removeRole_trace_shape (ok : Stmt → Bool) (c : Catalog) (u r : String) :
    (ELV.removeRole ok c u r).2.2 = [] ∨
    (ELV.removeRole ok c u r).2.2 = [.revokeRole r u] := by
  unfold ELV.removeRole ELV.elvExec
  by_cases h1 : u = r
  · simp [h1]
  by_cases h2 : PGR.hasRole c u r
  · simp [h1, h2]
    by_cases h3 : ok (.revokeRole r u) = true <;> simp [h3]
  · simp [h1, h2]

/-- Error precedence for `updateDatabaseOwner`: when the wrapped ALTER
DATABASE OWNER statement was attempted and the server rejected it, that
statement's error is the function's result — the deferred revoke, whatever
its own outcome, never replaces it. -/
theorem c9aux_upd_error (ok : Stmt → Bool) (c : Catalog) (d : Database) (n o : String)
    (hin : Stmt.alterDatabaseOwner n o ∈ (ELV.updateDatabaseOwner ok c d).2.2)
    (hbad : ok (.alterDatabaseOwner n o) = false) :
    (ELV.updateDatabaseOwner ok c d).1 = .error (.stmt (.alterDatabaseOwner n o)) := by
  unfold ELV.updateDatabaseOwner at hin ⊢
  by_cases h0 : d.owner = ""
  · rw [if_pos h0] at hin; simp at hin
  rw [if_neg h0] at hin ⊢
  rcases hgo : c.getDatabaseOwner d.name with e | cur <;> simp only [hgo] at hin ⊢
  · simp at hin
  by_cases hco : cur ≠ d.owner
  case neg => rw [if_neg hco] at hin; simp at hin
  rw [if_pos hco] at hin ⊢
  by_cases hoks : ok (.alterDatabaseOwner d.name d.owner) = true
  case pos =>
    exfalso
    by_cases ha : c.admin = d.owner
    · simp only [addRole_self ha, elvExec_ok hoks] at hin
      rcases removeRole_trace_shape ok (c.applyStmt (.alterDatabaseOwner d.name d.owner))
          c.admin d.owner with h | h <;> rw [h] at hin <;> simp at hin <;>
        (obtain ⟨h1, h2⟩ := hin; subst h1; subst h2; rw [hoks] at hbad;
         exact absurd hbad (by simp))
    by_cases hb : PGR.hasRole c c.admin d.owner
    · simp only [addRole_has ok c ha hb, elvExec_ok hoks] at hin
      rcases removeRole_trace_shape ok (c.applyStmt (.alterDatabaseOwner d.name d.owner))
          c.admin d.owner with h | h <;> rw [h] at hin <;> simp at hin <;>
        (obtain ⟨h1, h2⟩ := hin; subst h1; subst h2; rw [hoks] at hbad;
         exact absurd hbad (by simp))
    by_cases hokg : ok (.grantRole d.owner c.admin) = true
    · simp only [addRole_grant ok c ha hb hokg, elvExec_ok hoks] at hin
      rcases removeRole_trace_shape ok
          (Catalog.applyStmt { c with memberships := (c.admin, d.owner) :: c.memberships }
            (.alterDatabaseOwner d.name d.owner)) c.admin d.owner with h | h <;>
        rw [h] at hin <;> simp at hin <;>
        (obtain ⟨h1, h2⟩ := hin; subst h1; subst h2; rw [hoks] at hbad;
         exact absurd hbad (by simp))
    · have hokg' : ok (.grantRole d.owner c.admin) = false := by simpa using hokg
      simp only [addRole_fail ok c ha hb hokg'] at hin
      simp at hin
  case neg =>
    have hoks' : ok (.alterDatabaseOwner d.name d.owner) = false := by simpa using hoks
    by_cases ha : c.admin = d.owner
    · simp only [addRole_self ha, elvExec_fail hoks'] at hin ⊢
      rcases removeRole_trace_shape ok c c.admin d.owner with h | h <;>
        rw [h] at hin <;> simp at hin <;>
        (obtain ⟨h1, h2⟩ := hin; subst h1; subst h2; rfl)
    by_cases hb : PGR.hasRole c c.admin d.owner
    · simp only [addRole_has ok c ha hb, elvExec_fail hoks'] at hin ⊢
      rcases removeRole_trace_shape ok c c.admin d.owner with h | h <;>
        rw [h] at hin <;> simp at hin <;>
        (obtain ⟨h1, h2⟩ := hin; subst h1; subst h2; rfl)
    by_cases hokg : ok (.grantRole d.owner c.admin) = true
    · simp only [addRole_grant ok c ha hb hokg, elvExec_fail hoks'] at hin ⊢
      rcases removeRole_trace_shape ok
          { c with memberships := (c.admin, d.owner) :: c.memberships }
          c.admin d.owner with h | h <;>
        rw [h] at hin <;> simp at hin <;>
        (obtain ⟨h1, h2⟩ := hin; subst h1; subst h2; rfl)
    · have hokg' : ok (.grantRole d.owner c.admin) = false := by simpa using hokg
      simp only [addRole_fail ok c ha hb hokg'] at hin
      simp at hin

/-- Elevation pairing for `createDatabase`: when the elevation GRANT was
issued and accepted, the deferred REVOKE is attempted on the same call, on
both the success and the failure exit of the wrapped CREATE DATABASE. -/
theorem c9aux_create_pairing (ok : Stmt → Bool) (c : Catalog) (d : Database)
    (hlc : toLowerStr d.owner = d.owner)
    (hg : Stmt.grantRole d.owner c.admin ∈ (ELV.createDatabase ok c d).2.2)
    (hok : ok (.grantRole d.owner c.admin) = true) :
    Stmt.revokeRole d.owner c.admin ∈ (ELV.createDatabase ok c d).2.2 := by
  unfold ELV.createDatabase at hg ⊢
  by_cases hdb : c.databaseExists d.name
  · rw [if_pos hdb] at hg; simp at hg
  rw [if_neg hdb] at hg ⊢
  by_cases h0 : d.owner ≠ ""
  case neg =>
    rw [if_neg h0] at hg
    unfold ELV.elvExec at hg
    by_cases hoks : ok (.createDatabase d.name "") = true <;> simp [hoks] at hg
  rw [if_pos h0] at hg ⊢
  by_cases hu : c.userExists d.owner
  case neg => rw [if_neg hu] at hg; simp at hg
  rw [if_pos hu] at hg ⊢
  by_cases ha : c.admin = d.owner
  · simp only [addRole_self ha] at hg
    by_cases hoks : ok (.createDatabase d.name d.owner) = true
    · simp only [elvExec_ok hoks, removeRole_self ha] at hg
      simp at hg
    · have hoks' : ok (.createDatabase d.name d.owner) = false := by simpa using hoks
      simp only [elvExec_fail hoks', removeRole_self ha] at hg
      simp at hg
  by_cases hb : PGR.hasRole c c.admin d.owner
  · simp only [addRole_has ok c ha hb] at hg
    by_cases hoks : ok (.createDatabase d.name d.owner) = true
    · simp only [elvExec_ok hoks] at hg
      rw [removeRole_try _ _ ha (by
        right
        simpa [Catalog.applyStmt] using hb.resolve_left ha)] at hg
      unfold ELV.elvExec at hg
      by_cases hokr : ok (.revokeRole d.owner c.admin) = true <;> simp [hokr] at hg
    · have hoks' : ok (.createDatabase d.name d.owner) = false := by simpa using hoks
      simp only [elvExec_fail hoks'] at hg
      rw [removeRole_try _ _ ha hb] at hg
      unfold ELV.elvExec at hg
      by_cases hokr : ok (.revokeRole d.owner c.admin) = true <;> simp [hokr] at hg
  · simp only [addRole_grant ok c ha hb hok]
    set c1 : Catalog := { c with memberships := (c.admin, d.owner) :: c.memberships } with hc1
    by_cases hoks : ok (.createDatabase d.name d.owner) = true
    · simp only [elvExec_ok hoks]
      rcases hrw : ELV.removeRole ok (c1.applyStmt (.createDatabase d.name d.owner))
          c.admin d.owner with ⟨r3, c3, t3⟩
      simp only [hrw]
      have ht3 : t3 = [.revokeRole d.owner c.admin] := by
        have h := removeRole_trace ok (c1.applyStmt (.createDatabase d.name d.owner)) ha
          (hasRole_head _ hlc (by simp [Catalog.applyStmt, hc1]))
        rw [hrw] at h
        exact h
      rw [ht3]
      simp
    · have hoks' : ok (.createDatabase d.name d.owner) = false := by simpa using hoks
      simp only [elvExec_fail hoks']
      rcases hrw : ELV.removeRole ok c1 c.admin d.owner with ⟨r3, c3, t3⟩
      simp only [hrw]
      have ht3 : t3 = [.revokeRole d.owner c.admin] := by
        have h := removeRole_trace ok c1 ha (hasRole_head _ hlc (by simp [hc1]))
        rw [hrw] at h
        exact h
      rw [ht3]
      simp

/-- Error precedence for `createDatabase`: a rejected CREATE DATABASE
statement's error is the function's result, never replaced by the outcome of
the deferred revoke. -/
theorem c9aux_create_error (ok : Stmt → Bool) (c : Catalog) (d : Database) (n o : String)
    (hin : Stmt.createDatabase n o ∈ (ELV.createDatabase ok c d).2.2)
    (hbad : ok (.createDatabase n o) = false) :
    (ELV.createDatabase ok c d).1 = .error (.stmt (.createDatabase n o)) := by
  unfold ELV.createDatabase at hin ⊢
  by_cases hdb : c.databaseExists d.name
  · rw [if_pos hdb] at hin; simp at hin
  rw [if_neg hdb] at hin ⊢
  by_cases h0 : d.owner ≠ ""
  case neg =>
    rw [if_neg h0] at hin ⊢
    unfold ELV.elvExec at hin ⊢
    by_cases hoks : ok (.createDatabase d.name "") = true <;> simp [hoks] at hin ⊢
    · obtain ⟨h1, h2⟩ := hin
      subst h1; subst h2
      rw [hoks] at hbad
      exact absurd hbad (by simp)
    · obtain ⟨h1, h2⟩ := hin
      subst h1; subst h2
      exact ⟨rfl, rfl⟩
  rw [if_pos h0] at hin ⊢
  by_cases hu : c.userExists d.owner
  case neg => rw [if_neg hu] at hin; simp at hin
  rw [if_pos hu] at hin ⊢
  by_cases hoks : ok (.createDatabase d.name d.owner) = true
  case pos =>
    exfalso
    by_cases ha : c.admin = d.owner
    · simp only [addRole_self ha, elvExec_ok hoks] at hin
      rcases removeRole_trace_shape ok (c.applyStmt (.createDatabase d.name d.owner))
          c.admin d.owner with h | h <;> rw [h] at hin <;> simp at hin <;>
        (obtain ⟨h1, h2⟩ := hin; subst h1; subst h2; rw [hoks] at hbad;
         exact absurd hbad (by simp))
    by_cases hb : PGR.hasRole c c.admin d.owner
    · simp only [addRole_has ok c ha hb, elvExec_ok hoks] at hin
      rcases removeRole_trace_shape ok (c.applyStmt (.createDatabase d.name d.owner))
          c.admin d.owner with h | h <;> rw [h] at hin <;> simp at hin <;>
        (obtain ⟨h1, h2⟩ := hin; subst h1; subst h2; rw [hoks] at hbad;
         exact absurd hbad (by simp))
    by_cases hokg : ok (.grantRole d.owner c.admin) = true
    · simp only [addRole_grant ok c ha hb hokg, elvExec_ok hoks] at hin
      rcases removeRole_trace_shape ok
          (Catalog.applyStmt { c with memberships := (c.admin, d.owner) :: c.memberships }
            (.createDatabase d.name d.owner)) c.admin d.owner with h | h <;>
        rw [h] at hin <;> simp at hin <;>
        (obtain ⟨h1, h2⟩ := hin; subst h1; subst h2; rw [hoks] at hbad;
         exact absurd hbad (by simp))
    · have hokg' : ok (.grantRole d.owner c.admin) = false := by simpa using hokg
      simp only [addRole_fail ok c ha hb hokg'] at hin
      simp at hin
  case neg =>
    have hoks' : ok (.createDatabase d.name d.owner) = false := by simpa using hoks
    by_cases ha : c.admin = d.owner
    · simp only [addRole_self ha, elvExec_fail hoks'] at hin ⊢
      rcases removeRole_trace_shape ok c c.admin d.owner with h | h <;>
        rw [h] at hin <;> simp at hin <;>
        (obtain ⟨h1, h2⟩ := hin; subst h1; subst h2; rfl)
    by_cases hb : PGR.hasRole c c.admin d.owner
    · simp only [addRole_has ok c ha hb, elvExec_fail hoks'] at hin ⊢
      rcases removeRole_trace_shape ok c c.admin d.owner with h | h <;>
        rw [h] at hin <;> simp at hin <;>
        (obtain ⟨h1, h2⟩ := hin; subst h1; subst h2; rfl)
    by_cases hokg : ok (.grantRole d.owner c.admin) = true
    · simp only [addRole_grant ok c ha hb hokg, elvExec_fail hoks'] at hin ⊢
      rcases removeRole_trace_shape ok
          { c with memberships := (c.admin, d.owner) :: c.memberships }
          c.admin d.owner with h | h <;>
        rw [h] at hin <;> simp at hin <;>
        (obtain ⟨h1, h2⟩ := hin; subst h1; subst h2; rfl)
    · have hokg' : ok (.grantRole d.owner c.admin) = false := by simpa using hokg
      simp only [addRole_fail ok c ha hb hokg'] at hin
      simp at hin

/-- A membership other than the one being revoked survives a revoke attempt. -/
theorem removeRole_mem_preserved (ok : Stmt → Bool) (c : Catalog) (u r : String) :
    ∀ pr ∈ c.memberships, pr ≠ (u, r) →
      pr ∈ (ELV.removeRole ok c u r).2.1.memberships := by
  intro pr hpr hne
  unfold ELV.removeRole ELV.elvExec
  by_cases h1 : u = r
  · simpa [h1] using hpr
  by_cases h2 : PGR.hasRole c u r
  · by_cases h3 : ok (.revokeRole r u) = true <;>
      simp [h1, h2, h3, Catalog.applyStmt, List.mem_filter, hpr, hne]
  · simpa [h1, h2] using hpr

/-- A pending deferred revoke whose membership is still live is attempted:
its REVOKE statement appears in the deferred trace. -/
theorem runDeferred_pairing (ok : Stmt → Bool) :
    ∀ (pending : List (String × String)) (c : Catalog) (u r : String),
      (u, r) ∈ pending → (u, r) ∈ c.memberships → ¬ u = r → toLowerStr r = r →
      Stmt.revokeRole r u ∈ (ELV.runDeferred ok c pending).2 := by
  intro pending
  induction pending with
  | nil => intro c u r h; simp at h
  | cons head rest ih =>
    intro c u r hp hm hne hlc
    rcases head with ⟨u0, r0⟩
    unfold ELV.runDeferred
    rcases hrw : ELV.removeRole ok c u0 r0 with ⟨r1, c1, t1⟩
    simp only [hrw]
    by_cases heq : (u0, r0) = (u, r)
    · obtain ⟨h1, h2⟩ := Prod.mk.injEq .. ▸ heq
      subst h1; subst h2
      have h : t1 = [.revokeRole r0 u0] := by
        have h0 := removeRole_trace ok c hne (hasRole_head c hlc hm)
        rw [hrw] at h0
        simpa using h0
      rw [h]
      simp
    · have hp' : (u, r) ∈ rest := by
        rcases List.mem_cons.mp hp with h | h
        · exact absurd h.symm heq
        · exact h
      have hm1 : (u, r) ∈ c1.memberships := by
        have h := removeRole_mem_preserved ok c u0 r0 (u, r) hm (fun h => heq h.symm)
        rw [hrw] at h
        exact h
      rcases hrd : ELV.runDeferred ok c1 rest with ⟨c2, t2⟩
      simp only [hrd]
      have h := ih c1 u r hp' hm1 hne hlc
      rw [hrd] at h
      simp [h]

/-- The deferred trace consists of revoke attempts only. -/
theorem runDeferred_only_revokes (ok : Stmt → Bool) :
    ∀ (pending : List (String × String)) (c : Catalog) (s : Stmt),
      s ∈ (ELV.runDeferred ok c pending).2 → ∃ u r, s = .revokeRole r u := by
  intro pending
  induction pending with
  | nil => intro c s h; simp [ELV.runDeferred] at h
  | cons head rest ih =>
    intro c s hs
    rcases head with ⟨u0, r0⟩
    unfold ELV.runDeferred at hs
    rcases hrw : ELV.removeRole ok c u0 r0 with ⟨r1, c1, t1⟩
    simp only [hrw] at hs
    rcases hrd : ELV.runDeferred ok c1 rest with ⟨c2, t2⟩
    simp only [hrd] at hs
    simp at hs
    rcases hs with hs | hs
    · have hsh : t1 = [] ∨ t1 = [.revokeRole r0 u0] := by
        have h0 := removeRole_trace_shape ok c u0 r0
        rw [hrw] at h0
        simpa using h0
      rcases hsh with h | h <;> rw [h] at hs
      · simp at hs
      · simp at hs
        exact ⟨u0, r0, hs⟩
    · exact ih c1 s (by rw [hrd]; exact hs)

/-- Invariant bundle for the rule loop of `alterDefaultPrivileges`:
memberships and pending deferred revokes only grow, the loop trace holds no
revoke, an accepted elevation grant leaves its membership live and its
deferred revoke registered, and a rejected rule statement's error is the
loop's result. -/
def AdpSpec (ok : Stmt → Bool) (admin database : String) (ps : List DefaultPrivilege)
    (c : Catalog) (pending : List (String × String)) : Prop :=
  (∀ pr ∈ c.memberships, pr ∈ (ELV.adpLoop ok admin database c ps pending).2.1.memberships) ∧
  (∀ e ∈ pending, e ∈ (ELV.adpLoop ok admin database c ps pending).2.2.2) ∧
  (∀ u r, Stmt.revokeRole r u ∉ (ELV.adpLoop ok admin database c ps pending).2.2.1) ∧
  (∀ role, Stmt.grantRole role admin ∈ (ELV.adpLoop ok admin database c ps pending).2.2.1 →
    ok (.grantRole role admin) = true →
    ¬ admin = role ∧
    (admin, role) ∈ (ELV.adpLoop ok admin database c ps pending).2.1.memberships ∧
    (admin, role) ∈ (ELV.adpLoop ok admin database c ps pending).2.2.2) ∧
  (∀ db p, Stmt.alterDefaultPrivilege db p ∈ (ELV.adpLoop ok admin database c ps pending).2.2.1 →
    ok (.alterDefaultPrivilege db p) = false →
    (ELV.adpLoop ok admin database c ps pending).1 =
      .error (.stmt (.alterDefaultPrivilege db p)))

theorem adpLoop_spec (ok : Stmt → Bool) (admin database : String) :
    ∀ (ps : List DefaultPrivilege) (c : Catalog) (pending : List (String × String)),
      AdpSpec ok admin database ps c pending := by
  intro ps
  induction ps with
  | nil =>
    intro c pending
    refine ⟨?_, ?_, ?_, ?_, ?_⟩ <;> simp [ELV.adpLoop]
  | cons p ps ih =>
    intro c pending
    have key : ∃ (c1 : Catalog) (t1 : List Stmt) (pending1 : List (String × String)),
        (∀ pr ∈ c.memberships, pr ∈ c1.memberships) ∧
        (∀ e ∈ pending, e ∈ pending1) ∧
        (∀ u r, Stmt.revokeRole r u ∉ t1) ∧
        (∀ db pr, Stmt.alterDefaultPrivilege db pr ∉ t1) ∧
        (∀ role, Stmt.grantRole role admin ∈ t1 → ok (.grantRole role admin) = true →
          ¬ admin = role ∧ (admin, role) ∈ c1.memberships ∧ (admin, role) ∈ pending1) ∧
        ELV.adpLoop ok admin database c (p :: ps) pending =
          (match ELV.elvExec ok c1 (.alterDefaultPrivilege database p) with
            | (.error e, c2, t2) => (.error e, c2, t1 ++ t2, pending1)
            | (.ok _, c2, t2) =>
              match ELV.adpLoop ok admin database c2 ps pending1 with
              | (r, c3, t3, pending2) => (r, c3, t1 ++ t2 ++ t3, pending2)) := by
      by_cases hw : p.role ≠ "" ∨ p.role ≠ admin
      · by_cases ha : admin = p.role
        · refine ⟨c, [], (admin, p.role) :: pending, fun pr h => h, fun e h => .tail _ h,
            by simp, by simp, by simp, ?_⟩
          rw [ELV.adpLoop]
          simp only [if_pos hw, addRole_self ha]
        · by_cases hb : PGR.hasRole c admin p.role
          · refine ⟨c, [], (admin, p.role) :: pending, fun pr h => h, fun e h => .tail _ h,
              by simp, by simp, by simp, ?_⟩
            rw [ELV.adpLoop]
            simp only [if_pos hw, addRole_has ok c ha hb]
          · by_cases hokg : ok (.grantRole p.role admin) = true
            · refine ⟨{ c with memberships := (admin, p.role) :: c.memberships },
                [.grantRole p.role admin], (admin, p.role) :: pending,
                fun pr h => .tail _ h, fun e h => .tail _ h, by simp, by simp, ?_, ?_⟩
              · intro role hr hokr
                simp at hr
                subst hr
                exact ⟨ha, by simp, by simp⟩
              · rw [ELV.adpLoop]
                simp only [if_pos hw, addRole_grant ok c ha hb hokg]
            · have hokg' : ok (.grantRole p.role admin) = false := by simpa using hokg
              refine ⟨c, [.grantRole p.role admin], (admin, p.role) :: pending,
                fun pr h => h, fun e h => .tail _ h, by simp, by simp, ?_, ?_⟩
              · intro role hr hokr
                simp at hr
                subst hr
                rw [hokr] at hokg'
                exact absurd hokg' (by simp)
              · rw [ELV.adpLoop]
                simp only [if_pos hw, addRole_fail ok c ha hb hokg']
      · refine ⟨c, [], pending, fun pr h => h, fun e h => h, by simp, by simp, by simp, ?_⟩
        rw [ELV.adpLoop]
        simp only [if_neg hw]
    obtain ⟨c1, t1, pending1, F1, F2, F3, F4, F5, heq⟩ := key
    unfold AdpSpec
    by_cases hoks : ok (.alterDefaultPrivilege database p) = true
    · rw [heq]
      simp only [elvExec_ok hoks]
      have hc2 : Catalog.applyStmt c1 (.alterDefaultPrivilege database p) = c1 := rfl
      rw [hc2]
      rcases hrec : ELV.adpLoop ok admin database c1 ps pending1 with ⟨r, c3, t3, pending2⟩
      obtain ⟨I1, I2, I3, I4, I5⟩ := ih c1 pending1
      rw [hrec] at I1 I2 I3 I4 I5
      refine ⟨?_, ?_, ?_, ?_, ?_⟩
      · intro pr h
        exact I1 pr (F1 pr h)
      · intro e h
        exact I2 e (F2 e h)
      · intro u r
        simp only [List.mem_append]
        push_neg
        refine ⟨⟨F3 u r, ?_⟩, I3 u r⟩
        simp
      · intro role hr hokr
        simp only [List.mem_append] at hr
        rcases hr with (hr | hr) | hr
        · obtain ⟨hne, hm, hp⟩ := F5 role hr hokr
          exact ⟨hne, I1 _ hm, I2 _ hp⟩
        · simp at hr
        · exact I4 role hr hokr
      · intro db pr hmem hbad
        simp only [List.mem_append] at hmem
        rcases hmem with (hmem | hmem) | hmem
        · exact absurd hmem (F4 db pr)
        · simp at hmem
          obtain ⟨h1, h2⟩ := hmem
          subst h1; subst h2
          rw [hbad] at hoks
          exact absurd hoks (by simp)
        · exact I5 db pr hmem hbad
    · have hoks' : ok (.alterDefaultPrivilege database p) = false := by simpa using hoks
      rw [heq]
      simp only [elvExec_fail hoks']
      refine ⟨fun pr h => F1 pr h, fun e h => F2 e h, ?_, ?_, ?_⟩
      · intro u r
        simp only [List.mem_append]
        push_neg
        exact ⟨F3 u r, by simp⟩
      · intro role hr hokr
        simp only [List.mem_append] at hr
        rcases hr with hr | hr
        · exact F5 role hr hokr
        · simp at hr
      · intro db pr hmem hbad
        simp only [List.mem_append] at hmem
        rcases hmem with hmem | hmem
        · exact absurd hmem (F4 db pr)
        · simp at hmem
          obtain ⟨h1, h2⟩ := hmem
          subst h1; subst h2
          rfl

/-- Elevation pairing for `alterDefaultPrivileges`: every accepted elevation
GRANT issued in the rule loop is followed by its deferred REVOKE attempt on
the way out, whatever the loop's outcome. -/
theorem c9aux_adp_pairing (ok : Stmt → Bool) (c : Catalog) (database : String)
    (rules : List DefaultPrivilege) (role : String)
    (hlc : toLowerStr role = role)
    (hg : Stmt.grantRole role c.admin ∈ (ELV.alterDefaultPrivileges ok c database rules).2.2)
    (hok : ok (.grantRole role c.admin) = true) :
    Stmt.revokeRole role c.admin ∈ (ELV.alterDefaultPrivileges ok c database rules).2.2 := by
  unfold ELV.alterDefaultPrivileges at hg ⊢
  rcases hlp : ELV.adpLoop ok c.admin database c rules [] with ⟨r, c1, t1, pending⟩
  simp only [hlp] at hg ⊢
  rcases hrd : ELV.runDeferred ok c1 pending with ⟨c2, t2⟩
  simp only [hrd] at hg ⊢
  obtain ⟨I1, I2, I3, I4, I5⟩ := adpLoop_spec ok c.admin database rules c []
  rw [hlp] at I4
  simp only [List.mem_append] at hg ⊢
  rcases hg with hg | hg
  · obtain ⟨hne, hm, hp⟩ := I4 role hg hok
    right
    have h := runDeferred_pairing ok pending c1 c.admin role hp hm hne hlc
    rw [hrd] at h
    exact h
  · obtain ⟨u, rr, h⟩ := runDeferred_only_revokes ok pending c1 _ (by rw [hrd]; exact hg)
    simp at h

/-- Error precedence for `alterDefaultPrivileges`: a rejected ALTER DEFAULT
PRIVILEGES statement's error is the function's result; the deferred revokes
run afterwards but never replace it. -/
theorem c9aux_adp_error (ok : Stmt → Bool) (c : Catalog) (database : String)
    (rules : List DefaultPrivilege) (db : String) (p : DefaultPrivilege)
    (hin : Stmt.alterDefaultPrivilege db p ∈ (ELV.alterDefaultPrivileges ok c database rules).2.2)
    (hbad : ok (.alterDefaultPrivilege db p) = false) :
    (ELV.alterDefaultPrivileges ok c database rules).1 =
      .error (.stmt (.alterDefaultPrivilege db p)) := by
  unfold ELV.alterDefaultPrivileges at hin ⊢
  rcases hlp : ELV.adpLoop ok c.admin database c rules [] with ⟨r, c1, t1, pending⟩
  simp only [hlp] at hin ⊢
  rcases hrd : ELV.runDeferred ok c1 pending with ⟨c2, t2⟩
  simp only [hrd] at hin ⊢
  obtain ⟨I1, I2, I3, I4, I5⟩ := adpLoop_spec ok c.admin database rules c []
  rw [hlp] at I5
  simp only [List.mem_append] at hin
  rcases hin with hin | hin
  · exact I5 db p hin hbad
  · obtain ⟨u, rr, h⟩ := runDeferred_only_revokes ok pending c1 _ (by rw [hrd]; exact hin)
    simp at h

/-- Claim C9 (confirmed): elevation release and error precedence.  For the
three elevation-wrapped operations (`updateDatabaseOwner`, `createDatabase`,
`alterDefaultPrivileges`): whenever the elevation GRANT of a (lower-case
named) role to the operating principal was issued and accepted, the matching
membership REVOKE is attempted on the same call — on the success exit and on
the failure exit of the wrapped statement alike; and whenever the wrapped
statement itself was attempted and rejected by the server, that statement's
error is the operation's returned result, which no revoke outcome replaces
or masks. -/
theorem c9_elevation_release_and_error_precedence :
    (∀ (ok : Stmt → Bool) (c : Catalog) (d : Database),
      toLowerStr d.owner = d.owner →
      Stmt.grantRole d.owner c.admin ∈ (ELV.updateDatabaseOwner ok c d).2.2 →
      ok (.grantRole d.owner c.admin) = true →
      Stmt.revokeRole d.owner c.admin ∈ (ELV.updateDatabaseOwner ok c d).2.2) ∧
    (∀ (ok : Stmt → Bool) (c : Catalog) (d : Database) (n o : String),
      Stmt.alterDatabaseOwner n o ∈ (ELV.updateDatabaseOwner ok c d).2.2 →
      ok (.alterDatabaseOwner n o) = false →
      (ELV.updateDatabaseOwner ok c d).1 = .error (.stmt (.alterDatabaseOwner n o))) ∧
    (∀ (ok : Stmt → Bool) (c : Catalog) (d : Database),
      toLowerStr d.owner = d.owner →
      Stmt.grantRole d.owner c.admin ∈ (ELV.createDatabase ok c d).2.2 →
      ok (.grantRole d.owner c.admin) = true →
      Stmt.revokeRole d.owner c.admin ∈ (ELV.createDatabase ok c d).2.2) ∧
    (∀ (ok : Stmt → Bool) (c : Catalog) (d : Database) (n o : String),
      Stmt.createDatabase n o ∈ (ELV.createDatabase ok c d).2.2 →
      ok (.createDatabase n o) = false →
      (ELV.createDatabase ok c d).1 = .error (.stmt (.createDatabase n o))) ∧
    (∀ (ok : Stmt → Bool) (c : Catalog) (database : String)
        (rules : List DefaultPrivilege) (role : String),
      toLowerStr role = role →
      Stmt.grantRole role c.admin ∈ (ELV.alterDefaultPrivileges ok c database rules).2.2 →
      ok (.grantRole role c.admin) = true →
      Stmt.revokeRole role c.admin ∈ (ELV.alterDefaultPrivileges ok c database rules).2.2) ∧
    (∀ (ok : Stmt → Bool) (c : Catalog) (database : String)
        (rules : List DefaultPrivilege) (db : String) (p : DefaultPrivilege),
      Stmt.alterDefaultPrivilege db p ∈ (ELV.alterDefaultPrivileges ok c database rules).2.2 →
      ok (.alterDefaultPrivilege db p) = false →
      (ELV.alterDefaultPrivileges ok c database rules).1 =
        .error (.stmt (.alterDefaultPrivilege db p))) :=
  ⟨fun ok c d hlc hg hok => c9aux_upd_pairing ok c d hlc hg hok,
   fun ok c d n o hin hbad => c9aux_upd_error ok c d n o hin hbad,
   fun ok c d hlc hg hok => c9aux_create_pairing ok c d hlc hg hok,
   fun ok c d n o hin hbad => c9aux_create_error ok c d n o hin hbad,
   fun ok c database rules role hlc hg hok => c9aux_adp_pairing ok c database rules role hlc hg hok,
   fun ok c database rules db p hin hbad => c9aux_adp_error ok c database rules db p hin hbad⟩

/-- Witness for C9: on a server that rejects exactly the ALTER DATABASE
OWNER statement, an ownership transfer elevates, fails, still attempts the
revoke, and returns the wrapped statement's error. -/
theorem c9_elevation_release_and_error_precedence_witness :
    Stmt.revokeRole "own" "adm" ∈
      (ELV.updateDatabaseOwner (fun s => decide (s ≠ .alterDatabaseOwner "d" "own"))
        ⟨"adm", [("own", freshOptions false)], [], [("d", "old")], []⟩ ⟨"d", [], "own"⟩).2.2 ∧
    (ELV.updateDatabaseOwner (fun s => decide (s ≠ .alterDatabaseOwner "d" "own"))
        ⟨"adm", [("own", freshOptions false)], [], [("d", "old")], []⟩ ⟨"d", [], "own"⟩).1 =
      .error (.stmt (.alterDatabaseOwner "d" "own")) :=
  ⟨c9_elevation_release_and_error_precedence.1 _ _ _ (by decide) (by decide) (by decide),
   c9_elevation_release_and_error_precedence.2.1 _ _ _ "d" "own" (by decide) (by decide)⟩

/-- The reconciliation phase a statement belongs to: user statements rank 0,
database statements rank 1, grant statements rank 2. -/
def phaseRank : Stmt → Nat
  | .createUser .. => 0
  | .alterUser .. => 0
  | .setPassword .. => 0
  | .createDatabase .. => 1
  | .alterDatabaseOwner .. => 1
  | .alterDefaultPrivilege .. => 1
  | .grant .. => 2
  | .grantRole .. => 2
  | .revokeRole .. => 2
  | .myCreateDatabase .. => 1
  | .myCreateUser .. => 0
  | .mySetPassword .. => 0
  | .myGrant .. => 2

/-- The ordering the claim asserts: along the trace the phase rank never
decreases — every user statement precedes every database statement, which
precedes every grant statement. -/
def phaseOrdered (t : List Stmt) : Prop := List.Chain' (· ≤ ·) (t.map phaseRank)

instance (t : List Stmt) : Decidable (phaseOrdered t) :=
  inferInstanceAs (Decidable (List.Chain' _ _))

/-- Statements emitted by a sequential loop all satisfy any property its
body's statements satisfy. -/
theorem runList_trace_all {σ α : Type} (P : Stmt → Prop)
    (f : σ → α → Except Err Unit × σ × List Stmt)
    (h : ∀ c a, ∀ s ∈ (f c a).2.2, P s) :
    ∀ (l : List α) (c : σ), ∀ s ∈ (runList f c l).2.2, P s := by
  intro l
  induction l with
  | nil => intro c s hs; simp [runList] at hs
  | cons a as ih =>
    intro c s hs
    unfold runList at hs
    rcases hf : f c a with ⟨r1, c1, t1⟩
    simp only [hf] at hs
    rcases r1 with e | u
    · exact h c a s (by rw [hf]; exact hs)
    · rcases hrl : runList f c1 as with ⟨r2, c2, t2⟩
      simp only [hrl] at hs
      simp at hs
      rcases hs with hs | hs
      · exact h c a s (by rw [hf]; simpa using hs)
      · exact ih c1 s (by rw [hrl]; exact hs)

/-- A constant-value prefix extends an ordered tail whose values dominate it. -/
theorem chain_const_append (a : Nat) :
    ∀ (l1 l2 : List Nat), (∀ x ∈ l1, x = a) → List.Chain' (· ≤ ·) l2 →
      (∀ y ∈ l2, a ≤ y) → List.Chain' (· ≤ ·) (l1 ++ l2) := by
  intro l1
  induction l1 with
  | nil => intro l2 _ h2 _; simpa
  | cons x xs ih =>
    intro l2 h1 h2 h3
    rw [List.cons_append]
    refine List.chain'_cons'.mpr ⟨?_, ih l2 (fun y hy => h1 y (List.mem_cons_of_mem _ hy)) h2 h3⟩
    intro y hy
    have hx : x = a := h1 x (List.mem_cons_self ..)
    subst hx
    rcases xs with _ | ⟨z, zs⟩
    · simp at hy
      rcases l2 with _ | ⟨w, ws⟩
      · simp at hy
      · simp at hy
        subst hy
        exact h3 w (List.mem_cons_self ..)
    · simp at hy
      subst hy
      rw [h1 z (by simp)]

/-- Every statement of the postgres user phase is a user statement. -/
theorem pg_CreateUser_rank (c : Catalog) (u : User) :
    ∀ s ∈ (PG.CreateUser c u).2.2, phaseRank s = 0 := by
  intro s hs
  unfold PG.CreateUser at hs
  by_cases hex : c.userExists u.name
  · simp only [if_pos hex] at hs
    unfold PG.updateUser at hs
    rcases hgu : c.getUser u.name with e | live <;> simp only [hgu] at hs
    · simp at hs
    · by_cases hpw : u.password ≠ ""
      · simp [hpw, exec, PG.setPassword] at hs
        rcases hs with rfl | rfl <;> rfl
      · simp [hpw, exec] at hs
        subst hs
        rfl
  · simp only [if_neg hex] at hs
    unfold PG.createUser at hs
    by_cases hpw : u.password ≠ ""
    · simp [hpw, exec, PG.setPassword] at hs
      rcases hs with rfl | rfl <;> rfl
    · simp [hpw, exec] at hs
      subst hs
      rfl

/-- Every statement of `createDatabase` (part_001) is a database statement. -/
theorem pg_createDatabase_rank (c : Catalog) (d : Database) :
    ∀ s ∈ (PG.createDatabase c d).2.2, phaseRank s = 1 := by
  intro s hs
  unfold PG.createDatabase at hs
  split_ifs at hs <;> simp [exec] at hs <;> (subst hs; rfl)

/-- Every statement of `updateDatabase` (part_001) is a database statement. -/
theorem pg_updateDatabase_rank (c : Catalog) (d : Database) :
    ∀ s ∈ (PG.updateDatabase c d).2.2, phaseRank s = 1 := by
  intro s hs
  unfold PG.updateDatabase at hs
  rcases hgo : c.getDatabaseOwner d.name with e | cur <;> simp only [hgo] at hs
  · simp at hs
  · split_ifs at hs <;> simp [exec] at hs <;> (subst hs; rfl)

/-- Every statement of `alterDefaultPrivileges` (part_001) is a database
statement. -/
theorem pg_adp_rank (c : Catalog) (db : String) (rules : List DefaultPrivilege) :
    ∀ s ∈ (PG.alterDefaultPrivileges c db rules).2.2, phaseRank s = 1 := by
  unfold PG.alterDefaultPrivileges
  refine runList_trace_all _ _ (fun c p s hs => ?_) rules c
  simp [exec] at hs
  subst hs
  rfl

/-- Every statement of the postgres database phase is a database statement. -/
theorem pg_CreateDatabase_rank (c : Catalog) (d : Database) :
    ∀ s ∈ (PG.CreateDatabase c d).2.2, phaseRank s = 1 := by
  intro s hs
  unfold PG.CreateDatabase at hs
  rcases h1 : PG.createDatabase c d with ⟨r1, c1, t1⟩
  simp only [h1] at hs
  rcases r1 with e | u1
  · exact pg_createDatabase_rank c d s (by rw [h1]; exact hs)
  · rcases h2 : PG.updateDatabase c1 d with ⟨r2, c2, t2⟩
    simp only [h2] at hs
    rcases r2 with e | u2
    · simp at hs
      rcases hs with hs | hs
      · exact pg_createDatabase_rank c d s (by rw [h1]; simpa using hs)
      · exact pg_updateDatabase_rank c1 d s (by rw [h2]; simpa using hs)
    · rcases h3 : PG.alterDefaultPrivileges c2 d.name d.defaultPrivileges with ⟨r3, c3, t3⟩
      simp only [h3] at hs
      simp at hs
      rcases hs with hs | hs | hs
      · exact pg_createDatabase_rank c d s (by rw [h1]; simpa using hs)
      · exact pg_updateDatabase_rank c1 d s (by rw [h2]; simpa using hs)
      · exact pg_adp_rank c2 d.name d.defaultPrivileges s (by rw [h3]; simpa using hs)

/-- Every statement of the postgres grant phase is a grant statement. -/
theorem pg_grantPermission_rank (c : Catalog) (username : String) (g : Grant) :
    ∀ s ∈ (PG.grantPermission c username g).2.2, phaseRank s = 2 := by
  intro s hs
  unfold PG.grantPermission at hs
  split_ifs at hs <;> simp [exec] at hs <;> (subst hs; rfl)

/-- Every statement of `GrantPermissions` (postgres.go) is a grant statement. -/
theorem pg_GrantPermissions_rank (c : Catalog) (username database : String) (gs : List Grant) :
    ∀ s ∈ (PG.GrantPermissions c username database gs).2.2, phaseRank s = 2 := by
  intro s hs
  unfold PG.GrantPermissions at hs
  by_cases hex : c.userExists username
  · rw [if_pos hex] at hs
    exact runList_trace_all _ _ (fun c g => pg_grantPermission_rank c username g) gs c s hs
  · rw [if_neg hex] at hs
    simp at hs

/-- A constant-rank trace is phase ordered. -/
theorem chain_const (a : Nat) (l : List Nat) (h : ∀ x ∈ l, x = a) :
    List.Chain' (· ≤ ·) l := by
  have := chain_const_append a l [] h (by simp) (by simp)
  simpa using this

/-- Members of a mapped rank list come from trace statements. -/
theorem rank_mem {t : List Stmt} {y : Nat} (h : y ∈ t.map phaseRank)
    (ha : ∀ s ∈ t, phaseRank s = a) : y = a := by
  rcases List.mem_map.mp h with ⟨s, hs, rfl⟩
  exact ha s hs

/-- Every statement of the mysql database step is a database statement. -/
theorem my_CreateDatabase_rank (c : MY.MyCatalog) (d : Database) :
    ∀ s ∈ (MY.CreateDatabase c d).2.2, phaseRank s = 1 := by
  intro s hs
  unfold MY.CreateDatabase at hs
  split_ifs at hs <;> simp [MY.myExec] at hs
  subst hs
  rfl

/-- Every statement of the mysql user step is a user statement. -/
theorem my_CreateUser_rank (c : MY.MyCatalog) (u : User) :
    ∀ s ∈ (MY.CreateUser c u).2.2, phaseRank s = 0 := by
  intro s hs
  unfold MY.CreateUser at hs
  by_cases hex : MY.userExists c u.name <;>
    by_cases hpw : u.password ≠ "" <;>
    simp [hex, hpw, MY.myExec] at hs
  · subst hs; rfl
  · rcases hs with rfl | rfl <;> rfl
  · subst hs; rfl

/-- Every statement of the mysql grant step is a grant statement. -/
theorem my_GrantPermissions_rank (c : MY.MyCatalog) (u : User) :
    ∀ s ∈ (MY.GrantPermissions c u).2.2, phaseRank s = 2 := by
  intro s hs
  unfold MY.GrantPermissions at hs
  by_cases hex : MY.userExists c u.name
  · rw [if_pos hex] at hs
    refine runList_trace_all (fun s => phaseRank s = 2) _
      (fun c g s hs => ?_) u.grants c s hs
    simp [MY.myExec] at hs
    subst hs
    rfl
  · rw [if_neg hex] at hs
    simp at hs

/-- Counterexample for C8: the mysql `Manage` creates the declared database
before any user, and applies the first user's grants before creating the
second user, so the claimed users-databases-grants phase order fails. -/
theorem c8_counterexample_mysql_order :
    ¬ phaseOrdered (MY.Manage ⟨[], []⟩ [⟨"d", [], ""⟩]
      [⟨"u1", "", freshOptions false, [⟨"db", "", "", "", "", ["ALL"], false⟩], []⟩,
       ⟨"u2", "", freshOptions false, [], []⟩]).2.2 := by
  have htr : (MY.Manage ⟨[], []⟩ [⟨"d", [], ""⟩]
      [⟨"u1", "", freshOptions false, [⟨"db", "", "", "", "", ["ALL"], false⟩], []⟩,
       ⟨"u2", "", freshOptions false, [], []⟩]).2.2 =
      [.myCreateDatabase "d", .myCreateUser "u1" "",
       .myGrant "u1" ⟨"db", "", "", "", "", ["ALL"], false⟩,
       .myCreateUser "u2" ""] := by rfl
  rw [htr]
  unfold phaseOrdered
  intro h
  rw [show List.map phaseRank
      [.myCreateDatabase "d", .myCreateUser "u1" "",
       .myGrant "u1" ⟨"db", "", "", "", "", ["ALL"], false⟩,
       .myCreateUser "u2" ""] = [1, 0, 2, 0] from rfl] at h
  exact absurd (List.chain'_cons.mp h).1 (by decide)

/-- Claim C8 (corrected): the postgres `Manage` processes users, then
databases, then grants — its trace is phase ordered.  The mysql `Manage`
instead processes every database first and then, per user in order, the
user's creation immediately followed by that user's grants: its trace is a
database-statement prefix followed by user and grant statements
interleaved. -/
theorem c8_manage_order_amended :
    (∀ (c : Catalog) (dbs : List Database) (users : List User),
      phaseOrdered (PG.Manage c dbs users).2.2) ∧
    (∀ (c : MY.MyCatalog) (dbs : List Database) (users : List User),
      ∃ t1 t2, (MY.Manage c dbs users).2.2 = t1 ++ t2 ∧
        (∀ s ∈ t1, phaseRank s = 1) ∧
        (∀ s ∈ t2, phaseRank s = 0 ∨ phaseRank s = 2)) := by
  constructor
  · intro c dbs users
    unfold PG.Manage
    rcases h1 : runList PG.CreateUser c users with ⟨r1, c1, t1⟩
    have hr1 : ∀ s ∈ t1, phaseRank s = 0 := fun s hs =>
      runList_trace_all _ _ pg_CreateUser_rank users c s (by rw [h1]; exact hs)
    simp only [h1]
    rcases r1 with e | u1
    · exact chain_const 0 _ (fun x hx => rank_mem hx hr1)
    rcases h2 : runList PG.CreateDatabase c1 dbs with ⟨r2, c2, t2⟩
    have hr2 : ∀ s ∈ t2, phaseRank s = 1 := fun s hs =>
      runList_trace_all _ _ pg_CreateDatabase_rank dbs c1 s (by rw [h2]; exact hs)
    simp only [h2]
    rcases r2 with e | u2
    · show List.Chain' (· ≤ ·) ((t1 ++ t2).map phaseRank)
      rw [List.map_append]
      refine chain_const_append 0 _ _ (fun x hx => rank_mem hx hr1)
        (chain_const 1 _ (fun x hx => rank_mem hx hr2)) (fun y hy => Nat.zero_le y)
    rcases h3 : runList (fun c u =>
        runList (fun c g => PG.GrantPermissions c u.name g.database [g]) c u.grants)
        c2 users with ⟨r3, c3, t3⟩
    have hr3 : ∀ s ∈ t3, phaseRank s = 2 := fun s hs =>
      runList_trace_all _ _ (fun c u =>
        runList_trace_all _ _ (fun c g =>
          pg_GrantPermissions_rank c u.name g.database [g]) u.grants c) users c2 s
        (by rw [h3]; exact hs)
    simp only [h3]
    show List.Chain' (· ≤ ·) ((t1 ++ t2 ++ t3).map phaseRank)
    rw [List.map_append, List.map_append, List.append_assoc]
    refine chain_const_append 0 _ _ (fun x hx => rank_mem hx hr1) ?_ (fun y hy => Nat.zero_le y)
    refine chain_const_append 1 _ _ (fun x hx => rank_mem hx hr2)
      (chain_const 2 _ (fun x hx => rank_mem hx hr3)) (fun y hy => ?_)
    rw [rank_mem hy hr3]
    omega
  · intro c dbs users
    unfold MY.Manage
    rcases h1 : runList MY.CreateDatabase c dbs with ⟨r1, c1, t1⟩
    have hr1 : ∀ s ∈ t1, phaseRank s = 1 := fun s hs =>
      runList_trace_all _ _ my_CreateDatabase_rank dbs c s (by rw [h1]; exact hs)
    simp only [h1]
    rcases r1 with e | u1
    · exact ⟨t1, [], by simp, hr1, by simp⟩
    rcases h2 : runList (fun c user =>
        match MY.CreateUser c user with
        | (.error e, c', t) => (.error e, c', t)
        | (.ok _, c', t) =>
          match MY.GrantPermissions c' user with
          | (r, c'', t') => (r, c'', t ++ t')) c1 users with ⟨r2, c2, t2⟩
    have hr2 : ∀ s ∈ t2, phaseRank s = 0 ∨ phaseRank s = 2 := by
      intro s hs
      refine runList_trace_all (fun s => phaseRank s = 0 ∨ phaseRank s = 2) _
        (fun c u s hs => ?_) users c1 s (by rw [h2]; exact hs)
      rcases hcu : MY.CreateUser c u with ⟨rr, cc, tt⟩
      simp only [hcu] at hs
      rcases rr with e | uu
      · exact Or.inl (my_CreateUser_rank c u s (by rw [hcu]; exact hs))
      · rcases hgp : MY.GrantPermissions cc u with ⟨rg, cg, tg⟩
        simp only [hgp] at hs
        simp at hs
        rcases hs with hs | hs
        · exact Or.inl (my_CreateUser_rank c u s (by rw [hcu]; simpa using hs))
        · exact Or.inr (my_GrantPermissions_rank cc u s (by rw [hgp]; exact hs))
    simp only [h2]
    exact ⟨t1, t2, rfl, hr1, hr2⟩

/-- `addRole` skips (no statement, unchanged catalog) when the user already
has the role; the self-reference guard is subsumed, as `hasRole` is true on a
self reference. -/
theorem pgr_addRole_skip (u r : String) (c : Catalog) (h : PGR.hasRole c u r) :
    PGR.addRole c u r = (.ok (), c, []) := by
  unfold PGR.addRole
  by_cases h0 : u = r
  · rw [if_pos h0]
  · rw [if_neg h0, if_pos h]

/-- `addRole` on a missing membership records the pair and emits the GRANT. -/
theorem pgr_addRole_grant (u r : String) (c : Catalog) (h : ¬ PGR.hasRole c u r) :
    PGR.addRole c u r =
      (.ok (), { c with memberships := (u, r) :: c.memberships }, [.grantRole r u]) := by
  have h0 : u ≠ r := fun he => h (Or.inl he)
  unfold PGR.addRole
  rw [if_neg h0, if_neg h]
  rfl

/-- `removeRole` skips on a self reference. -/
theorem pgr_removeRole_self (u r : String) (c : Catalog) (h : u = r) :
    PGR.removeRole c u r = (.ok (), c, []) := by
  unfold PGR.removeRole
  rw [if_pos h]

/-- `removeRole` skips when the membership is absent. -/
theorem pgr_removeRole_miss (u r : String) (c : Catalog) (h : ¬ PGR.hasRole c u r) :
    PGR.removeRole c u r = (.ok (), c, []) := by
  have h0 : u ≠ r := fun he => h (Or.inl he)
  unfold PGR.removeRole
  rw [if_neg h0, if_neg h]

/-- `removeRole` on a held, non-self membership deletes the pair and emits
the REVOKE. -/
theorem pgr_removeRole_hit (u r : String) (c : Catalog) (h0 : u ≠ r)
    (h : PGR.hasRole c u r) :
    PGR.removeRole c u r =
      (.ok (), { c with memberships :=
        c.memberships.filter (fun p => ¬(p = (u, r))) }, [.revokeRole r u]) := by
  unfold PGR.removeRole
  rw [if_neg h0, if_pos h]
  rfl

/-- `hasRole` reads only the membership rows. -/
theorem pgr_hasRole_congr (c c' : Catalog) (u r : String)
    (h : c'.memberships = c.memberships) :
    PGR.hasRole c' u r ↔ PGR.hasRole c u r := by
  unfold PGR.hasRole
  rw [h]

/-- Adding one membership row extends `hasRole` by exactly that (lower-case)
role. -/
theorem pgr_hasRole_cons (c : Catalog) (u v r r0 : String) (hr : toLowerStr r = r) :
    PGR.hasRole { c with memberships := (v, r0) :: c.memberships } u r ↔
      PGR.hasRole c u r ∨ (u = v ∧ r = r0) := by
  unfold PGR.hasRole
  rw [hr]
  simp [List.mem_cons, Prod.ext_iff]
  tauto

/-- Membership of `getRoles` is membership of a row for the (lower-case)
user. -/
theorem pgr_getRoles_mem (c : Catalog) (u r : String) (hu : toLowerStr u = u) :
    r ∈ PGR.getRoles c u ↔ (u, r) ∈ c.memberships := by
  unfold PGR.getRoles
  rw [hu]
  simp only [List.mem_map, List.mem_filter, beq_iff_eq]
  constructor
  · rintro ⟨⟨a, b⟩, ⟨hm, he⟩, hb⟩
    simp only at he hb
    subst he; subst hb; exact hm
  · intro hm
    exact ⟨(u, r), ⟨hm, rfl⟩, rfl⟩

/-- A well-formed single grant succeeds, leaves the membership rows
untouched and traces only GRANT-privilege statements. -/
theorem grantPermission_shape (c : Catalog) (u : String) (g : Grant)
    (h : g.database ≠ "" ∨ g.parameter ≠ "") :
    (PGR.grantPermission c u g).1 = .ok () ∧
    (PGR.grantPermission c u g).2.1.memberships = c.memberships ∧
    ∀ s ∈ (PGR.grantPermission c u g).2.2, ∃ un gg, s = .grant un gg := by
  unfold PGR.grantPermission
  dsimp only
  split_ifs
  all_goals try (refine ⟨rfl, rfl, ?_⟩; simp; done)
  all_goals try tauto
  all_goals refine ⟨rfl, rfl, ?_⟩
  all_goals intro s hs
  all_goals simp only [exec, List.mem_singleton] at hs
  all_goals subst hs
  all_goals exact ⟨u, g, rfl⟩

/-- The grant loop of `GrantPermissions` on well-formed grants: success,
membership rows untouched, only GRANT-privilege statements traced. -/
theorem grantPhase_spec (u : String) (gs : List Grant) (c : Catalog)
    (h : ∀ g ∈ gs, g.database ≠ "" ∨ g.parameter ≠ "") :
    (runList (fun c g => PGR.grantPermission c u g) c gs).1 = .ok () ∧
    (runList (fun c g => PGR.grantPermission c u g) c gs).2.1.memberships = c.memberships ∧
    ∀ s ∈ (runList (fun c g => PGR.grantPermission c u g) c gs).2.2,
      ∃ un gg, s = .grant un gg := by
  induction gs generalizing c with
  | nil => exact ⟨rfl, rfl, fun s hs => absurd hs (by simp [runList])⟩
  | cons g gs ih =>
    have hg := grantPermission_shape c u g (h g (by simp))
    rcases hr : PGR.grantPermission c u g with ⟨r, c1, t1⟩
    rw [hr] at hg
    have h1 : r = .ok () := hg.1
    have h2 : c1.memberships = c.memberships := hg.2.1
    have h3 : ∀ s ∈ t1, ∃ un gg, s = .grant un gg := hg.2.2
    subst h1
    have hi := ih c1 (fun g hgm => h g (by simp [hgm]))
    rcases hrl : runList (fun c g => PGR.grantPermission c u g) c1 gs with ⟨r2, c2, t2⟩
    rw [hrl] at hi
    have i1 : r2 = .ok () := hi.1
    have i2 : c2.memberships = c1.memberships := hi.2.1
    have i3 : ∀ s ∈ t2, ∃ un gg, s = .grant un gg := hi.2.2
    subst i1
    refine ⟨?_, ?_, ?_⟩
    · simp only [runList, hr, hrl]
    · simp only [runList, hr, hrl]
      rw [i2, h2]
    · simp only [runList, hr, hrl]
      intro s hs
      rcases List.mem_append.mp hs with hs | hs
      · exact h3 s hs
      · exact i3 s hs

/-- The role-addition loop of `GrantPermissions` over lower-case role names:
success; membership rows grow by pairs for the given user and listed roles
only; existing rows are kept; only GRANT-role statements are traced; and a
GRANT-role for `r` is issued exactly when `r` is listed and not already
held. -/
theorem addPhase_spec (u : String) (l : List String) (c : Catalog)
    (hll : ∀ r ∈ l, toLowerStr r = r) :
    (runList (fun c role => PGR.addRole c u role) c l).1 = .ok () ∧
    (∀ p ∈ (runList (fun c role => PGR.addRole c u role) c l).2.1.memberships,
      p ∈ c.memberships ∨ (p.1 = u ∧ p.2 ∈ l)) ∧
    (∀ p ∈ c.memberships,
      p ∈ (runList (fun c role => PGR.addRole c u role) c l).2.1.memberships) ∧
    (∀ s ∈ (runList (fun c role => PGR.addRole c u role) c l).2.2,
      ∃ r, s = .grantRole r u) ∧
    (∀ r, .grantRole r u ∈ (runList (fun c role => PGR.addRole c u role) c l).2.2 ↔
      r ∈ l ∧ ¬ PGR.hasRole c u r) := by
  induction l generalizing c with
  | nil =>
    refine ⟨rfl, fun p hp => Or.inl hp, fun p hp => hp,
      fun s hs => absurd hs (by simp [runList]), fun r => ?_⟩
    simp [runList]
  | cons r0 l ih =>
    have hltail : ∀ r ∈ l, toLowerStr r = r := fun r hr => hll r (by simp [hr])
    by_cases hsk : PGR.hasRole c u r0
    · have hb := pgr_addRole_skip u r0 c hsk
      have hi := ih c hltail
      rcases hrl : runList (fun c role => PGR.addRole c u role) c l with ⟨r2, c2, t2⟩
      rw [hrl] at hi
      have i1 : r2 = .ok () := hi.1
      have i2 : ∀ p ∈ c2.memberships, p ∈ c.memberships ∨ (p.1 = u ∧ p.2 ∈ l) := hi.2.1
      have i3 : ∀ p ∈ c.memberships, p ∈ c2.memberships := hi.2.2.1
      have i4 : ∀ s ∈ t2, ∃ r, s = .grantRole r u := hi.2.2.2.1
      have i5 : ∀ r, .grantRole r u ∈ t2 ↔ r ∈ l ∧ ¬ PGR.hasRole c u r := hi.2.2.2.2
      subst i1
      refine ⟨?_, ?_, ?_, ?_, ?_⟩ <;>
        simp only [runList, hb, hrl, List.nil_append]
      · intro p hp
        exact (i2 p hp).imp id (fun hq => ⟨hq.1, by simp [hq.2]⟩)
      · exact i3
      · exact i4
      · intro r
        rw [i5 r]
        constructor
        · rintro ⟨hl, hn⟩
          exact ⟨by simp [hl], hn⟩
        · rintro ⟨hm, hn⟩
          rcases List.mem_cons.mp hm with he | hl
          · subst he; exact absurd hsk hn
          · exact ⟨hl, hn⟩
    · have hb := pgr_addRole_grant u r0 c hsk
      have hi := ih { c with memberships := (u, r0) :: c.memberships } hltail
      rcases hrl : runList (fun c role => PGR.addRole c u role)
          { c with memberships := (u, r0) :: c.memberships } l with ⟨r2, c2, t2⟩
      rw [hrl] at hi
      have i1 : r2 = .ok () := hi.1
      have i2 : ∀ p ∈ c2.memberships,
          p ∈ (u, r0) :: c.memberships ∨ (p.1 = u ∧ p.2 ∈ l) := hi.2.1
      have i3 : ∀ p ∈ (u, r0) :: c.memberships, p ∈ c2.memberships := hi.2.2.1
      have i4 : ∀ s ∈ t2, ∃ r, s = .grantRole r u := hi.2.2.2.1
      have i5 : ∀ r, .grantRole r u ∈ t2 ↔
          r ∈ l ∧ ¬ PGR.hasRole { c with memberships := (u, r0) :: c.memberships } u r :=
        hi.2.2.2.2
      subst i1
      refine ⟨?_, ?_, ?_, ?_, ?_⟩ <;>
        simp only [runList, hb, hrl, List.cons_append, List.nil_append]
      · intro p hp
        rcases i2 p hp with hc | hq
        · rcases List.mem_cons.mp hc with he | hc
          · subst he; exact Or.inr ⟨rfl, by simp⟩
          · exact Or.inl hc
        · exact Or.inr ⟨hq.1, by simp [hq.2]⟩
      · intro p hp
        exact i3 p (by simp [hp])
      · intro s hs
        rcases List.mem_cons.mp hs with he | hs
        · exact ⟨r0, he⟩
        · exact i4 s hs
      · intro r
        constructor
        · intro hmem
          rcases List.mem_cons.mp hmem with he | ht
          · obtain ⟨he1, he2⟩ : r = r0 ∧ u = u := by
              injection he with a b
              exact ⟨a, b⟩
            subst he1
            exact ⟨by simp, hsk⟩
          · obtain ⟨hl, hn⟩ := (i5 r).mp ht
            refine ⟨by simp [hl], fun hc => hn ?_⟩
            exact (pgr_hasRole_cons c u u r r0 (hltail r hl)).mpr (Or.inl hc)
        · rintro ⟨hm, hn⟩
          rcases List.mem_cons.mp hm with he | hl
          · subst he
            exact List.mem_cons.mpr (Or.inl rfl)
          · by_cases hr0 : r = r0
            · subst hr0
              exact List.mem_cons.mpr (Or.inl rfl)
            · refine List.mem_cons.mpr (Or.inr ((i5 r).mpr ⟨hl, fun hc => ?_⟩))
              rcases (pgr_hasRole_cons c u u r r0 (hltail r hl)).mp hc with hc | hc
              · exact hn hc
              · exact hr0 hc.2

/-- The role-removal loop of `GrantPermissions` over lower-case live role
names: success; only REVOKE-role statements are traced; and a REVOKE for
`r` is issued exactly when `r` is listed, not declared, not a self
reference, and a live membership row. -/
theorem removePhase_spec (u : String) (R : List String) (l : List String) (c : Catalog)
    (hll : ∀ r ∈ l, toLowerStr r = r) :
    (runList (fun c role =>
        if role ∈ R then (.ok (), c, []) else PGR.removeRole c u role) c l).1 = .ok () ∧
    (∀ s ∈ (runList (fun c role =>
        if role ∈ R then (.ok (), c, []) else PGR.removeRole c u role) c l).2.2,
      ∃ r, s = .revokeRole r u) ∧
    (∀ r, .revokeRole r u ∈ (runList (fun c role =>
        if role ∈ R then (.ok (), c, []) else PGR.removeRole c u role) c l).2.2 ↔
      r ∈ l ∧ r ∉ R ∧ r ≠ u ∧ (u, r) ∈ c.memberships) := by
  induction l generalizing c with
  | nil =>
    refine ⟨rfl, fun s hs => absurd hs (by simp [runList]), fun r => ?_⟩
    simp [runList]
  | cons r0 l ih =>
    have hltail : ∀ r ∈ l, toLowerStr r = r := fun r hr => hll r (by simp [hr])
    have hl0 : toLowerStr r0 = r0 := hll r0 (by simp)
    by_cases hR : r0 ∈ R
    · have hstep : (if r0 ∈ R then ((.ok (), c, []) : Res)
          else PGR.removeRole c u r0) = (.ok (), c, []) := by simp [hR]
      have hi := ih c hltail
      rcases hrl : runList (fun c role =>
          if role ∈ R then (.ok (), c, []) else PGR.removeRole c u role) c l
        with ⟨r2, c2, t2⟩
      rw [hrl] at hi
      have i1 : r2 = .ok () := hi.1
      have i2 : ∀ s ∈ t2, ∃ r, s = .revokeRole r u := hi.2.1
      have i3 : ∀ r, .revokeRole r u ∈ t2 ↔
          r ∈ l ∧ r ∉ R ∧ r ≠ u ∧ (u, r) ∈ c.memberships := hi.2.2
      subst i1
      refine ⟨?_, ?_, ?_⟩ <;>
        simp only [runList, hstep, hrl, List.nil_append]
      · exact i2
      · intro r
        rw [i3 r]
        constructor
        · rintro ⟨hl, hnR, hnu, hm⟩
          exact ⟨by simp [hl], hnR, hnu, hm⟩
        · rintro ⟨hm, hnR, hnu, hmm⟩
          rcases List.mem_cons.mp hm with he | hl
          · subst he; exact absurd hR hnR
          · exact ⟨hl, hnR, hnu, hmm⟩
    · by_cases hru : u = r0
      · have hstep : (if r0 ∈ R then ((.ok (), c, []) : Res)
            else PGR.removeRole c u r0) = (.ok (), c, []) := by
          rw [if_neg hR]
          exact pgr_removeRole_self u r0 c hru
        have hi := ih c hltail
        rcases hrl : runList (fun c role =>
            if role ∈ R then (.ok (), c, []) else PGR.removeRole c u role) c l
          with ⟨r2, c2, t2⟩
        rw [hrl] at hi
        have i1 : r2 = .ok () := hi.1
        have i2 : ∀ s ∈ t2, ∃ r, s = .revokeRole r u := hi.2.1
        have i3 : ∀ r, .revokeRole r u ∈ t2 ↔
            r ∈ l ∧ r ∉ R ∧ r ≠ u ∧ (u, r) ∈ c.memberships := hi.2.2
        subst i1
        refine ⟨?_, ?_, ?_⟩ <;>
          simp only [runList, hstep, hrl, List.nil_append]
        · exact i2
        · intro r
          rw [i3 r]
          constructor
          · rintro ⟨hl, hnR, hnu, hm⟩
            exact ⟨by simp [hl], hnR, hnu, hm⟩
          · rintro ⟨hm, hnR, hnu, hmm⟩
            rcases List.mem_cons.mp hm with he | hl
            · subst he; exact absurd hru.symm hnu
            · exact ⟨hl, hnR, hnu, hmm⟩
      · by_cases hmem : (u, r0) ∈ c.memberships
        · have hhr : PGR.hasRole c u r0 := Or.inr (by rw [hl0]; exact hmem)
          have hstep : (if r0 ∈ R then ((.ok (), c, []) : Res)
              else PGR.removeRole c u r0) =
              (.ok (), { c with memberships :=
                c.memberships.filter (fun p => ¬(p = (u, r0))) }, [.revokeRole r0 u]) := by
            rw [if_neg hR]
            exact pgr_removeRole_hit u r0 c hru hhr
          have hi := ih { c with memberships :=
              c.memberships.filter (fun p => ¬(p = (u, r0))) } hltail
          rcases hrl : runList (fun c role =>
              if role ∈ R then (.ok (), c, []) else PGR.removeRole c u role)
              { c with memberships :=
                c.memberships.filter (fun p => ¬(p = (u, r0))) } l
            with ⟨r2, c2, t2⟩
          rw [hrl] at hi
          have i1 : r2 = .ok () := hi.1
          have i2 : ∀ s ∈ t2, ∃ r, s = .revokeRole r u := hi.2.1
          have i3 : ∀ r, .revokeRole r u ∈ t2 ↔
              r ∈ l ∧ r ∉ R ∧ r ≠ u ∧
              (u, r) ∈ c.memberships.filter (fun p => ¬(p = (u, r0))) := hi.2.2
          have hfil : ∀ r, (u, r) ∈ c.memberships.filter (fun p => ¬(p = (u, r0))) ↔
              (u, r) ∈ c.memberships ∧ r ≠ r0 := by
            intro r
            simp [List.mem_filter, Prod.ext_iff]
          subst i1
          refine ⟨?_, ?_, ?_⟩ <;>
            simp only [runList, hstep, hrl, List.cons_append, List.nil_append]
          · intro s hs
            rcases List.mem_cons.mp hs with he | hs
            · exact ⟨r0, he⟩
            · exact i2 s hs
          · intro r
            constructor
            · intro hmm
              rcases List.mem_cons.mp hmm with he | ht
              · obtain ⟨he1, he2⟩ : r = r0 ∧ u = u := by
                  injection he with a b
                  exact ⟨a, b⟩
                subst he1
                exact ⟨by simp, hR, fun he => hru he.symm, hmem⟩
              · obtain ⟨hl, hnR, hnu, hc⟩ := (i3 r).mp ht
                exact ⟨by simp [hl], hnR, hnu, ((hfil r).mp hc).1⟩
            · rintro ⟨hm, hnR, hnu, hcm⟩
              rcases List.mem_cons.mp hm with he | hl
              · subst he
                exact List.mem_cons.mpr (Or.inl rfl)
              · by_cases hr0 : r = r0
                · subst hr0
                  exact List.mem_cons.mpr (Or.inl rfl)
                · exact List.mem_cons.mpr (Or.inr ((i3 r).mpr
                    ⟨hl, hnR, hnu, (hfil r).mpr ⟨hcm, hr0⟩⟩))
        · have hnhr : ¬ PGR.hasRole c u r0 := by
            rintro (he | hm)
            · exact hru he
            · rw [hl0] at hm
              exact hmem hm
          have hstep : (if r0 ∈ R then ((.ok (), c, []) : Res)
              else PGR.removeRole c u r0) = (.ok (), c, []) := by
            rw [if_neg hR]
            exact pgr_removeRole_miss u r0 c hnhr
          have hi := ih c hltail
          rcases hrl : runList (fun c role =>
              if role ∈ R then (.ok (), c, []) else PGR.removeRole c u role) c l
            with ⟨r2, c2, t2⟩
          rw [hrl] at hi
          have i1 : r2 = .ok () := hi.1
          have i2 : ∀ s ∈ t2, ∃ r, s = .revokeRole r u := hi.2.1
          have i3 : ∀ r, .revokeRole r u ∈ t2 ↔
              r ∈ l ∧ r ∉ R ∧ r ≠ u ∧ (u, r) ∈ c.memberships := hi.2.2
          subst i1
          refine ⟨?_, ?_, ?_⟩ <;>
            simp only [runList, hstep, hrl, List.nil_append]
          · exact i2
          · intro r
            rw [i3 r]
            constructor
            · rintro ⟨hl, hnR, hnu, hm⟩
              exact ⟨by simp [hl], hnR, hnu, hm⟩
            · rintro ⟨hm, hnR, hnu, hmm⟩
              rcases List.mem_cons.mp hm with he | hl
              · subst he; exact absurd hmm hmem
              · exact ⟨hl, hnR, hnu, hmm⟩

/-- Claim C2: for a user whose declared role list is `R` and whose live
direct memberships are `L`, `GrantPermissions` issues a GRANT role-to-user
exactly for the declared roles not already held and a REVOKE
role-from-user exactly for the live memberships outside the declared set.
Stated for an existing user with lower-case role names (the code
lower-cases only its catalog queries, not the DDL), no self-membership
row, and well-formed grants (each grant names a database or a parameter,
so the grant loop cannot abort before the membership phases). -/
theorem c2_membership_set_diff (c : Catalog) (u : User)
    (hx : PGR.userExists c u.name)
    (hlu : toLowerStr u.name = u.name)
    (hlr : ∀ r ∈ u.roles, toLowerStr r = r)
    (hlm : ∀ p ∈ c.memberships, toLowerStr p.2 = p.2)
    (hself : (u.name, u.name) ∉ c.memberships)
    (hg : ∀ g ∈ u.grants, g.database ≠ "" ∨ g.parameter ≠ "") :
    (PGR.GrantPermissions c u).1 = .ok () ∧
    (∀ r, .grantRole r u.name ∈ (PGR.GrantPermissions c u).2.2 ↔
      r ∈ u.roles ∧ ¬ PGR.hasRole c u.name r) ∧
    (∀ r, .revokeRole r u.name ∈ (PGR.GrantPermissions c u).2.2 ↔
      (u.name, r) ∈ c.memberships ∧ r ∉ u.roles) := by
  have h1 := grantPhase_spec u.name u.grants c hg
  rcases hr1 : runList (fun c g => PGR.grantPermission c u.name g) c u.grants
    with ⟨r1, c1, t1⟩
  rw [hr1] at h1
  have p1ok : r1 = .ok () := h1.1
  have p1mem : c1.memberships = c.memberships := h1.2.1
  have p1shape : ∀ s ∈ t1, ∃ un gg, s = .grant un gg := h1.2.2
  subst p1ok
  have h2 := addPhase_spec u.name u.roles c1 hlr
  rcases hr2 : runList (fun c role => PGR.addRole c u.name role) c1 u.roles
    with ⟨r2, c2, t2⟩
  rw [hr2] at h2
  have p2ok : r2 = .ok () := h2.1
  have p2ub : ∀ p ∈ c2.memberships,
      p ∈ c1.memberships ∨ (p.1 = u.name ∧ p.2 ∈ u.roles) := h2.2.1
  have p2lb : ∀ p ∈ c1.memberships, p ∈ c2.memberships := h2.2.2.1
  have p2shape : ∀ s ∈ t2, ∃ r, s = .grantRole r u.name := h2.2.2.2.1
  have p2iff : ∀ r, .grantRole r u.name ∈ t2 ↔
      r ∈ u.roles ∧ ¬ PGR.hasRole c1 u.name r := h2.2.2.2.2
  subst p2ok
  have hll3 : ∀ r ∈ PGR.getRoles c2 u.name, toLowerStr r = r := by
    intro r hr
    have hm2 : (u.name, r) ∈ c2.memberships := (pgr_getRoles_mem c2 u.name r hlu).mp hr
    rcases p2ub _ hm2 with hm1 | hm1
    · rw [p1mem] at hm1
      exact hlm (u.name, r) hm1
    · exact hlr r hm1.2
  have h3 := removePhase_spec u.name u.roles (PGR.getRoles c2 u.name) c2 hll3
  rcases hr3 : runList (fun c role =>
      if role ∈ u.roles then (.ok (), c, []) else PGR.removeRole c u.name role)
    c2 (PGR.getRoles c2 u.name) with ⟨r3, c3, t3⟩
  rw [hr3] at h3
  have p3ok : r3 = .ok () := h3.1
  have p3shape : ∀ s ∈ t3, ∃ r, s = .revokeRole r u.name := h3.2.1
  have p3iff : ∀ r, .revokeRole r u.name ∈ t3 ↔
      r ∈ PGR.getRoles c2 u.name ∧ r ∉ u.roles ∧ r ≠ u.name ∧
      (u.name, r) ∈ c2.memberships := h3.2.2
  subst p3ok
  have htr : (PGR.GrantPermissions c u).2.2 = t1 ++ t2 ++ t3 ∧
      (PGR.GrantPermissions c u).1 = .ok () := by
    unfold PGR.GrantPermissions
    rw [if_pos hx]
    simp only [hr1, hr2, hr3]
    exact ⟨trivial, trivial⟩
  obtain ⟨htr2, htrok⟩ := htr
  refine ⟨htrok, ?_, ?_⟩
  · intro r
    rw [htr2]
    constructor
    · intro hmem
      rcases List.mem_append.mp hmem with hmem | hmem
      · rcases List.mem_append.mp hmem with hmem | hmem
        · obtain ⟨un, gg, he⟩ := p1shape _ hmem
          exact Stmt.noConfusion he
        · have hp := (p2iff r).mp hmem
          exact ⟨hp.1, fun hc => hp.2
            ((pgr_hasRole_congr c c1 u.name r p1mem).mpr hc)⟩
      · obtain ⟨rr, he⟩ := p3shape _ hmem
        exact Stmt.noConfusion he
    · rintro ⟨hfl, hnh⟩
      refine List.mem_append.mpr (Or.inl (List.mem_append.mpr (Or.inr ?_)))
      exact (p2iff r).mpr ⟨hfl, fun hc =>
        hnh ((pgr_hasRole_congr c c1 u.name r p1mem).mp hc)⟩
  · intro r
    rw [htr2]
    constructor
    · intro hmem
      rcases List.mem_append.mp hmem with hmem | hmem
      · rcases List.mem_append.mp hmem with hmem | hmem
        · obtain ⟨un, gg, he⟩ := p1shape _ hmem
          exact Stmt.noConfusion he
        · obtain ⟨rr, he⟩ := p2shape _ hmem
          exact Stmt.noConfusion he
      · obtain ⟨hgl, hnR, hnu, hm2⟩ := (p3iff r).mp hmem
        rcases p2ub _ hm2 with hm1 | hm1
        · rw [p1mem] at hm1
          exact ⟨hm1, hnR⟩
        · exact absurd hm1.2 hnR
    · rintro ⟨hm, hnR⟩
      have hne : r ≠ u.name := by
        intro he
        subst he
        exact hself hm
      have hm1 : (u.name, r) ∈ c1.memberships := by
        rw [p1mem]
        exact hm
      have hm2 : (u.name, r) ∈ c2.memberships := p2lb _ hm1
      refine List.mem_append.mpr (Or.inr ((p3iff r).mpr ⟨?_, hnR, hne, hm2⟩))
      exact (pgr_getRoles_mem c2 u.name r hlu).mpr hm2

/-- Witness for C2: live memberships {a, b} and declared roles [a] — the
run succeeds, membership in b is revoked, and no GRANT or REVOKE touching a
is issued. -/
theorem c2_membership_set_diff_witness :
    (PGR.GrantPermissions
        ⟨"admin", [("u", freshOptions true)], [("u", "a"), ("u", "b")], [], []⟩
        ⟨"u", "", freshOptions false, [], ["a"]⟩).1 = .ok () ∧
    .revokeRole "b" "u" ∈ (PGR.GrantPermissions
        ⟨"admin", [("u", freshOptions true)], [("u", "a"), ("u", "b")], [], []⟩
        ⟨"u", "", freshOptions false, [], ["a"]⟩).2.2 ∧
    .grantRole "a" "u" ∉ (PGR.GrantPermissions
        ⟨"admin", [("u", freshOptions true)], [("u", "a"), ("u", "b")], [], []⟩
        ⟨"u", "", freshOptions false, [], ["a"]⟩).2.2 ∧
    .revokeRole "a" "u" ∉ (PGR.GrantPermissions
        ⟨"admin", [("u", freshOptions true)], [("u", "a"), ("u", "b")], [], []⟩
        ⟨"u", "", freshOptions false, [], ["a"]⟩).2.2 := by
  have h := c2_membership_set_diff
    ⟨"admin", [("u", freshOptions true)], [("u", "a"), ("u", "b")], [], []⟩
    ⟨"u", "", freshOptions false, [], ["a"]⟩
    (by decide) (by decide) (by decide) (by decide) (by decide) (by decide)
  refine ⟨h.1, (h.2.2 "b").mpr ⟨by decide, by decide⟩, ?_, ?_⟩
  · intro hmem
    exact ((h.2.1 "a").mp hmem).2 (by decide)
  · intro hmem
    exact ((h.2.2 "a").mp hmem).2 (by decide)

/-- `getUser` reads only the user rows. -/
theorem getUser_congr (c c' : Catalog) (n : String) (h : c'.users = c.users) :
    c'.getUser n = c.getUser n := by
  unfold Catalog.getUser
  rw [h]

/-- `userExists` reads only the user rows. -/
theorem userExists_congr (c c' : Catalog) (n : String) (h : c'.users = c.users) :
    c'.userExists n ↔ c.userExists n := by
  unfold Catalog.userExists
  rw [h]

/-- `getDatabaseOwner` reads only the database rows. -/
theorem getOwner_congr (c c' : Catalog) (n : String) (h : c'.databases = c.databases) :
    c'.getDatabaseOwner n = c.getDatabaseOwner n := by
  unfold Catalog.getDatabaseOwner
  rw [h]

/-- `databaseExists` reads only the database rows. -/
theorem databaseExists_congr (c c' : Catalog) (n : String) (h : c'.databases = c.databases) :
    c'.databaseExists n ↔ c.databaseExists n := by
  unfold Catalog.databaseExists
  rw [h]

/-- A found options row witnesses existence. -/
theorem getUser_ok_userExists (c : Catalog) (n : String) (o : UserOptions)
    (h : c.getUser n = .ok o) : c.userExists n := by
  unfold Catalog.getUser at h
  rcases hf : c.users.find? (fun u => u.1 = n) with _ | u
  · rw [hf] at h
    exact absurd h (by simp)
  · have hm := List.mem_of_find?_eq_some hf
    have hu1 : u.1 = n := by simpa using List.find?_some hf
    unfold Catalog.userExists
    exact List.mem_map.mpr ⟨u, hm, hu1⟩

/-- An existing role has an options row. -/
theorem userExists_getUser (c : Catalog) (n : String) (h : c.userExists n) :
    ∃ o, c.getUser n = .ok o := by
  unfold Catalog.userExists at h
  obtain ⟨u, hm, hu1⟩ := List.mem_map.mp h
  unfold Catalog.getUser
  rcases hf : c.users.find? (fun u => u.1 = n) with _ | v
  · have := List.find?_eq_none.mp hf u hm
    simp [hu1] at this
  · exact ⟨v.2, by rw [hf]⟩

/-- An existing database has an owner row. -/
theorem databaseExists_getOwner (c : Catalog) (n : String) (h : c.databaseExists n) :
    ∃ o, c.getDatabaseOwner n = .ok o := by
  unfold Catalog.databaseExists at h
  obtain ⟨d, hm, hd1⟩ := List.mem_map.mp h
  unfold Catalog.getDatabaseOwner
  rcases hf : c.databases.find? (fun d => d.1 = n) with _ | v
  · have := List.find?_eq_none.mp hf d hm
    simp [hd1] at this
  · exact ⟨v.2, by rw [hf]⟩

/-- An owner row witnesses database existence. -/
theorem getOwner_ok_databaseExists (c : Catalog) (n : String) (o : String)
    (h : c.getDatabaseOwner n = .ok o) : c.databaseExists n := by
  unfold Catalog.getDatabaseOwner at h
  rcases hf : c.databases.find? (fun d => d.1 = n) with _ | d
  · rw [hf] at h
    exact absurd h (by simp)
  · have hm := List.mem_of_find?_eq_some hf
    have hd1 : d.1 = n := by simpa using List.find?_some hf
    unfold Catalog.databaseExists
    exact List.mem_map.mpr ⟨d, hm, hd1⟩

/-- An ALTER USER with no clauses leaves the modelled catalog unchanged. -/
theorem applyStmt_alterUser_nil (c : Catalog) (name : String) :
    c.applyStmt (.alterUser name []) = c := by
  show { c with users := c.users.map (fun u =>
      if u.1 = name then (u.1, applyClauses u.2 []) else u) } = c
  have hf : (fun (u : String × UserOptions) =>
      if u.1 = name then (u.1, applyClauses u.2 []) else u) = id := by
    funext u
    by_cases h : u.1 = name
    · rw [if_pos h]
      exact Prod.mk.eta
    · rw [if_neg h]
      rfl
  rw [hf, List.map_id]

/-- After ALTER USER, the altered role's options row is the old row with the
clauses applied. -/
theorem getUser_alter_eq (c : Catalog) (name : String) (clauses : List String)
    (o : UserOptions) (h : c.getUser name = .ok o) :
    (c.applyStmt (.alterUser name clauses)).getUser name =
      .ok (applyClauses o clauses) := by
  unfold Catalog.getUser at h ⊢
  show (match (c.users.map (fun u =>
        if u.1 = name then (u.1, applyClauses u.2 clauses) else u)).find?
      (fun u => decide (u.1 = name)) with
    | some u => Except.ok u.2
    | none => Except.error Err.noRows) = .ok (applyClauses o clauses)
  rw [List.find?_map]
  have hpf : ((fun (u : String × UserOptions) => decide (u.1 = name)) ∘
      (fun u => if u.1 = name then (u.1, applyClauses u.2 clauses) else u)) =
      (fun u => decide (u.1 = name)) := by
    funext u
    by_cases hh : u.1 = name <;> simp [Function.comp, hh]
  rw [hpf]
  rcases hf : c.users.find? (fun u => decide (u.1 = name)) with _ | u
  · rw [hf] at h
    simp at h
  · rw [hf] at h
    have hu1 : u.1 = name := by simpa using List.find?_some hf
    have hu2 : u.2 = o := by
      simp only at h
      injection h
    rw [hf]
    simp [hu1, hu2]

/-- ALTER USER leaves every other role's options row unchanged. -/
theorem getUser_alter_ne (c : Catalog) (name n : String) (clauses : List String)
    (h : n ≠ name) :
    (c.applyStmt (.alterUser name clauses)).getUser n = c.getUser n := by
  unfold Catalog.getUser
  show (match (c.users.map (fun u =>
        if u.1 = name then (u.1, applyClauses u.2 clauses) else u)).find?
      (fun u => decide (u.1 = n)) with
    | some u => Except.ok u.2
    | none => Except.error Err.noRows) = _
  rw [List.find?_map]
  have hpf : ((fun (u : String × UserOptions) => decide (u.1 = n)) ∘
      (fun u => if u.1 = name then (u.1, applyClauses u.2 clauses) else u)) =
      (fun u => decide (u.1 = n)) := by
    funext u
    by_cases hh : u.1 = name <;> simp [Function.comp, hh]
  rw [hpf]
  rcases hf : c.users.find? (fun u => decide (u.1 = n)) with _ | u
  · rw [hf]
    rfl
  · have hu1 : u.1 = n := by simpa using List.find?_some hf
    have hne : ¬(u.1 = name) := by rw [hu1]; exact h
    rw [hf]
    simp [hne]

/-- ALTER USER does not change which roles exist. -/
theorem userExists_alter (c : Catalog) (name n : String) (clauses : List String) :
    (c.applyStmt (.alterUser name clauses)).userExists n ↔ c.userExists n := by
  unfold Catalog.userExists
  show n ∈ ((c.users.map (fun u =>
      if u.1 = name then (u.1, applyClauses u.2 clauses) else u)).map Prod.fst) ↔ _
  rw [List.map_map]
  have hpf : (Prod.fst ∘ (fun (u : String × UserOptions) =>
      if u.1 = name then (u.1, applyClauses u.2 clauses) else u)) = Prod.fst := by
    funext u
    by_cases hh : u.1 = name <;> simp [Function.comp, hh]
  rw [hpf]

/-- After CREATE USER, the new role's options row is the fresh options with
the clauses applied. -/
theorem getUser_create_eq (c : Catalog) (name : String) (isU : Bool)
    (pw : String) (clauses : List String) :
    (c.applyStmt (.createUser name isU pw clauses)).getUser name =
      .ok (applyClauses (freshOptions isU) clauses) := by
  unfold Catalog.getUser
  show (match ((name, applyClauses (freshOptions isU) clauses) :: c.users).find?
      (fun u => decide (u.1 = name)) with
    | some u => Except.ok u.2
    | none => Except.error Err.noRows) = _
  rw [List.find?_cons_of_pos _ (by simp)]

/-- CREATE USER leaves every other role's options row unchanged. -/
theorem getUser_create_ne (c : Catalog) (name n : String) (isU : Bool)
    (pw : String) (clauses : List String) (h : n ≠ name) :
    (c.applyStmt (.createUser name isU pw clauses)).getUser n = c.getUser n := by
  unfold Catalog.getUser
  show (match ((name, applyClauses (freshOptions isU) clauses) :: c.users).find?
      (fun u => decide (u.1 = n)) with
    | some u => Except.ok u.2
    | none => Except.error Err.noRows) = _
  rw [List.find?_cons_of_neg _ (by simp [Ne.symm h])]

/-- CREATE USER adds exactly the new role name. -/
theorem userExists_create (c : Catalog) (name n : String) (isU : Bool)
    (pw : String) (clauses : List String) :
    (c.applyStmt (.createUser name isU pw clauses)).userExists n ↔
      n = name ∨ c.userExists n := by
  unfold Catalog.userExists
  show n ∈ ((name, applyClauses (freshOptions isU) clauses) :: c.users).map Prod.fst ↔ _
  simp

/-- After CREATE DATABASE, the new database's owner row holds the declared
owner, or the admin role when none was declared. -/
theorem getOwner_create_eq (c : Catalog) (name owner : String) :
    (c.applyStmt (.createDatabase name owner)).getDatabaseOwner name =
      .ok (if owner = "" then c.admin else owner) := by
  unfold Catalog.getDatabaseOwner
  show (match ((name, if owner = "" then c.admin else owner) :: c.databases).find?
      (fun d => decide (d.1 = name)) with
    | some d => Except.ok d.2
    | none => Except.error Err.noRows) = _
  rw [List.find?_cons_of_pos _ (by simp)]

/-- CREATE DATABASE leaves every other database's owner row unchanged. -/
theorem getOwner_create_ne (c : Catalog) (name owner n : String) (h : n ≠ name) :
    (c.applyStmt (.createDatabase name owner)).getDatabaseOwner n =
      c.getDatabaseOwner n := by
  unfold Catalog.getDatabaseOwner
  show (match ((name, if owner = "" then c.admin else owner) :: c.databases).find?
      (fun d => decide (d.1 = n)) with
    | some d => Except.ok d.2
    | none => Except.error Err.noRows) = _
  rw [List.find?_cons_of_neg _ (by simp [Ne.symm h])]

/-- CREATE DATABASE adds exactly the new database name. -/
theorem databaseExists_create (c : Catalog) (name owner n : String) :
    (c.applyStmt (.createDatabase name owner)).databaseExists n ↔
      n = name ∨ c.databaseExists n := by
  unfold Catalog.databaseExists
  show n ∈ ((name, if owner = "" then c.admin else owner) :: c.databases).map Prod.fst ↔ _
  simp

/-- After ALTER DATABASE OWNER, an existing database's owner row holds the
new owner. -/
theorem getOwner_alter_eq (c : Catalog) (name owner : String) (x : String)
    (h : c.getDatabaseOwner name = .ok x) :
    (c.applyStmt (.alterDatabaseOwner name owner)).getDatabaseOwner name =
      .ok owner := by
  unfold Catalog.getDatabaseOwner at h ⊢
  show (match (c.databases.map (fun d =>
        if d.1 = name then (d.1, owner) else d)).find?
      (fun d => decide (d.1 = name)) with
    | some d => Except.ok d.2
    | none => Except.error Err.noRows) = _
  rw [List.find?_map]
  have hpf : ((fun (d : String × String) => decide (d.1 = name)) ∘
      (fun d => if d.1 = name then (d.1, owner) else d)) =
      (fun d => decide (d.1 = name)) := by
    funext d
    by_cases hh : d.1 = name <;> simp [Function.comp, hh]
  rw [hpf]
  rcases hf : c.databases.find? (fun d => decide (d.1 = name)) with _ | d
  · rw [hf] at h
    simp at h
  · have hd1 : d.1 = name := by simpa using List.find?_some hf
    rw [hf]
    simp [hd1]

/-- ALTER DATABASE OWNER leaves every other database's owner row unchanged. -/
theorem getOwner_alter_ne (c : Catalog) (name owner n : String) (h : n ≠ name) :
    (c.applyStmt (.alterDatabaseOwner name owner)).getDatabaseOwner n =
      c.getDatabaseOwner n := by
  unfold Catalog.getDatabaseOwner
  show (match (c.databases.map (fun d =>
        if d.1 = name then (d.1, owner) else d)).find?
      (fun d => decide (d.1 = n)) with
    | some d => Except.ok d.2
    | none => Except.error Err.noRows) = _
  rw [List.find?_map]
  have hpf : ((fun (d : String × String) => decide (d.1 = n)) ∘
      (fun d => if d.1 = name then (d.1, owner) else d)) =
      (fun d => decide (d.1 = n)) := by
    funext d
    by_cases hh : d.1 = name <;> simp [Function.comp, hh]
  rw [hpf]
  rcases hf : c.databases.find? (fun d => decide (d.1 = n)) with _ | d
  · rw [hf]
    rfl
  · have hd1 : d.1 = n := by simpa using List.find?_some hf
    have hne : ¬(d.1 = name) := by rw [hd1]; exact h
    rw [hf]
    simp [hne]

/-- ALTER DATABASE OWNER does not change which databases exist. -/
theorem databaseExists_alter (c : Catalog) (name owner n : String) :
    (c.applyStmt (.alterDatabaseOwner name owner)).databaseExists n ↔
      c.databaseExists n := by
  unfold Catalog.databaseExists
  show n ∈ ((c.databases.map (fun d =>
      if d.1 = name then (d.1, owner) else d)).map Prod.fst) ↔ _
  rw [List.map_map]
  have hpf : (Prod.fst ∘ (fun (d : String × String) =>
      if d.1 = name then (d.1, owner) else d)) = Prod.fst := by
    funext d
    by_cases hh : d.1 = name <;> simp [Function.comp, hh]
  rw [hpf]

/-- First-run behaviour of the postgres `CreateUser` step: it succeeds and
leaves the processed user's options row equal to the declared options,
touching no other user row and no database or privilege state.  The
password hypothesis rules out the USER/ROLE form disagreeing with the
declared login option; the inherit hypothesis rules out a declared
`inherit = false`, which the create path cannot realise because
`createUser` emits no NOINHERIT clause against the server's INHERIT-on
default. -/
theorem pg_CreateUser_step (c : Catalog) (u : User)
    (hpw : u.password ≠ "" → u.options.login = true)
    (hin : u.options.inherit = true) :
    (PG.CreateUser c u).1 = .ok () ∧
    (PG.CreateUser c u).2.1.getUser u.name = .ok u.options ∧
    (∀ n, n ≠ u.name → (PG.CreateUser c u).2.1.getUser n = c.getUser n) ∧
    (∀ n, c.userExists n → (PG.CreateUser c u).2.1.userExists n) ∧
    (PG.CreateUser c u).2.1.databases = c.databases ∧
    (PG.CreateUser c u).2.1.privs = c.privs ∧
    (PG.CreateUser c u).2.1.admin = c.admin := by
  by_cases hex : c.userExists u.name
  · obtain ⟨live, hlive⟩ := userExists_getUser c u.name hex
    have hupd : PG.updateUser c u = (.ok (),
        c.applyStmt (.alterUser u.name (PG.updateUserClauses u.options live)),
        [.alterUser u.name (PG.updateUserClauses u.options live)]) := by
      unfold PG.updateUser
      rw [hlive]
      rfl
    have hCU : (PG.CreateUser c u).2.1 =
        c.applyStmt (.alterUser u.name (PG.updateUserClauses u.options live)) ∧
        (PG.CreateUser c u).1 = .ok () := by
      unfold PG.CreateUser
      rw [if_pos hex, hupd]
      by_cases hp : u.password ≠ "" <;>
        simp [hp, PG.setPassword, exec, Catalog.applyStmt]
    obtain ⟨hc, hr⟩ := hCU
    refine ⟨hr, ?_, ?_, ?_, ?_, ?_, ?_⟩ <;> rw [hc]
    · rw [getUser_alter_eq c u.name _ live hlive, applyClauses_update]
    · intro n hn
      exact getUser_alter_ne c u.name n _ hn
    · intro n hn
      exact (userExists_alter c u.name n _).mpr hn
    · rfl
    · rfl
    · rfl
  · have hcr : PG.createUser c u = (.ok (),
        c.applyStmt (.createUser u.name (PG.isUserForm u) u.password
          (PG.createUserClauses u.options)),
        [.createUser u.name (PG.isUserForm u) u.password
          (PG.createUserClauses u.options)]) := by
      unfold PG.createUser
      rfl
    have hCU : (PG.CreateUser c u).2.1 =
        c.applyStmt (.createUser u.name (PG.isUserForm u) u.password
          (PG.createUserClauses u.options)) ∧
        (PG.CreateUser c u).1 = .ok () := by
      unfold PG.CreateUser
      rw [if_neg hex, hcr]
      by_cases hp : u.password ≠ "" <;>
        simp [hp, PG.setPassword, exec, Catalog.applyStmt]
    obtain ⟨hc, hr⟩ := hCU
    refine ⟨hr, ?_, ?_, ?_, ?_, ?_, ?_⟩ <;> rw [hc]
    · rw [getUser_create_eq, isUserForm_eq_login u hpw,
        applyClauses_create u.options hin]
    · intro n hn
      exact getUser_create_ne c u.name n _ _ _ hn
    · intro n hn
      exact (userExists_create c u.name n _ _ _).mpr (Or.inr hn)
    · rfl
    · rfl
    · rfl

/-- Second-run behaviour of the postgres `CreateUser` step: when the live
options row already equals the declared options, the step re-executes a
clause-free ALTER USER (plus the password set for a non-empty declared
password) and leaves the catalog unchanged. -/
theorem pg_CreateUser_rerun (c : Catalog) (u : User)
    (h : c.getUser u.name = .ok u.options) :
    PG.CreateUser c u = (.ok (), c,
      if u.password ≠ "" then [.alterUser u.name [], .setPassword u.name u.password]
      else [.alterUser u.name []]) := by
  have hex : c.userExists u.name := getUser_ok_userExists c u.name u.options h
  have hupd : PG.updateUser c u = (.ok (), c, [.alterUser u.name []]) := by
    unfold PG.updateUser
    rw [h]
    simp only [updateUserClauses_self, exec, applyStmt_alterUser_nil]
  unfold PG.CreateUser
  rw [if_pos hex, hupd]
  by_cases hp : u.password ≠ "" <;>
    simp [hp, PG.setPassword, exec, Catalog.applyStmt]

/-- First-run behaviour of the user phase of `Manage`: it succeeds, leaves
every declared user's options row equal to the declared options, preserves
other users' rows and existing roles, and touches no database or privilege
state.  Distinct declared names keep later steps from overwriting earlier
rows; the inherit hypothesis matches the server's INHERIT-on creation
default. -/
theorem pg_userPhase_run1 (users : List User) (c : Catalog)
    (hud : users.Pairwise (fun a b => a.name ≠ b.name))
    (hpw : ∀ u ∈ users, u.password ≠ "" → u.options.login = true)
    (hin : ∀ u ∈ users, u.options.inherit = true) :
    (runList PG.CreateUser c users).1 = .ok () ∧
    (∀ u ∈ users, (runList PG.CreateUser c users).2.1.getUser u.name = .ok u.options) ∧
    (∀ n, n ∉ users.map User.name →
      (runList PG.CreateUser c users).2.1.getUser n = c.getUser n) ∧
    (∀ n, c.userExists n → (runList PG.CreateUser c users).2.1.userExists n) ∧
    (runList PG.CreateUser c users).2.1.databases = c.databases ∧
    (runList PG.CreateUser c users).2.1.privs = c.privs ∧
    (runList PG.CreateUser c users).2.1.admin = c.admin := by
  induction users generalizing c with
  | nil =>
    exact ⟨rfl, by simp, fun n hn => rfl, fun n hn => hn, rfl, rfl, rfl⟩
  | cons u0 users ih =>
    obtain ⟨hhead, htail⟩ := List.pairwise_cons.mp hud
    have hstep := pg_CreateUser_step c u0 (hpw u0 (by simp)) (hin u0 (by simp))
    rcases hs : PG.CreateUser c u0 with ⟨r0, c1, t1⟩
    rw [hs] at hstep
    have s1 : r0 = .ok () := hstep.1
    have s2 : c1.getUser u0.name = .ok u0.options := hstep.2.1
    have s3 : ∀ n, n ≠ u0.name → c1.getUser n = c.getUser n := hstep.2.2.1
    have s4 : ∀ n, c.userExists n → c1.userExists n := hstep.2.2.2.1
    have s5 : c1.databases = c.databases := hstep.2.2.2.2.1
    have s6 : c1.privs = c.privs := hstep.2.2.2.2.2.1
    have s7 : c1.admin = c.admin := hstep.2.2.2.2.2.2
    subst s1
    have hi := ih c1 htail (fun u hu => hpw u (by simp [hu]))
      (fun u hu => hin u (by simp [hu]))
    rcases hrl : runList PG.CreateUser c1 users with ⟨r2, c2, t2⟩
    rw [hrl] at hi
    have i1 : r2 = .ok () := hi.1
    have i2 : ∀ u ∈ users, c2.getUser u.name = .ok u.options := hi.2.1
    have i3 : ∀ n, n ∉ users.map User.name → c2.getUser n = c1.getUser n := hi.2.2.1
    have i4 : ∀ n, c1.userExists n → c2.userExists n := hi.2.2.2.1
    have i5 : c2.databases = c1.databases := hi.2.2.2.2.1
    have i6 : c2.privs = c1.privs := hi.2.2.2.2.2.1
    have i7 : c2.admin = c1.admin := hi.2.2.2.2.2.2
    subst i1
    have hnm : u0.name ∉ users.map User.name := by
      intro hmem
      obtain ⟨b, hb, hbe⟩ := List.mem_map.mp hmem
      exact hhead b hb hbe.symm
    have hfin : runList PG.CreateUser c (u0 :: users) = (.ok (), c2, t1 ++ t2) := by
      simp only [runList, hs, hrl]
    refine ⟨by rw [hfin], ?_, ?_, ?_, ?_, ?_, ?_⟩
    · intro u hu
      rw [hfin]
      rcases List.mem_cons.mp hu with he | hu
      · subst he
        exact (i3 u.name hnm).trans s2
      · exact i2 u hu
    · intro n hn
      rw [hfin]
      simp only [List.map_cons, List.mem_cons, not_or] at hn
      exact (i3 n hn.2).trans (s3 n hn.1)
    · intro n hn
      rw [hfin]
      exact i4 n (s4 n hn)
    · rw [hfin]
      exact i5.trans s5
    · rw [hfin]
      exact i6.trans s6
    · rw [hfin]
      exact i7.trans s7

/-- Second-run behaviour of the user phase: when every declared user's live
options row equals the declared options, the phase succeeds, leaves the
catalog unchanged, and traces only clause-free ALTER USER and password-set
statements. -/
theorem pg_userPhase_rerun (users : List User) (c : Catalog)
    (hgot : ∀ u ∈ users, c.getUser u.name = .ok u.options) :
    (runList PG.CreateUser c users).1 = .ok () ∧
    (runList PG.CreateUser c users).2.1 = c ∧
    ∀ s ∈ (runList PG.CreateUser c users).2.2,
      (∃ n, s = .alterUser n []) ∨ ∃ n p, s = .setPassword n p := by
  induction users with
  | nil =>
    exact ⟨rfl, rfl, fun s hs => absurd hs (by simp [runList])⟩
  | cons u0 users ih =>
    have hstep := pg_CreateUser_rerun c u0 (hgot u0 (by simp))
    obtain ⟨i1, i2, i3⟩ := ih (fun u hu => hgot u (by simp [hu]))
    rcases hrl : runList PG.CreateUser c users with ⟨r2, c2, t2⟩
    rw [hrl] at i1 i2 i3
    have i1' : r2 = .ok () := i1
    have i2' : c2 = c := i2
    subst i1'
    have hfin : runList PG.CreateUser c (u0 :: users) = (.ok (), c,
        (if u0.password ≠ "" then
          [.alterUser u0.name [], .setPassword u0.name u0.password]
        else [.alterUser u0.name []]) ++ t2) := by
      simp only [runList, hstep, hrl, i2']
    refine ⟨by rw [hfin], by rw [hfin], ?_⟩
    · intro s hs
      rw [hfin] at hs
      replace hs : s ∈ (if u0.password ≠ "" then
          [Stmt.alterUser u0.name [], Stmt.setPassword u0.name u0.password]
        else [Stmt.alterUser u0.name []]) ++ t2 := hs
      rcases List.mem_append.mp hs with hs | hs
      · by_cases hp : u0.password ≠ ""
        · rw [if_pos hp] at hs
          rcases List.mem_cons.mp hs with he | hs
          · exact Or.inl ⟨u0.name, he⟩
          · simp at hs
            exact Or.inr ⟨u0.name, u0.password, hs⟩
        · rw [if_neg hp] at hs
          simp at hs
          exact Or.inl ⟨u0.name, hs⟩
      · exact i3 s hs

/-- The default-privilege pass executes one statement per rule and leaves
the modelled catalog unchanged. -/
theorem pg_adp_run (c : Catalog) (db : String) (l : List DefaultPrivilege) :
    PG.alterDefaultPrivileges c db l =
      (.ok (), c, l.map (Stmt.alterDefaultPrivilege db)) := by
  have key : ∀ (ll : List DefaultPrivilege) (cc : Catalog),
      runList (fun (cc : Catalog) (p : DefaultPrivilege) =>
        ((.ok (), cc, [Stmt.alterDefaultPrivilege db p]) : Res)) cc ll =
      (.ok (), cc, ll.map (Stmt.alterDefaultPrivilege db)) := by
    intro ll
    induction ll with
    | nil => intro cc; rfl
    | cons p ll ih =>
      intro cc
      simp only [runList, ih, List.map_cons, List.cons_append, List.nil_append]
  exact key l c

/-- `createDatabase` skips an existing database. -/
theorem pg_createDatabase_skip (c : Catalog) (d : Database)
    (hex : c.databaseExists d.name) :
    PG.createDatabase c d = (.ok (), c, []) := by
  unfold PG.createDatabase
  rw [if_pos hex]

/-- `createDatabase` creates a missing database whose declared owner, if
any, exists. -/
theorem pg_createDatabase_new (c : Catalog) (d : Database)
    (hex : ¬ c.databaseExists d.name)
    (howner : d.owner ≠ "" → c.userExists d.owner) :
    PG.createDatabase c d = (.ok (),
      c.applyStmt (.createDatabase d.name d.owner),
      [.createDatabase d.name d.owner]) := by
  unfold PG.createDatabase
  rw [if_neg hex]
  by_cases ho : d.owner ≠ ""
  · rw [if_pos ho, if_pos (howner ho)]
    rfl
  · have ho' : d.owner = "" := of_not_not (by simpa using ho)
    rw [if_neg ho]
    simp [ho', exec]

/-- `updateDatabase` skips when the live owner matches or no owner is
declared. -/
theorem pg_updateDatabase_skip (c : Catalog) (d : Database) (x : String)
    (hX : c.getDatabaseOwner d.name = .ok x)
    (h : x = d.owner ∨ d.owner = "") :
    PG.updateDatabase c d = (.ok (), c, []) := by
  unfold PG.updateDatabase
  rw [hX]
  by_cases he : x = d.owner
  · simp [he]
  · rcases h with h | h
    · exact absurd h he
    · simp [he, h]

/-- `updateDatabase` alters ownership when the live owner differs from a
non-empty declared owner. -/
theorem pg_updateDatabase_alter (c : Catalog) (d : Database) (x : String)
    (hX : c.getDatabaseOwner d.name = .ok x)
    (hne : x ≠ d.owner) (ho : d.owner ≠ "") :
    PG.updateDatabase c d = (.ok (),
      c.applyStmt (.alterDatabaseOwner d.name d.owner),
      [.alterDatabaseOwner d.name d.owner]) := by
  unfold PG.updateDatabase
  rw [hX]
  simp [hne, ho, exec]

/-- First-run behaviour of the postgres `CreateDatabase` step: it succeeds,
leaves the processed database existing with the declared owner (when one is
declared), preserves other databases' rows, and touches no user or
privilege state. -/
theorem pg_CreateDatabase_step (c : Catalog) (d : Database)
    (howner : d.owner ≠ "" → c.userExists d.owner) :
    (PG.CreateDatabase c d).1 = .ok () ∧
    (PG.CreateDatabase c d).2.1.databaseExists d.name ∧
    (d.owner ≠ "" → (PG.CreateDatabase c d).2.1.getDatabaseOwner d.name = .ok d.owner) ∧
    (∀ n, n ≠ d.name → (PG.CreateDatabase c d).2.1.getDatabaseOwner n = c.getDatabaseOwner n) ∧
    (∀ n, n ≠ d.name → ((PG.CreateDatabase c d).2.1.databaseExists n ↔ c.databaseExists n)) ∧
    (PG.CreateDatabase c d).2.1.users = c.users ∧
    (PG.CreateDatabase c d).2.1.privs = c.privs ∧
    (PG.CreateDatabase c d).2.1.admin = c.admin := by
  by_cases hex : c.databaseExists d.name
  · have hcd := pg_createDatabase_skip c d hex
    obtain ⟨x, hX⟩ := databaseExists_getOwner c d.name hex
    by_cases h1 : x = d.owner
    · have hud := pg_updateDatabase_skip c d x hX (Or.inl h1)
      have hfin : PG.CreateDatabase c d = (.ok (), c,
          d.defaultPrivileges.map (Stmt.alterDefaultPrivilege d.name)) := by
        simp only [PG.CreateDatabase, hcd, hud, pg_adp_run, List.nil_append]
      refine ⟨by rw [hfin], by rw [hfin]; try exact hex, ?_, ?_, ?_,
        by rw [hfin]; try rfl, by rw [hfin]; try rfl, by rw [hfin]; try rfl⟩
      · intro ho
        rw [hfin, ← h1]
        exact hX
      · intro n hn
        rw [hfin]
      · intro n hn
        rw [hfin]
    · by_cases h2 : d.owner = ""
      · have hud := pg_updateDatabase_skip c d x hX (Or.inr h2)
        have hfin : PG.CreateDatabase c d = (.ok (), c,
            d.defaultPrivileges.map (Stmt.alterDefaultPrivilege d.name)) := by
          simp only [PG.CreateDatabase, hcd, hud, pg_adp_run, List.nil_append]
        refine ⟨by rw [hfin], by rw [hfin]; try exact hex, ?_, ?_, ?_,
          by rw [hfin]; try rfl, by rw [hfin]; try rfl, by rw [hfin]; try rfl⟩
        · intro ho
          exact absurd h2 ho
        · intro n hn
          rw [hfin]
        · intro n hn
          rw [hfin]
      · have hud := pg_updateDatabase_alter c d x hX h1 h2
        have hfin : PG.CreateDatabase c d = (.ok (),
            c.applyStmt (.alterDatabaseOwner d.name d.owner),
            .alterDatabaseOwner d.name d.owner ::
              d.defaultPrivileges.map (Stmt.alterDefaultPrivilege d.name)) := by
          simp only [PG.CreateDatabase, hcd, hud, pg_adp_run, List.nil_append,
            List.cons_append]
        refine ⟨by rw [hfin], ?_, ?_, ?_, ?_,
          by rw [hfin]; try rfl, by rw [hfin]; try rfl, by rw [hfin]; try rfl⟩
        · rw [hfin]
          exact (databaseExists_alter c d.name d.owner d.name).mpr hex
        · intro ho
          rw [hfin]
          exact getOwner_alter_eq c d.name d.owner x hX
        · intro n hn
          rw [hfin]
          exact getOwner_alter_ne c d.name d.owner n hn
        · intro n hn
          rw [hfin]
          exact databaseExists_alter c d.name d.owner n
  · have hcd := pg_createDatabase_new c d hex howner
    have hgot1 := getOwner_create_eq c d.name d.owner
    have hud : PG.updateDatabase (c.applyStmt (.createDatabase d.name d.owner)) d =
        (.ok (), c.applyStmt (.createDatabase d.name d.owner), []) := by
      by_cases h2 : d.owner = ""
      · rw [if_pos h2] at hgot1
        exact pg_updateDatabase_skip _ d c.admin hgot1 (Or.inr h2)
      · rw [if_neg h2] at hgot1
        exact pg_updateDatabase_skip _ d d.owner hgot1 (Or.inl rfl)
    have hfin : PG.CreateDatabase c d = (.ok (),
        c.applyStmt (.createDatabase d.name d.owner),
        .createDatabase d.name d.owner ::
          d.defaultPrivileges.map (Stmt.alterDefaultPrivilege d.name)) := by
      simp only [PG.CreateDatabase, hcd, hud, pg_adp_run, List.nil_append,
        List.append_nil, List.cons_append]
    refine ⟨by rw [hfin], ?_, ?_, ?_, ?_,
      by rw [hfin]; try rfl, by rw [hfin]; try rfl, by rw [hfin]; try rfl⟩
    · rw [hfin]
      exact (databaseExists_create c d.name d.owner d.name).mpr (Or.inl rfl)
    · intro ho
      rw [hfin]
      rw [if_neg ho] at hgot1
      exact hgot1
    · intro n hn
      rw [hfin]
      exact getOwner_create_ne c d.name d.owner n hn
    · intro n hn
      rw [hfin]
      rw [databaseExists_create c d.name d.owner n]
      simp [hn]

/-- Second-run behaviour of the postgres `CreateDatabase` step: when the
database exists and a non-empty declared owner matches the live owner, the
step leaves the catalog unchanged and re-executes only the default
privilege statements. -/
theorem pg_CreateDatabase_rerun (c : Catalog) (d : Database)
    (hex : c.databaseExists d.name)
    (hown : d.owner ≠ "" → c.getDatabaseOwner d.name = .ok d.owner) :
    PG.CreateDatabase c d = (.ok (), c,
      d.defaultPrivileges.map (Stmt.alterDefaultPrivilege d.name)) := by
  have hcd := pg_createDatabase_skip c d hex
  obtain ⟨x, hX⟩ := databaseExists_getOwner c d.name hex
  have hud : PG.updateDatabase c d = (.ok (), c, []) := by
    by_cases h2 : d.owner = ""
    · exact pg_updateDatabase_skip c d x hX (Or.inr h2)
    · have := hown h2
      rw [this] at hX  -- hmm
      exact pg_updateDatabase_skip c d d.owner this (Or.inl rfl)
  simp only [PG.CreateDatabase, hcd, hud, pg_adp_run, List.nil_append]

/-- First-run behaviour of the database phase of `Manage`: it succeeds,
leaves every declared database existing with its declared owner (when one
is declared), preserves other databases' rows, and touches no user or
privilege state. -/
theorem pg_dbPhase_run1 (dbs : List Database) (c : Catalog)
    (hdd : dbs.Pairwise (fun a b => a.name ≠ b.name))
    (hown : ∀ d ∈ dbs, d.owner ≠ "" → c.userExists d.owner) :
    (runList PG.CreateDatabase c dbs).1 = .ok () ∧
    (∀ d ∈ dbs, (runList PG.CreateDatabase c dbs).2.1.databaseExists d.name ∧
      (d.owner ≠ "" →
        (runList PG.CreateDatabase c dbs).2.1.getDatabaseOwner d.name = .ok d.owner)) ∧
    (runList PG.CreateDatabase c dbs).2.1.users = c.users ∧
    (runList PG.CreateDatabase c dbs).2.1.privs = c.privs ∧
    (runList PG.CreateDatabase c dbs).2.1.admin = c.admin ∧
    (∀ n, n ∉ dbs.map Database.name →
      (runList PG.CreateDatabase c dbs).2.1.getDatabaseOwner n = c.getDatabaseOwner n ∧
      ((runList PG.CreateDatabase c dbs).2.1.databaseExists n ↔ c.databaseExists n)) := by
  induction dbs generalizing c with
  | nil =>
    exact ⟨rfl, by simp, rfl, rfl, rfl, fun n hn => ⟨rfl, Iff.rfl⟩⟩
  | cons d0 dbs ih =>
    obtain ⟨hhead, htail⟩ := List.pairwise_cons.mp hdd
    have hstep := pg_CreateDatabase_step c d0 (hown d0 (by simp))
    rcases hs : PG.CreateDatabase c d0 with ⟨r0, c1, t1⟩
    rw [hs] at hstep
    have s1 : r0 = .ok () := hstep.1
    have s2 : c1.databaseExists d0.name := hstep.2.1
    have s3 : d0.owner ≠ "" → c1.getDatabaseOwner d0.name = .ok d0.owner := hstep.2.2.1
    have s4 : ∀ n, n ≠ d0.name → c1.getDatabaseOwner n = c.getDatabaseOwner n := hstep.2.2.2.1
    have s5 : ∀ n, n ≠ d0.name → (c1.databaseExists n ↔ c.databaseExists n) := hstep.2.2.2.2.1
    have s6 : c1.users = c.users := hstep.2.2.2.2.2.1
    have s7 : c1.privs = c.privs := hstep.2.2.2.2.2.2.1
    have s8 : c1.admin = c.admin := hstep.2.2.2.2.2.2.2
    subst s1
    have hi := ih c1 htail (fun d hd ho =>
      (userExists_congr c c1 d.owner s6).mpr (hown d (by simp [hd]) ho))
    rcases hrl : runList PG.CreateDatabase c1 dbs with ⟨r2, c2, t2⟩
    rw [hrl] at hi
    have i1 : r2 = .ok () := hi.1
    have i2 : ∀ d ∈ dbs, c2.databaseExists d.name ∧
        (d.owner ≠ "" → c2.getDatabaseOwner d.name = .ok d.owner) := hi.2.1
    have i3 : c2.users = c1.users := hi.2.2.1
    have i4 : c2.privs = c1.privs := hi.2.2.2.1
    have i5 : c2.admin = c1.admin := hi.2.2.2.2.1
    have i6 : ∀ n, n ∉ dbs.map Database.name →
        c2.getDatabaseOwner n = c1.getDatabaseOwner n ∧
        (c2.databaseExists n ↔ c1.databaseExists n) := hi.2.2.2.2.2
    subst i1
    have hnm : d0.name ∉ dbs.map Database.name := by
      intro hmem
      obtain ⟨b, hb, hbe⟩ := List.mem_map.mp hmem
      exact hhead b hb hbe.symm
    have hfin : runList PG.CreateDatabase c (d0 :: dbs) = (.ok (), c2, t1 ++ t2) := by
      simp only [runList, hs, hrl]
    refine ⟨by rw [hfin], ?_, ?_, ?_, ?_, ?_⟩
    · intro d hd
      rw [hfin]
      rcases List.mem_cons.mp hd with he | hd
      · subst he
        exact ⟨(i6 d.name hnm).2.mpr s2, fun ho => ((i6 d.name hnm).1).trans (s3 ho)⟩
      · exact i2 d hd
    · rw [hfin]
      exact i3.trans s6
    · rw [hfin]
      exact i4.trans s7
    · rw [hfin]
      exact i5.trans s8
    · intro n hn
      rw [hfin]
      simp only [List.map_cons, List.mem_cons, not_or] at hn
      exact ⟨((i6 n hn.2).1).trans (s4 n hn.1),
        ((i6 n hn.2).2).trans (s5 n hn.1)⟩

/-- Second-run behaviour of the database phase: when every declared
database exists with its declared owner, the phase succeeds, leaves the
catalog unchanged, and traces only default-privilege statements. -/
theorem pg_dbPhase_rerun (dbs : List Database) (c : Catalog)
    (hfacts : ∀ d ∈ dbs, c.databaseExists d.name ∧
      (d.owner ≠ "" → c.getDatabaseOwner d.name = .ok d.owner)) :
    (runList PG.CreateDatabase c dbs).1 = .ok () ∧
    (runList PG.CreateDatabase c dbs).2.1 = c ∧
    ∀ s ∈ (runList PG.CreateDatabase c dbs).2.2,
      ∃ db p, s = .alterDefaultPrivilege db p := by
  induction dbs with
  | nil =>
    exact ⟨rfl, rfl, fun s hs => absurd hs (by simp [runList])⟩
  | cons d0 dbs ih =>
    have hstep := pg_CreateDatabase_rerun c d0 (hfacts d0 (by simp)).1
      (hfacts d0 (by simp)).2
    obtain ⟨i1, i2, i3⟩ := ih (fun d hd => hfacts d (by simp [hd]))
    rcases hrl : runList PG.CreateDatabase c dbs with ⟨r2, c2, t2⟩
    rw [hrl] at i1 i2 i3
    have i1' : r2 = .ok () := i1
    have i2' : c2 = c := i2
    subst i1'
    have hfin : runList PG.CreateDatabase c (d0 :: dbs) = (.ok (), c,
        d0.defaultPrivileges.map (Stmt.alterDefaultPrivilege d0.name) ++ t2) := by
      simp only [runList, hstep, hrl, i2']
    refine ⟨by rw [hfin], by rw [hfin], ?_⟩
    · intro s hs
      rw [hfin] at hs
      replace hs : s ∈ d0.defaultPrivileges.map (Stmt.alterDefaultPrivilege d0.name)
          ++ t2 := hs
      rcases List.mem_append.mp hs with hs | hs
      · obtain ⟨p, hp, he⟩ := List.mem_map.mp hs
        exact ⟨d0.name, p, he.symm⟩
      · exact i3 s hs

/-- Database privilege expansion never empties a non-empty request. -/
theorem expandDatabasePrivs_ne_nil (ps : List String) (h : ps ≠ []) :
    expandDatabasePrivs ps ≠ [] := by
  unfold expandDatabasePrivs
  split_ifs <;> simp [h]

/-- Table privilege expansion never empties a non-empty request. -/
theorem expandTablePrivs_ne_nil (ps : List String) (h : ps ≠ []) :
    expandTablePrivs ps ≠ [] := by
  unfold expandTablePrivs
  split_ifs <;> simp [h]

/-- Sequence privilege expansion never empties a non-empty request. -/
theorem expandSequencePrivs_ne_nil (ps : List String) (h : ps ≠ []) :
    expandSequencePrivs ps ≠ [] := by
  unfold expandSequencePrivs
  split_ifs <;> simp [h]

/-- The privilege check `grantPermission` (postgres.go) consults for a
grant: the branch structure of its scope switch, under a non-empty
database. -/
def pgGrantHeld (c : Catalog) (username : String) (g : Grant) : Prop :=
  if g.schema = "" then PG.hasDatabasePrivilege c username g.database g.privileges
  else if g.table ≠ "" then
    PG.hasTablePrivilege c g.database username g.schema g.table g.privileges
  else if g.sequence ≠ "" then
    PG.hasSequencePrivilege c g.database username g.schema g.sequence g.privileges
  else PG.hasSchemaPrivilege c g.database username g.schema g.privileges

instance (c : Catalog) (u : String) (g : Grant) : Decidable (pgGrantHeld c u g) := by
  unfold pgGrantHeld
  infer_instance

/-- `grantPermission` (postgres.go) skips when its branch check passes. -/
theorem pg_grantPermission_held (c : Catalog) (u : String) (g : Grant)
    (hdb : g.database ≠ "") (h : pgGrantHeld c u g) :
    PG.grantPermission c u g = (.ok (), c, []) := by
  unfold pgGrantHeld at h
  unfold PG.grantPermission
  by_cases hs : g.schema = ""
  · rw [if_pos hs] at h
    rw [if_pos ⟨hdb, hs⟩, if_pos h]
  · rw [if_neg hs] at h
    rw [if_neg (fun hc => hs hc.2), if_pos ⟨hdb, hs⟩]
    by_cases ht : g.table ≠ ""
    · rw [if_pos ht] at h
      rw [if_pos ht, if_pos h]
    · rw [if_neg ht] at h
      rw [if_neg ht]
      by_cases hq : g.sequence ≠ ""
      · rw [if_pos hq] at h
        rw [if_pos hq, if_pos h]
      · rw [if_neg hq] at h
        rw [if_neg hq, if_pos h]

/-- `grantPermission` (postgres.go) executes the GRANT when its branch
check fails, adding exactly the conferred privileges. -/
theorem pg_grantPermission_miss (c : Catalog) (u : String) (g : Grant)
    (hdb : g.database ≠ "") (h : ¬ pgGrantHeld c u g) :
    PG.grantPermission c u g = (.ok (),
      { c with privs := grantEffect g.database u g ++ c.privs }, [.grant u g]) := by
  unfold pgGrantHeld at h
  unfold PG.grantPermission
  by_cases hs : g.schema = ""
  · rw [if_pos hs] at h
    rw [if_pos ⟨hdb, hs⟩, if_neg h]
    simp [exec, Catalog.applyStmt, hdb]
  · rw [if_neg hs] at h
    rw [if_neg (fun hc => hs hc.2), if_pos ⟨hdb, hs⟩]
    by_cases ht : g.table ≠ ""
    · rw [if_pos ht] at h
      rw [if_pos ht, if_neg h]
      simp [exec, Catalog.applyStmt, hdb]
    · rw [if_neg ht] at h
      rw [if_neg ht]
      by_cases hq : g.sequence ≠ ""
      · rw [if_pos hq] at h
        rw [if_pos hq, if_neg h]
        simp [exec, Catalog.applyStmt, hdb]
      · rw [if_neg hq] at h
        rw [if_neg hq, if_neg h]
        simp [exec, Catalog.applyStmt, hdb]

/-- A passed check stays passed when the privilege rows only grow. -/
theorem pg_grantHeld_mono (c c' : Catalog) (u : String) (g : Grant)
    (hsub : ∀ k ∈ c.privs, k ∈ c'.privs) (h : pgGrantHeld c u g) :
    pgGrantHeld c' u g := by
  unfold pgGrantHeld at h ⊢
  by_cases hs : g.schema = ""
  · rw [if_pos hs] at h ⊢
    unfold PG.hasDatabasePrivilege at h ⊢
    obtain ⟨p, hpm, hk⟩ := h
    exact ⟨p, hpm, hsub _ hk⟩
  · rw [if_neg hs] at h ⊢
    by_cases ht : g.table ≠ ""
    · rw [if_pos ht] at h ⊢
      unfold PG.hasTablePrivilege at h ⊢
      by_cases hw : g.table = "*"
      · rw [if_pos hw] at h
        exact h.elim
      · rw [if_neg hw] at h ⊢
        obtain ⟨p, hpm, hk⟩ := h
        exact ⟨p, hpm, hsub _ hk⟩
    · rw [if_neg ht] at h ⊢
      by_cases hq : g.sequence ≠ ""
      · rw [if_pos hq] at h ⊢
        unfold PG.hasSequencePrivilege at h ⊢
        by_cases hw : g.sequence = "*"
        · rw [if_pos hw] at h
          exact h.elim
        · rw [if_neg hw] at h ⊢
          obtain ⟨p, hpm, hk⟩ := h
          exact ⟨p, hpm, hsub _ hk⟩
      · rw [if_neg hq] at h ⊢
        unfold PG.hasSchemaPrivilege at h ⊢
        obtain ⟨p, hpm, hk⟩ := h
        exact ⟨p, hpm, hsub _ hk⟩

/-- After executing the GRANT for a well-formed non-wildcard grant, the
branch check passes: the conferred privileges are exactly the ones the
check looks for. -/
theorem pg_grantHeld_after (c : Catalog) (u : String) (g : Grant)
    (hdb : g.database ≠ "") (hp : g.privileges ≠ [])
    (hts : ¬(g.table ≠ "" ∧ g.sequence ≠ ""))
    (hsch : g.schema ≠ "" → (g.table ≠ "" ∨ g.sequence ≠ ""))
    (hnw : g.table ≠ "*" ∧ g.sequence ≠ "*") :
    pgGrantHeld { c with privs := grantEffect g.database u g ++ c.privs } u g := by
  have h1 : ¬(g.database = "" ∧ g.parameter ≠ "") := fun hc => hdb hc.1
  unfold pgGrantHeld
  by_cases hs : g.schema = ""
  · rw [if_pos hs]
    unfold PG.hasDatabasePrivilege
    obtain ⟨p, hpm⟩ := List.exists_mem_of_ne_nil _ (expandDatabasePrivs_ne_nil g.privileges hp)
    refine ⟨p, hpm, ?_⟩
    show PrivKey.mk u (.database g.database) p ∈
      ({ c with privs := grantEffect g.database u g ++ c.privs } : Catalog).privs
    unfold grantEffect
    rw [if_neg h1, if_pos ⟨hdb, hs⟩]
    exact List.mem_append_left _ (List.mem_map.mpr ⟨p, hpm, rfl⟩)
  · have h2 : ¬(g.database ≠ "" ∧ g.schema = "") := fun hc => hs hc.2
    rw [if_neg hs]
    by_cases ht : g.table ≠ ""
    · have hq0 : ¬ g.sequence ≠ "" := fun hq => hts ⟨ht, hq⟩
      have hqe : g.sequence = "" := of_not_not hq0
      rw [if_pos ht]
      unfold PG.hasTablePrivilege
      rw [if_neg hnw.1]
      obtain ⟨p, hpm⟩ := List.exists_mem_of_ne_nil _ (expandTablePrivs_ne_nil g.privileges hp)
      refine ⟨p, hpm, ?_⟩
      show PrivKey.mk u (.table g.database g.schema g.table) p ∈
        ({ c with privs := grantEffect g.database u g ++ c.privs } : Catalog).privs
      unfold grantEffect
      rw [if_neg h1, if_neg h2, if_pos ⟨hdb, hs⟩,
        if_neg (by simp [hqe]), if_neg (by simp [hqe]), if_neg hnw.1, if_pos ht]
      exact List.mem_append_left _ (List.mem_map.mpr ⟨p, hpm, rfl⟩)
    · rcases hsch hs with ht2 | hq
      · exact absurd ht2 ht
      · rw [if_neg ht, if_pos hq]
        unfold PG.hasSequencePrivilege
        rw [if_neg hnw.2]
        obtain ⟨p, hpm⟩ := List.exists_mem_of_ne_nil _
          (expandSequencePrivs_ne_nil g.privileges hp)
        refine ⟨p, hpm, ?_⟩
        show PrivKey.mk u (.sequence g.database g.schema g.sequence) p ∈
          ({ c with privs := grantEffect g.database u g ++ c.privs } : Catalog).privs
        unfold grantEffect
        rw [if_neg h1, if_neg h2, if_pos ⟨hdb, hs⟩, if_neg hnw.2, if_pos hq]
        exact List.mem_append_left _ (List.mem_map.mpr ⟨p, hpm, rfl⟩)

/-- One grant through `GrantPermissions` for an existing user: skip when the
check passes, otherwise execute the GRANT and record its effect. -/
theorem pg_GrantPermissions_single (c : Catalog) (un db : String) (g : Grant)
    (hex : c.userExists un) (hdb : g.database ≠ "") :
    (pgGrantHeld c un g → PG.GrantPermissions c un db [g] = (.ok (), c, [])) ∧
    (¬ pgGrantHeld c un g → PG.GrantPermissions c un db [g] =
      (.ok (), { c with privs := grantEffect g.database un g ++ c.privs },
        [.grant un g])) := by
  constructor
  · intro h
    unfold PG.GrantPermissions
    rw [if_pos hex]
    simp only [runList, pg_grantPermission_held c un g hdb h, List.append_nil,
      List.nil_append]
  · intro h
    unfold PG.GrantPermissions
    rw [if_pos hex]
    simp only [runList, pg_grantPermission_miss c un g hdb h, List.append_nil,
      List.nil_append, List.cons_append]

/-- First-run behaviour of one user's grant loop: it succeeds, only grows
the privilege rows, preserves everything else, and afterwards every
non-wildcard declared grant's check passes. -/
theorem pg_userGrants_run1 (un : String) (gs : List Grant) (c : Catalog)
    (hex : c.userExists un)
    (hsh : ∀ g ∈ gs, g.database ≠ "" ∧ g.privileges ≠ [] ∧
      ¬(g.table ≠ "" ∧ g.sequence ≠ "") ∧
      (g.schema ≠ "" → (g.table ≠ "" ∨ g.sequence ≠ ""))) :
    (runList (fun c g => PG.GrantPermissions c un g.database [g]) c gs).1 = .ok () ∧
    (runList (fun c g => PG.GrantPermissions c un g.database [g]) c gs).2.1.users = c.users ∧
    (runList (fun c g => PG.GrantPermissions c un g.database [g]) c gs).2.1.databases = c.databases ∧
    (runList (fun c g => PG.GrantPermissions c un g.database [g]) c gs).2.1.admin = c.admin ∧
    (∀ k ∈ c.privs,
      k ∈ (runList (fun c g => PG.GrantPermissions c un g.database [g]) c gs).2.1.privs) ∧
    (∀ g ∈ gs, (g.table ≠ "*" ∧ g.sequence ≠ "*") →
      pgGrantHeld (runList (fun c g => PG.GrantPermissions c un g.database [g]) c gs).2.1 un g) := by
  induction gs generalizing c with
  | nil =>
    exact ⟨rfl, rfl, rfl, rfl, fun k hk => hk, by simp⟩
  | cons g0 gs ih =>
    obtain ⟨hdb0, hp0, hts0, hsch0⟩ := hsh g0 (by simp)
    have hsingle := pg_GrantPermissions_single c un g0.database g0 hex hdb0
    by_cases hheld : pgGrantHeld c un g0
    · have hstep := hsingle.1 hheld
      have hi := ih c hex (fun g hg => hsh g (by simp [hg]))
      rcases hrl : runList (fun c g => PG.GrantPermissions c un g.database [g]) c gs
        with ⟨r2, c2, t2⟩
      rw [hrl] at hi
      have i1 : r2 = .ok () := hi.1
      subst i1
      have hfin : runList (fun c g => PG.GrantPermissions c un g.database [g]) c
          (g0 :: gs) = (.ok (), c2, t2) := by
        simp only [runList, hstep, hrl, List.nil_append]
      refine ⟨by rw [hfin], ?_, ?_, ?_, ?_, ?_⟩ <;> rw [hfin]
      · exact hi.2.1
      · exact hi.2.2.1
      · exact hi.2.2.2.1
      · exact hi.2.2.2.2.1
      · intro g hg hnw
        rcases List.mem_cons.mp hg with he | hg
        · subst he
          exact pg_grantHeld_mono c c2 un g hi.2.2.2.2.1 hheld
        · exact hi.2.2.2.2.2 g hg hnw
    · have hstep := hsingle.2 hheld
      have hex1 : ({ c with privs := grantEffect g0.database un g0 ++ c.privs } :
          Catalog).userExists un := hex
      have hi := ih { c with privs := grantEffect g0.database un g0 ++ c.privs } hex1
        (fun g hg => hsh g (by simp [hg]))
      rcases hrl : runList (fun c g => PG.GrantPermissions c un g.database [g])
          { c with privs := grantEffect g0.database un g0 ++ c.privs } gs
        with ⟨r2, c2, t2⟩
      rw [hrl] at hi
      have i1 : r2 = .ok () := hi.1
      subst i1
      have hsub1 : ∀ k ∈ c.privs,
          k ∈ ({ c with privs := grantEffect g0.database un g0 ++ c.privs } :
            Catalog).privs := fun k hk => List.mem_append_right _ hk
      have hfin : runList (fun c g => PG.GrantPermissions c un g.database [g]) c
          (g0 :: gs) = (.ok (), c2, .grant un g0 :: t2) := by
        simp only [runList, hstep, hrl, List.cons_append, List.nil_append]
      refine ⟨by rw [hfin], ?_, ?_, ?_, ?_, ?_⟩ <;> rw [hfin]
      · exact hi.2.1
      · exact hi.2.2.1
      · exact hi.2.2.2.1
      · exact fun k hk => hi.2.2.2.2.1 k (hsub1 k hk)
      · intro g hg hnw
        rcases List.mem_cons.mp hg with he | hg
        · subst he
          exact pg_grantHeld_mono _ c2 un g hi.2.2.2.2.1
            (pg_grantHeld_after c un g hdb0 hp0 hts0 hsch0 hnw)
        · exact hi.2.2.2.2.2 g hg hnw

/-- Second-run behaviour of one user's grant loop: with every non-wildcard
check already passing, it succeeds, traces only wildcard GRANTs, and only
grows the privilege rows. -/
theorem pg_userGrants_rerun (un : String) (gs : List Grant) (c : Catalog)
    (hex : c.userExists un)
    (hsh : ∀ g ∈ gs, g.database ≠ "" ∧ g.privileges ≠ [] ∧
      ¬(g.table ≠ "" ∧ g.sequence ≠ "") ∧
      (g.schema ≠ "" → (g.table ≠ "" ∨ g.sequence ≠ "")))
    (hheld : ∀ g ∈ gs, (g.table ≠ "*" ∧ g.sequence ≠ "*") → pgGrantHeld c un g) :
    (runList (fun c g => PG.GrantPermissions c un g.database [g]) c gs).1 = .ok () ∧
    (runList (fun c g => PG.GrantPermissions c un g.database [g]) c gs).2.1.users = c.users ∧
    (∀ k ∈ c.privs,
      k ∈ (runList (fun c g => PG.GrantPermissions c un g.database [g]) c gs).2.1.privs) ∧
    ∀ s ∈ (runList (fun c g => PG.GrantPermissions c un g.database [g]) c gs).2.2,
      ∃ g2, s = .grant un g2 ∧ (g2.table = "*" ∨ g2.sequence = "*") := by
  induction gs generalizing c with
  | nil =>
    exact ⟨rfl, rfl, fun k hk => hk, fun s hs => absurd hs (by simp [runList])⟩
  | cons g0 gs ih =>
    obtain ⟨hdb0, hp0, hts0, hsch0⟩ := hsh g0 (by simp)
    have hsingle := pg_GrantPermissions_single c un g0.database g0 hex hdb0
    by_cases hheld0 : pgGrantHeld c un g0
    · have hstep := hsingle.1 hheld0
      have hi := ih c hex (fun g hg => hsh g (by simp [hg]))
        (fun g hg => hheld g (by simp [hg]))
      rcases hrl : runList (fun c g => PG.GrantPermissions c un g.database [g]) c gs
        with ⟨r2, c2, t2⟩
      rw [hrl] at hi
      have i1 : r2 = .ok () := hi.1
      subst i1
      have hfin : runList (fun c g => PG.GrantPermissions c un g.database [g]) c
          (g0 :: gs) = (.ok (), c2, t2) := by
        simp only [runList, hstep, hrl, List.nil_append]
      refine ⟨by rw [hfin], ?_, ?_, ?_⟩ <;> rw [hfin]
      · exact hi.2.1
      · exact hi.2.2.1
      · exact hi.2.2.2
    · have hw : g0.table = "*" ∨ g0.sequence = "*" := by
        by_contra hcon
        push_neg at hcon
        exact hheld0 (hheld g0 (by simp) hcon)
      have hstep := hsingle.2 hheld0
      have hex1 : ({ c with privs := grantEffect g0.database un g0 ++ c.privs } :
          Catalog).userExists un := hex
      have hsub1 : ∀ k ∈ c.privs,
          k ∈ ({ c with privs := grantEffect g0.database un g0 ++ c.privs } :
            Catalog).privs := fun k hk => List.mem_append_right _ hk
      have hi := ih { c with privs := grantEffect g0.database un g0 ++ c.privs } hex1
        (fun g hg => hsh g (by simp [hg]))
        (fun g hg hnw => pg_grantHeld_mono _ _ un g hsub1 (hheld g (by simp [hg]) hnw))
      rcases hrl : runList (fun c g => PG.GrantPermissions c un g.database [g])
          { c with privs := grantEffect g0.database un g0 ++ c.privs } gs
        with ⟨r2, c2, t2⟩
      rw [hrl] at hi
      have i1 : r2 = .ok () := hi.1
      subst i1
      have hfin : runList (fun c g => PG.GrantPermissions c un g.database [g]) c
          (g0 :: gs) = (.ok (), c2, .grant un g0 :: t2) := by
        simp only [runList, hstep, hrl, List.cons_append, List.nil_append]
      refine ⟨by rw [hfin], ?_, ?_, ?_⟩ <;> rw [hfin]
      · exact hi.2.1
      · exact fun k hk => hi.2.2.1 k (hsub1 k hk)
      · intro s hs
        rcases List.mem_cons.mp hs with he | hs
        · exact ⟨g0, he, hw⟩
        · exact hi.2.2.2 s hs

/-- First-run behaviour of the grant phase of `Manage`: it succeeds, only
grows the privilege rows, preserves users and databases, and afterwards
every declared non-wildcard grant's check passes for its user. -/
theorem pg_grantPhase_run1 (users : List User) (c : Catalog)
    (hex : ∀ u ∈ users, c.userExists u.name)
    (hsh : ∀ u ∈ users, ∀ g ∈ u.grants, g.database ≠ "" ∧ g.privileges ≠ [] ∧
      ¬(g.table ≠ "" ∧ g.sequence ≠ "") ∧
      (g.schema ≠ "" → (g.table ≠ "" ∨ g.sequence ≠ ""))) :
    (runList (fun c u => runList (fun c g =>
      PG.GrantPermissions c u.name g.database [g]) c u.grants) c users).1 = .ok () ∧
    (runList (fun c u => runList (fun c g =>
      PG.GrantPermissions c u.name g.database [g]) c u.grants) c users).2.1.users = c.users ∧
    (runList (fun c u => runList (fun c g =>
      PG.GrantPermissions c u.name g.database [g]) c u.grants) c users).2.1.databases = c.databases ∧
    (runList (fun c u => runList (fun c g =>
      PG.GrantPermissions c u.name g.database [g]) c u.grants) c users).2.1.admin = c.admin ∧
    (∀ k ∈ c.privs, k ∈ (runList (fun c u => runList (fun c g =>
      PG.GrantPermissions c u.name g.database [g]) c u.grants) c users).2.1.privs) ∧
    (∀ u ∈ users, ∀ g ∈ u.grants, (g.table ≠ "*" ∧ g.sequence ≠ "*") →
      pgGrantHeld (runList (fun c u => runList (fun c g =>
        PG.GrantPermissions c u.name g.database [g]) c u.grants) c users).2.1 u.name g) := by
  induction users generalizing c with
  | nil =>
    exact ⟨rfl, rfl, rfl, rfl, fun k hk => hk, by simp⟩
  | cons u0 users ih =>
    have hin := pg_userGrants_run1 u0.name u0.grants c (hex u0 (by simp))
      (hsh u0 (by simp))
    rcases hs : runList (fun c g => PG.GrantPermissions c u0.name g.database [g])
        c u0.grants with ⟨r1, c1, t1⟩
    rw [hs] at hin
    have s1 : r1 = .ok () := hin.1
    have s2 : c1.users = c.users := hin.2.1
    have s3 : c1.databases = c.databases := hin.2.2.1
    have s4 : c1.admin = c.admin := hin.2.2.2.1
    have s5 : ∀ k ∈ c.privs, k ∈ c1.privs := hin.2.2.2.2.1
    have s6 : ∀ g ∈ u0.grants, (g.table ≠ "*" ∧ g.sequence ≠ "*") →
        pgGrantHeld c1 u0.name g := hin.2.2.2.2.2
    subst s1
    have hi := ih c1
      (fun u hu => (userExists_congr c c1 u.name s2).mpr (hex u (by simp [hu])))
      (fun u hu => hsh u (by simp [hu]))
    rcases hrl : runList (fun c u => runList (fun c g =>
        PG.GrantPermissions c u.name g.database [g]) c u.grants) c1 users
      with ⟨r2, c2, t2⟩
    rw [hrl] at hi
    have i1 : r2 = .ok () := hi.1
    subst i1
    have hfin : runList (fun c u => runList (fun c g =>
        PG.GrantPermissions c u.name g.database [g]) c u.grants) c (u0 :: users) =
        (.ok (), c2, t1 ++ t2) := by
      simp only [runList, hs, hrl]
    refine ⟨by rw [hfin], ?_, ?_, ?_, ?_, ?_⟩ <;> rw [hfin]
    · exact hi.2.1.trans s2
    · exact hi.2.2.1.trans s3
    · exact hi.2.2.2.1.trans s4
    · exact fun k hk => hi.2.2.2.2.1 k (s5 k hk)
    · intro u hu g hg hnw
      rcases List.mem_cons.mp hu with he | hu
      · subst he
        exact pg_grantHeld_mono c1 c2 u.name g hi.2.2.2.2.1 (s6 g hg hnw)
      · exact hi.2.2.2.2.2 u hu g hg hnw

/-- Second-run behaviour of the grant phase: with every declared
non-wildcard grant's check passing, it succeeds and traces only wildcard
GRANT statements. -/
theorem pg_grantPhase_rerun (users : List User) (c : Catalog)
    (hex : ∀ u ∈ users, c.userExists u.name)
    (hsh : ∀ u ∈ users, ∀ g ∈ u.grants, g.database ≠ "" ∧ g.privileges ≠ [] ∧
      ¬(g.table ≠ "" ∧ g.sequence ≠ "") ∧
      (g.schema ≠ "" → (g.table ≠ "" ∨ g.sequence ≠ "")))
    (hheld : ∀ u ∈ users, ∀ g ∈ u.grants, (g.table ≠ "*" ∧ g.sequence ≠ "*") →
      pgGrantHeld c u.name g) :
    (runList (fun c u => runList (fun c g =>
      PG.GrantPermissions c u.name g.database [g]) c u.grants) c users).1 = .ok () ∧
    ∀ s ∈ (runList (fun c u => runList (fun c g =>
      PG.GrantPermissions c u.name g.database [g]) c u.grants) c users).2.2,
      ∃ un g2, s = .grant un g2 ∧ (g2.table = "*" ∨ g2.sequence = "*") := by
  induction users generalizing c with
  | nil =>
    exact ⟨rfl, fun s hs => absurd hs (by simp [runList])⟩
  | cons u0 users ih =>
    have hin := pg_userGrants_rerun u0.name u0.grants c (hex u0 (by simp))
      (hsh u0 (by simp)) (hheld u0 (by simp))
    rcases hs : runList (fun c g => PG.GrantPermissions c u0.name g.database [g])
        c u0.grants with ⟨r1, c1, t1⟩
    rw [hs] at hin
    have s1 : r1 = .ok () := hin.1
    have s2 : c1.users = c.users := hin.2.1
    have s3 : ∀ k ∈ c.privs, k ∈ c1.privs := hin.2.2.1
    have s4 : ∀ s ∈ t1, ∃ g2, s = .grant u0.name g2 ∧
        (g2.table = "*" ∨ g2.sequence = "*") := hin.2.2.2
    subst s1
    have hi := ih c1
      (fun u hu => (userExists_congr c c1 u.name s2).mpr (hex u (by simp [hu])))
      (fun u hu => hsh u (by simp [hu]))
      (fun u hu g hg hnw =>
        pg_grantHeld_mono c c1 u.name g s3 (hheld u (by simp [hu]) g hg hnw))
    rcases hrl : runList (fun c u => runList (fun c g =>
        PG.GrantPermissions c u.name g.database [g]) c u.grants) c1 users
      with ⟨r2, c2, t2⟩
    rw [hrl] at hi
    have i1 : r2 = .ok () := hi.1
    subst i1
    have hfin : runList (fun c u => runList (fun c g =>
        PG.GrantPermissions c u.name g.database [g]) c u.grants) c (u0 :: users) =
        (.ok (), c2, t1 ++ t2) := by
      simp only [runList, hs, hrl]
    refine ⟨by rw [hfin], ?_⟩
    · intro s hsm
      rw [hfin] at hsm
      replace hsm : s ∈ t1 ++ t2 := hsm
      rcases List.mem_append.mp hsm with hsm | hsm
      · obtain ⟨g2, he, hw⟩ := s4 s hsm
        exact ⟨u0.name, g2, he, hw⟩
      · exact hi.2 s hsm

/-- First-run behaviour of the whole postgres `Manage` pipeline under
well-formed declarations: it succeeds and afterwards every declared user's
options row equals the declared options, every declared database exists
with its declared owner, and every declared non-wildcard grant's check
passes. -/
theorem pg_Manage_run1 (c0 : Catalog) (dbs : List Database) (users : List User)
    (hud : users.Pairwise (fun a b => a.name ≠ b.name))
    (hdd : dbs.Pairwise (fun a b => a.name ≠ b.name))
    (hpw : ∀ u ∈ users, u.password ≠ "" → u.options.login = true)
    (hin : ∀ u ∈ users, u.options.inherit = true)
    (hsh : ∀ u ∈ users, ∀ g ∈ u.grants, g.database ≠ "" ∧ g.privileges ≠ [] ∧
      ¬(g.table ≠ "" ∧ g.sequence ≠ "") ∧
      (g.schema ≠ "" → (g.table ≠ "" ∨ g.sequence ≠ "")))
    (hown : ∀ d ∈ dbs, d.owner ≠ "" →
      (d.owner ∈ users.map User.name ∨ c0.userExists d.owner)) :
    (PG.Manage c0 dbs users).1 = .ok () ∧
    (∀ u ∈ users, (PG.Manage c0 dbs users).2.1.getUser u.name = .ok u.options) ∧
    (∀ d ∈ dbs, (PG.Manage c0 dbs users).2.1.databaseExists d.name ∧
      (d.owner ≠ "" →
        (PG.Manage c0 dbs users).2.1.getDatabaseOwner d.name = .ok d.owner)) ∧
    (∀ u ∈ users, ∀ g ∈ u.grants, (g.table ≠ "*" ∧ g.sequence ≠ "*") →
      pgGrantHeld (PG.Manage c0 dbs users).2.1 u.name g) := by
  have hU := pg_userPhase_run1 users c0 hud hpw hin
  rcases h1 : runList PG.CreateUser c0 users with ⟨r1, c1, t1⟩
  rw [h1] at hU
  have u1 : r1 = .ok () := hU.1
  have u2 : ∀ u ∈ users, c1.getUser u.name = .ok u.options := hU.2.1
  have u4 : ∀ n, c0.userExists n → c1.userExists n := hU.2.2.2.1
  subst u1
  have hown1 : ∀ d ∈ dbs, d.owner ≠ "" → c1.userExists d.owner := by
    intro d hd ho
    rcases hown d hd ho with hm | hm
    · obtain ⟨u, hu, hue⟩ := List.mem_map.mp hm
      rw [← hue]
      exact getUser_ok_userExists c1 u.name u.options (u2 u hu)
    · exact u4 d.owner hm
  have hD := pg_dbPhase_run1 dbs c1 hdd hown1
  rcases h2 : runList PG.CreateDatabase c1 dbs with ⟨r2, c2, t2⟩
  rw [h2] at hD
  have d1 : r2 = .ok () := hD.1
  have d2 : ∀ d ∈ dbs, c2.databaseExists d.name ∧
      (d.owner ≠ "" → c2.getDatabaseOwner d.name = .ok d.owner) := hD.2.1
  have d3 : c2.users = c1.users := hD.2.2.1
  subst d1
  have hgot2 : ∀ u ∈ users, c2.getUser u.name = .ok u.options := fun u hu =>
    (getUser_congr c1 c2 u.name d3).trans (u2 u hu)
  have hex2 : ∀ u ∈ users, c2.userExists u.name := fun u hu =>
    getUser_ok_userExists c2 u.name u.options (hgot2 u hu)
  have hG := pg_grantPhase_run1 users c2 hex2 hsh
  rcases h3 : runList (fun c u => runList (fun c g =>
      PG.GrantPermissions c u.name g.database [g]) c u.grants) c2 users
    with ⟨r3, c3, t3⟩
  rw [h3] at hG
  have g1 : r3 = .ok () := hG.1
  have g2 : c3.users = c2.users := hG.2.1
  have g3 : c3.databases = c2.databases := hG.2.2.1
  have g6 : ∀ u ∈ users, ∀ g ∈ u.grants, (g.table ≠ "*" ∧ g.sequence ≠ "*") →
      pgGrantHeld c3 u.name g := hG.2.2.2.2.2
  subst g1
  have hfin : PG.Manage c0 dbs users = (.ok (), c3, t1 ++ t2 ++ t3) := by
    simp only [PG.Manage, h1, h2, h3]
  refine ⟨by rw [hfin], ?_, ?_, ?_⟩
  · intro u hu
    rw [hfin]
    exact (getUser_congr c2 c3 u.name g2).trans (hgot2 u hu)
  · intro d hd
    rw [hfin]
    exact ⟨(databaseExists_congr c2 c3 d.name g3).mpr (d2 d hd).1,
      fun ho => (getOwner_congr c2 c3 d.name g3).trans ((d2 d hd).2 ho)⟩
  · intro u hu g hg hnw
    rw [hfin]
    exact g6 u hu g hg hnw

/-- Statement classification used by the corrected idempotence claim: the
statements an immediate second `Manage` run may re-execute — a clause-free
ALTER USER, a password set, an ALTER DEFAULT PRIVILEGES rule, or a
wildcard-scoped GRANT. -/
def c1AllowedRerun : Stmt → Bool
  | .alterUser _ clauses => clauses.isEmpty
  | .setPassword _ _ => true
  | .alterDefaultPrivilege _ _ => true
  | .grant _ g => g.table == "*" || g.sequence == "*"
  | _ => false

/-- Spec-modelled classification, following the claim's words rather than
the code: the original claim permits only password sets and wildcard-scoped
grants on the second run. -/
def c1SpecRerunAllowed : Stmt → Bool
  | .setPassword _ _ => true
  | .grant _ g => g.table == "*" || g.sequence == "*"
  | _ => false

/-- Counterexample to C1 as stated: from an empty catalog, one declared user
with no password and one declared database carrying one default-privilege
rule, the first `Manage` run succeeds, yet the second run re-executes a
clause-free ALTER USER and the ALTER DEFAULT PRIVILEGES rule — statements
the claim does not permit. -/
theorem c1_counterexample_second_run :
    (PG.Manage ⟨"admin", [], [], [], []⟩
      [⟨"d", [⟨"r", "public", ["SELECT"], "tables", "u", false⟩], ""⟩]
      [⟨"u", "", freshOptions true, [], []⟩]).1 = .ok () ∧
    ¬ ∀ s ∈ (PG.Manage
        (PG.Manage ⟨"admin", [], [], [], []⟩
          [⟨"d", [⟨"r", "public", ["SELECT"], "tables", "u", false⟩], ""⟩]
          [⟨"u", "", freshOptions true, [], []⟩]).2.1
        [⟨"d", [⟨"r", "public", ["SELECT"], "tables", "u", false⟩], ""⟩]
        [⟨"u", "", freshOptions true, [], []⟩]).2.2,
      c1SpecRerunAllowed s = true := by
  decide

/-- Claim C1 (corrected): for well-formed declarations — pairwise-distinct
user and database names, passworded users declared with login, every user
declared with inherit (the server's CREATE USER/ROLE default, which
`createUser` emits no NOINHERIT clause to negate), grants that
name a database, request at least one privilege, do not mix table and
sequence scope, and give schema-scoped grants a table or sequence, and
database owners that are declared users or pre-existing roles — a first
`Manage` run succeeds, and an immediate second run succeeds while issuing
only clause-free ALTER USER statements, password sets, ALTER DEFAULT
PRIVILEGES rules, and wildcard-scoped GRANTs: no option-changing,
ownership-changing, or non-wildcard privilege-changing statement is
re-executed. -/
theorem c1_manage_rerun_amended (c0 : Catalog) (dbs : List Database) (users : List User)
    (hud : users.Pairwise (fun a b => a.name ≠ b.name))
    (hdd : dbs.Pairwise (fun a b => a.name ≠ b.name))
    (hpw : ∀ u ∈ users, u.password ≠ "" → u.options.login = true)
    (hin : ∀ u ∈ users, u.options.inherit = true)
    (hsh : ∀ u ∈ users, ∀ g ∈ u.grants, g.database ≠ "" ∧ g.privileges ≠ [] ∧
      ¬(g.table ≠ "" ∧ g.sequence ≠ "") ∧
      (g.schema ≠ "" → (g.table ≠ "" ∨ g.sequence ≠ "")))
    (hown : ∀ d ∈ dbs, d.owner ≠ "" →
      (d.owner ∈ users.map User.name ∨ c0.userExists d.owner)) :
    (PG.Manage c0 dbs users).1 = .ok () ∧
    (PG.Manage (PG.Manage c0 dbs users).2.1 dbs users).1 = .ok () ∧
    ∀ s ∈ (PG.Manage (PG.Manage c0 dbs users).2.1 dbs users).2.2,
      c1AllowedRerun s = true := by
  obtain ⟨hok1, hgot, hdbf, hheld⟩ :=
    pg_Manage_run1 c0 dbs users hud hdd hpw hin hsh hown
  set F := (PG.Manage c0 dbs users).2.1 with hF
  have hU2 := pg_userPhase_rerun users F hgot
  rcases h1 : runList PG.CreateUser F users with ⟨r1, c1, t1⟩
  rw [h1] at hU2
  have u1 : r1 = .ok () := hU2.1
  have u2 : c1 = F := hU2.2.1
  have u3 : ∀ s ∈ t1, (∃ n, s = .alterUser n []) ∨ ∃ n p, s = .setPassword n p :=
    hU2.2.2
  subst u1
  have hD2 := pg_dbPhase_rerun dbs c1 (by rw [u2]; exact hdbf)
  rcases h2 : runList PG.CreateDatabase c1 dbs with ⟨r2, c2, t2⟩
  rw [h2] at hD2
  have d1 : r2 = .ok () := hD2.1
  have d2 : c2 = c1 := hD2.2.1
  have d3 : ∀ s ∈ t2, ∃ db p, s = .alterDefaultPrivilege db p := hD2.2.2
  subst d1
  have hc2F : c2 = F := d2.trans u2
  have hG2 := pg_grantPhase_rerun users c2
    (by
      rw [hc2F]
      exact fun u hu => getUser_ok_userExists F u.name u.options (hgot u hu))
    hsh
    (by rw [hc2F]; exact hheld)
  rcases h3 : runList (fun c u => runList (fun c g =>
      PG.GrantPermissions c u.name g.database [g]) c u.grants) c2 users
    with ⟨r3, c3, t3⟩
  rw [h3] at hG2
  have g1 : r3 = .ok () := hG2.1
  have g2 : ∀ s ∈ t3, ∃ un g2, s = .grant un g2 ∧
      (g2.table = "*" ∨ g2.sequence = "*") := hG2.2
  subst g1
  have hfin : PG.Manage F dbs users = (.ok (), c3, t1 ++ t2 ++ t3) := by
    simp only [PG.Manage, h1, h2, h3]
  refine ⟨hok1, by rw [hfin], ?_⟩
  intro s hs
  rw [hfin] at hs
  replace hs : s ∈ t1 ++ t2 ++ t3 := hs
  rcases List.mem_append.mp hs with hs | hs
  · rcases List.mem_append.mp hs with hs | hs
    · rcases u3 s hs with ⟨n, he⟩ | ⟨n, p, he⟩ <;> subst he <;> rfl
    · obtain ⟨db, p, he⟩ := d3 s hs
      subst he
      rfl
  · obtain ⟨un, gg, he, hw⟩ := g2 s hs
    subst he
    rcases hw with hw | hw <;> simp [c1AllowedRerun, hw]

/-- Witness for the corrected C1: one passworded user with one database
grant and one owned database with a default-privilege rule — both runs
succeed and the second run's statements are all of the permitted shapes. -/
theorem c1_manage_rerun_amended_witness :
    (PG.Manage ⟨"admin", [], [], [], []⟩
      [⟨"d", [⟨"r", "public", ["SELECT"], "tables", "u", false⟩], "u"⟩]
      [⟨"u", "pw", freshOptions true, [⟨"d", "", "", "", "", ["ALL"], false⟩], []⟩]).1 =
      .ok () ∧
    (PG.Manage (PG.Manage ⟨"admin", [], [], [], []⟩
        [⟨"d", [⟨"r", "public", ["SELECT"], "tables", "u", false⟩], "u"⟩]
        [⟨"u", "pw", freshOptions true, [⟨"d", "", "", "", "", ["ALL"], false⟩], []⟩]).2.1
      [⟨"d", [⟨"r", "public", ["SELECT"], "tables", "u", false⟩], "u"⟩]
      [⟨"u", "pw", freshOptions true, [⟨"d", "", "", "", "", ["ALL"], false⟩], []⟩]).1 =
      .ok () ∧
    ∀ s ∈ (PG.Manage (PG.Manage ⟨"admin", [], [], [], []⟩
        [⟨"d", [⟨"r", "public", ["SELECT"], "tables", "u", false⟩], "u"⟩]
        [⟨"u", "pw", freshOptions true, [⟨"d", "", "", "", "", ["ALL"], false⟩], []⟩]).2.1
      [⟨"d", [⟨"r", "public", ["SELECT"], "tables", "u", false⟩], "u"⟩]
      [⟨"u", "pw", freshOptions true, [⟨"d", "", "", "", "", ["ALL"], false⟩], []⟩]).2.2,
      c1AllowedRerun s = true :=
  c1_manage_rerun_amended ⟨"admin", [], [], [], []⟩
    [⟨"d", [⟨"r", "public", ["SELECT"], "tables", "u", false⟩], "u"⟩]
    [⟨"u", "pw", freshOptions true, [⟨"d", "", "", "", "", ["ALL"], false⟩], []⟩]
    (by decide) (by decide) (by decide) (by decide) (by decide) (by decide)
